import Mathlib

/-!
A shallow embedding of the `decimal` package (files `decimal.go`, `context.go`,
`format.go`) in Lean 4, together with theorems settling the specification
claims about it.

Conventions of the embedding:
* Go `int32` / `int64` values are modelled as `Int`; at every point where the
  source performs a checked operation (`checked.Add`, `checked.Add32`, ...)
  the embedding performs the same range test explicitly.
* Go strings are modelled as `List Char` (the source only works with ASCII).
* `big.Int` values are modelled as `Int`.
* Functions from the repository's `internal/...` packages (`checked`, `arith`,
  `pow`, `c`, `parse`) are not part of the given sources; they are modelled
  from the specification and from their call sites, and each such definition
  carries a doc comment starting with `Modelled from the spec:`.
* Go-mode `panic` on an `ErrNaN` (in `Big.signal`) is modelled by `Option`:
  operations that can panic return `none` in exactly that case.
-/

namespace DecimalSpec

/-! ## Forms (the `form` type of decimal.go) -/

/-- form zero (positive zero). -/
def fZero : Nat := 0
/-- the `sign` bit of a form. -/
def fSign : Nat := 1
/-- form nzero (negative zero): `zero | sign`. -/
def fNZero : Nat := 1
/-- form finite. -/
def fFinite : Nat := 2
/-- form snan (signaling NaN). -/
def fSNaN : Nat := 4
/-- form qnan (quiet NaN). -/
def fQNaN : Nat := 8
/-- the mask `nan = snan | qnan`. -/
def fNaN : Nat := 12
/-- form pinf (positive infinity). -/
def fPInf : Nat := 16
/-- form ninf (negative infinity): `pinf | sign`. -/
def fNInf : Nat := 17
/-- the mask `inf = pinf`. -/
def fInf : Nat := 16

/-! ## Conditions (context.go): one bit each, in declaration order. -/

def Clamped : Nat := 1
def ConversionSyntax : Nat := 2
def DivisionByZero : Nat := 4
def DivisionImpossible : Nat := 8
def DivisionUndefined : Nat := 16
def Inexact : Nat := 32
def InsufficientStorage : Nat := 64
def InvalidContext : Nat := 128
def InvalidOperation : Nat := 256
def Overflow : Nat := 512
def Rounded : Nat := 1024
def Subnormal : Nat := 2048
def Underflow : Nat := 4096

/-! ## Rounding modes and operating modes (context.go). -/

def ToNearestEven : Nat := 0
def ToNearestAway : Nat := 1
def ToZero : Nat := 2
def AwayFromZero : Nat := 3
def ToNegativeInf : Nat := 4
def ToPositiveInf : Nat := 5

/-- OperatingMode Go. -/
def GoMode : Nat := 0
/-- OperatingMode GDA. -/
def GDA : Nat := 1

/-! ## Numeric limits. -/

/-- `MaxScale = math.MaxInt32`. -/
def MaxScale : Int := 2147483647
/-- `MinScale = math.MinInt32`. -/
def MinScale : Int := -2147483648
/-- `DefaultPrecision = 16`. -/
def DefaultPrecision : Int := 16
/-- the `noPrecision` sentinel of context.go. -/
def noPrecision : Int := -1
/-- largest int64. -/
def maxInt64 : Int := 9223372036854775807
/-- smallest int64. -/
def minInt64 : Int := -9223372036854775808

/-- Modelled from the spec: `c.Inflated` (package `internal/c`), the compact
sentinel; a decimal whose `compact` field holds this value stores its
magnitude in `unscaled`.  The dedicated discriminant of spec section 3. -/
def Inflated : Int := -9223372036854775808

/-! ## Models of the missing `internal` packages. -/

/-- Modelled from the spec: `checked.Add` (package `internal/arith/checked`):
int64 addition with an overflow check ("attempting native-width arithmetic
with overflow checks first", spec section 4.3). -/
def checkedAdd (x y : Int) : Int × Bool :=
  let s := x + y
  (s, decide (minInt64 ≤ s ∧ s ≤ maxInt64))

/-- Modelled from the spec: `checked.Sub`: int64 subtraction with an
overflow check. -/
def checkedSub (x y : Int) : Int × Bool :=
  let s := x - y
  (s, decide (minInt64 ≤ s ∧ s ≤ maxInt64))

/-- Modelled from the spec: `checked.Mul`: int64 multiplication with an
overflow check. -/
def checkedMul (x y : Int) : Int × Bool :=
  let p := x * y
  (p, decide (minInt64 ≤ p ∧ p ≤ maxInt64))

/-- Modelled from the spec: `checked.Add32`: int32 addition with an overflow
check. -/
def checkedAdd32 (x y : Int) : Int × Bool :=
  let s := x + y
  (s, decide (MinScale ≤ s ∧ s ≤ MaxScale))

/-- Modelled from the spec: `checked.Sub32`: int32 subtraction with an
overflow check. -/
def checkedSub32 (x y : Int) : Int × Bool :=
  let s := x - y
  (s, decide (MinScale ≤ s ∧ s ≤ MaxScale))

/-- Modelled from the spec: `checked.Int32`: checked conversion of an int64
value into int32. -/
def checkedInt32 (x : Int) : Int × Bool :=
  (x, decide (MinScale ≤ x ∧ x ≤ MaxScale))

/-- Modelled from the spec: `checked.SumSub(x, y, z) = x + y - z` with an
int32 overflow check (used by division to compute the dividend shift). -/
def checkedSumSub (x y z : Int) : Int × Bool :=
  let s := x + y - z
  (s, decide (MinScale ≤ s ∧ s ≤ MaxScale))

/-- Modelled from the spec: `checked.MulPow10(x, n) = x * 10^n` when the
product fits into an int64 (inflating a compact magnitude by a power of
ten, falling back to arbitrary precision on overflow, spec section 4.3). -/
def checkedMulPow10 (x n : Int) : Int × Bool :=
  if n < 0 then (x, false)
  else
    let p := x * 10 ^ n.toNat
    (p, decide (minInt64 ≤ p ∧ p ≤ maxInt64))

/-- Modelled from the spec: `checked.MulBigPow10(x, n) = x * 10^n` on
arbitrary-precision integers. -/
def mulBigPow10 (x n : Int) : Int :=
  if n < 0 then x else x * 10 ^ n.toNat

/-- Modelled from the spec: `pow.Ten64(n) = 10^n` when that power fits into
an int64. -/
def powTen64 (n : Int) : Int × Bool :=
  if n < 0 then (0, false)
  else
    let p : Int := 10 ^ n.toNat
    (p, decide (p ≤ maxInt64))

/-- Modelled from the spec: `pow.BigTen(n) = 10^n` as an arbitrary-precision
integer. -/
def bigTen (n : Int) : Int :=
  if n < 0 then 1 else 10 ^ n.toNat

/-- Modelled from the spec: `arith.Abs`, absolute value of an int64. -/
def arithAbs (x : Int) : Int := |x|

/-- Modelled from the spec: `arith.Length`, the number of decimal digits of
an int64 magnitude (`Length 0 = 1`), written as the power-of-ten comparison
ladder the package uses over the int64 range. -/
def arithLength (x : Int) : Int :=
  let n := x.natAbs
  if n < 10 then 1 else if n < 100 then 2 else if n < 1000 then 3
  else if n < 10 ^ 4 then 4 else if n < 10 ^ 5 then 5 else if n < 10 ^ 6 then 6
  else if n < 10 ^ 7 then 7 else if n < 10 ^ 8 then 8 else if n < 10 ^ 9 then 9
  else if n < 10 ^ 10 then 10 else if n < 10 ^ 11 then 11 else if n < 10 ^ 12 then 12
  else if n < 10 ^ 13 then 13 else if n < 10 ^ 14 then 14 else if n < 10 ^ 15 then 15
  else if n < 10 ^ 16 then 16 else if n < 10 ^ 17 then 17 else if n < 10 ^ 18 then 18
  else if n < 10 ^ 19 then 19 else 20

/-- Modelled from the spec: `arith.BigLength`, the number of decimal digits
of an arbitrary-precision magnitude (`BigLength 0 = 1`). -/
def arithBigLength (x : Int) : Int :=
  if x = 0 then 1 else ((Nat.digits 10 x.natAbs).length : Int)

/-! ## Errors and context. -/

/-- The error values threaded through `signal`: `ErrNaN` carries a message
naming the operation, every other `error` is a plain message. -/
inductive Err where
  | nan (msg : String)
  | other (msg : String)
deriving DecidableEq, Repr

/-- The `Context` struct of context.go.  `precision` is the raw stored field
(0 means "use DefaultPrecision", `noPrecision = -1` means "no rounding"). -/
structure Context where
  operatingMode : Nat := GoMode
  precision : Int := 0
  traps : Nat := 0
  conditions : Nat := 0
  err : Option Err := none
  roundingMode : Nat := ToNearestEven
deriving DecidableEq, Repr

/-- `Context.Precision()` of context.go. -/
def Context.precisionFn (c : Context) : Int :=
  if c.precision = 0 then DefaultPrecision
  else if c.precision = noPrecision then 0
  else c.precision

/-- `Context.SetPrecision` of context.go. -/
def Context.setPrecision (c : Context) (prec : Int) : Context :=
  if prec = 0 then { c with precision := noPrecision }
  else { c with precision := prec }

/-- The `Big` struct of decimal.go: context, arbitrary-precision magnitude
(`unscaled`), compact magnitude (`compact`), scale and form. -/
structure Big where
  ctx : Context := {}
  unscaled : Int := 0
  compact : Int := 0
  scale : Int := 0
  form : Nat := fZero
deriving DecidableEq, Repr

/-- `Big.isCompact`: the compact field is authoritative iff it differs from
the `Inflated` sentinel. -/
def Big.isCompact (x : Big) : Bool := x.compact ≠ Inflated

/-- `Big.isInflated`. -/
def Big.isInflated (x : Big) : Bool := !x.isCompact

/-- The authoritative magnitude of a decimal (the field selected by the
compact/inflated discriminant). -/
def Big.mant (x : Big) : Int := if x.isCompact then x.compact else x.unscaled

/-- `Big.Precision` of decimal.go. -/
def Big.precision (x : Big) : Int :=
  if x.form ≠ fFinite then (if x.form ≤ fNZero then 1 else 0)
  else if x.isCompact then arithLength x.compact
  else arithBigLength x.unscaled

/-- `Big.Sign` of decimal.go.  For a compact finite value both the amd64
bit-trick branch and the generic branch compute the integer signum of the
compact field, which is how the function is embedded here. -/
def Big.signFn (x : Big) : Int :=
  if x.form ≠ fFinite then
    if x.form = fZero ∨ x.form = fNZero then 0
    else if x.form = fNInf then -1
    else if x.form = fPInf then 1
    else 0
  else if x.isCompact then Int.sign x.compact
  else Int.sign x.unscaled

/-- `Big.Signbit` of decimal.go. -/
def Big.signbit (x : Big) : Bool :=
  if x.form ≠ fFinite then decide (x.form = fNInf ∨ x.form = fNZero)
  else if x.isCompact then decide (x.compact < 0)
  else decide (x.unscaled < 0)

/-- `Big.IsFinite`. -/
def Big.isFinite (x : Big) : Bool := x.form = fFinite

/-- `Big.signal` of decimal.go.  In Go mode a `nan` error panics, which the
embedding models as `none`; in GDA mode the raised condition set is
*assigned* to `Context.Conditions` and the error is recorded when trapped;
any other operating mode records `InvalidContext` and forces quiet NaN. -/
def Big.signal (x : Big) (c : Nat) (e : Option Err) : Option Big :=
  if x.ctx.operatingMode = GoMode then
    match e with
    | some (Err.nan _) => none
    | _ => some x
  else if x.ctx.operatingMode = GDA then
    some { x with ctx :=
      { x.ctx with
        conditions := c
        err := if c &&& x.ctx.traps ≠ 0 then e else x.ctx.err } }
  else
    some { x with
      form := fQNaN
      ctx := { x.ctx with
        conditions := c ||| InvalidContext
        err := some (Err.other "invalid OperatingMode") } }

/-- `Big.signal` at call sites whose error is never an `ErrNaN` (such as
`xflow` and `SetString`): in Go mode the source returns the receiver
unchanged there, so no panic can occur and the result is a plain `Big`. -/
def Big.signalNN (x : Big) (c : Nat) (e : Option Err) : Big :=
  if x.ctx.operatingMode = GoMode then x
  else if x.ctx.operatingMode = GDA then
    { x with ctx :=
      { x.ctx with
        conditions := c
        err := if c &&& x.ctx.traps ≠ 0 then e else x.ctx.err } }
  else
    { x with
      form := fQNaN
      ctx := { x.ctx with
        conditions := c ||| InvalidContext
        err := some (Err.other "invalid OperatingMode") } }

/-- `Big.checkNaNs` of decimal.go: returns the updated receiver, the raised
condition and the error (the receiver's form is set to quiet NaN whenever
either operand is any NaN). -/
def Big.checkNaNs (z x y : Big) (op : String) : Big × Nat × Option Err :=
  let f := (x.form ||| y.form) &&& fNaN
  if f = 0 then (z, 0, none)
  else
    let cond := if f &&& fSNaN ≠ 0 then InvalidOperation else 0
    ({ z with form := fQNaN }, cond,
      some (Err.nan (op ++ " with NaN as an operand")))

/-- `Big.xflow` of decimal.go: overflow yields a signed infinity with
`Overflow | Inexact | Rounded`; underflow yields a signed zero at `MinScale`
with `Underflow | Inexact | Rounded | Subnormal`.  Its errors are plain
(`errOverflow` / `errUnderflow`), never `ErrNaN`, so `signalNN` applies. -/
def Big.xflow (z : Big) (over neg : Bool) : Big :=
  if over then
    let z := { z with form := if neg then fNInf else fPInf }
    z.signalNN (Overflow ||| Inexact ||| Rounded)
      (some (Err.other "decimal: overflow: scale is too large"))
  else
    let z := { z with scale := MinScale, form := if neg then fNZero else fZero }
    z.signalNN (Underflow ||| Inexact ||| Rounded ||| Subnormal)
      (some (Err.other "decimal: underflow: scale is too small"))

/-! ## Division rounding and the `Round` chain. -/

/-- Modelled from the spec: `Big.needsInc` (missing from the given sources):
"use the division remainder to decide, per the active rounding mode, whether
to adjust the truncated quotient up or down (odd/even parity of the last
retained digit breaks ties for nearest-even)" (spec section 4.3).  `y` is
the divisor, `r` the nonzero remainder, `pos` whether the rounding direction
argument is positive, `odd` the parity of the quotient's last digit. -/
def needsInc (mode : Nat) (y r : Int) (pos odd : Bool) : Bool :=
  if mode = AwayFromZero then true
  else if mode = ToZero then false
  else if mode = ToPositiveInf then pos
  else if mode = ToNegativeInf then !pos
  else if mode = ToNearestEven then
    decide (2 * |r| > |y|) || (decide (2 * |r| = |y|) && odd)
  else if mode = ToNearestAway then decide (2 * |r| ≥ |y|)
  else false

/-- Magnitude of a truncating division (used for the termination measures of
the digit-stripping loops below). -/
theorem natAbs_tdiv (a b : Int) : (Int.tdiv a b).natAbs = a.natAbs / b.natAbs := by
  cases a <;> cases b <;> simp only [Int.tdiv, Int.natAbs_neg] <;> rfl

/-- The loop body of `Big.simplify`: strip trailing zero digits from the
compact magnitude while the scale exceeds the context precision.  The Go
`for` loop is embedded as recursion on the magnitude, which shrinks by a
factor of ten on every iteration. -/
def Big.simplifyLoop (z : Big) (prec : Int) : Big :=
  if h : 10 ≤ |z.compact| ∧ prec < z.scale then
    if Int.tmod z.compact 2 ≠ 0 ∨ Int.tmod z.compact 10 ≠ 0 then z
    else
      let z1 : Big := { z with
        compact := Int.tdiv z.compact 10
        ctx := { z.ctx with conditions := z.ctx.conditions ||| Rounded } }
      let p := checkedSub32 z.scale 1
      let z2 : Big := { z1 with scale := p.1 }
      if p.2 then z2.simplifyLoop prec
      else z2.xflow false (decide (z2.compact < 0))
  else z
termination_by z.compact.natAbs
decreasing_by
  have h1 : (10:Int) ≤ |z.compact| := h.1
  rw [Int.abs_eq_natAbs] at h1
  have h2 : 10 ≤ z.compact.natAbs := by exact_mod_cast h1
  rw [natAbs_tdiv]
  exact Nat.div_lt_self (by omega) (by norm_num)

/-- `Big.simplify` of decimal.go. -/
def Big.simplify (z : Big) : Big :=
  if z.scale = z.ctx.precisionFn then z
  else z.simplifyLoop z.ctx.precisionFn

/-- `Big.quoAndRound` of decimal.go (Go `/` and `%` truncate toward zero;
`z.compact&1 != 0` tests oddness of the quotient).  The `sign > 0` argument
of the source's `needsInc` call refers to the form constant `sign = 1`, so
it is the literal `true`. -/
def Big.quoAndRound (z : Big) (x y : Int) : Big :=
  let z := { z with form := fFinite, compact := Int.tdiv x y }
  if z.ctx.roundingMode = ToZero then z
  else
    let r := Int.tmod x y
    if r = 0 then z.simplify
    else if needsInc z.ctx.roundingMode y r true (Int.tmod z.compact 2 ≠ 0) then
      if (decide (x < 0)) = (decide (y < 0)) then { z with compact := z.compact + 1 }
      else { z with compact := z.compact - 1 }
    else z

/-- The loop body of `Big.simplifyBig`.  Go `big.Int.And(u, 1).Cmp(1) != 0`
tests that `u` is even (two's-complement AND with one), `Mod` is Euclidean,
and `Div` is Euclidean division. -/
def Big.simplifyBigLoop (z : Big) (prec : Int) : Big :=
  if h : 10 ≤ |z.unscaled| ∧ prec < z.scale then
    if z.unscaled % 2 ≠ 1 ∨ z.unscaled % 10 ≠ 0 then z
    else
      let z1 : Big := { z with
        unscaled := z.unscaled / 10
        ctx := { z.ctx with conditions := z.ctx.conditions ||| Rounded } }
      let p := checkedSub32 z.scale 1
      let z2 : Big := { z1 with scale := p.1 }
      if p.2 then z2.simplifyBigLoop prec
      else z2.xflow false (decide (z2.signFn < 0))
  else z
termination_by z.unscaled.natAbs
decreasing_by
  have h1 : (10:Int) ≤ |z.unscaled| := h.1
  rw [Int.abs_eq_natAbs] at h1
  omega

/-- `Big.simplifyBig` of decimal.go (when the magnitude fits an int64 it is
demoted to compact form and `simplify` takes over). -/
def Big.simplifyBig (z : Big) : Big :=
  if z.scale = z.ctx.precisionFn then z
  else if minInt64 ≤ z.unscaled ∧ z.unscaled ≤ maxInt64 then
    Big.simplify { z with compact := z.unscaled }
  else z.simplifyBigLoop z.ctx.precisionFn

/-- `Big.quoBigAndRound` of decimal.go (`big.Int.QuoRem` truncates toward
zero; `And(q, 1)` tests the quotient's parity). -/
def Big.quoBigAndRound (z : Big) (x y : Int) : Big :=
  let q := Int.tdiv x y
  let r := Int.tmod x y
  let z := { z with form := fFinite, compact := Inflated, unscaled := q }
  if z.ctx.roundingMode = ToZero ∧ z.scale = z.ctx.precisionFn then z
  else if r = 0 then z.simplifyBig
  else
    let odd := Int.tmod q 2 ≠ 0
    if needsInc z.ctx.roundingMode y r true odd then
      if (decide (x < 0)) = (decide (y < 0)) then
        { z with unscaled := z.unscaled + 1 }
      else { z with unscaled := z.unscaled - 1 }
    else z

/-- `Big.Round` of decimal.go. -/
def Big.roundN (z : Big) (n : Int) : Big :=
  if n ≤ 0 ∨ z.form ≠ fFinite then z
  else
    let zp := z.precision
    if n ≥ zp then z
    else
      let p := checkedSub zp n
      if ¬ p.2 then z.xflow (decide (zp < 0)) z.signbit
      else if p.1 ≤ 0 then z
      else
        let shift := p.1
        let z := { z with
          ctx := { z.ctx.setPrecision n with
            conditions := (z.ctx.setPrecision n).conditions ||| Rounded }
          scale := z.scale - shift }
        if z.isCompact then
          let t := powTen64 shift
          if t.2 then z.quoAndRound z.compact t.1
          else
            let z := { z with unscaled := z.compact }
            z.quoBigAndRound z.unscaled (bigTen shift)
        else z.quoBigAndRound z.unscaled (bigTen shift)

/-- The unexported `Big.round` of decimal.go: round to the context precision
only in GDA mode with a nonzero precision. -/
def Big.round (z : Big) : Big :=
  let zp := z.ctx.precisionFn
  if zp ≠ 0 ∧ z.ctx.operatingMode = GDA then z.roundN zp
  else z

/-- `Big.Set` of decimal.go for distinct receiver and operand (the source's
`z != x` pointer test is true in every use made here): copy the numeric
fields, keep the receiver's context, and round to the receiver's context
precision. -/
def Big.set (z x : Big) : Big :=
  let z := { z with
    compact := x.compact
    form := x.form
    scale := x.scale
    unscaled := if x.isInflated then x.unscaled else z.unscaled }
  z.roundN z.ctx.precisionFn

/-- `Big.Neg` of decimal.go. -/
def Big.neg (z x : Big) : Option Big :=
  if x.form = fFinite then
    some (if x.isCompact then
      { z with compact := -x.compact, scale := x.scale, form := x.form }
    else
      { z with unscaled := -x.unscaled, compact := Inflated,
               scale := x.scale, form := x.form })
  else
    let p := z.checkNaNs x x "negation"
    match p.2.2 with
    | some e => p.1.signal p.2.1 (some e)
    | none => some { z with form := x.form ^^^ fSign }

/-- `Big.SetMantScale` of decimal.go. -/
def Big.setMantScale (z : Big) (value scale : Int) : Big :=
  if value = 0 then { z with form := fZero }
  else { z with
    scale := scale
    unscaled := if value = Inflated then value else z.unscaled
    compact := value
    form := fFinite }

/-- `New` of decimal.go: a fresh decimal with the given value and scale. -/
def bigNew (value scale : Int) : Big :=
  Big.setMantScale {} value scale

/-! ## Arithmetic operations. -/

/-- `Big.Abs` of decimal.go for a receiver distinct from the operand.  The
result is the pair (receiver, operand) after the call: the non-finite,
non-NaN branch clears the *operand's* sign bit (`x.form &= ^sign`, i.e.
AND with 0xFE) and returns the receiver untouched. -/
def Big.abs (z x : Big) : Option (Big × Big) :=
  if x.form = fFinite then
    some (if x.isCompact then
      { z with compact := arithAbs x.compact, scale := x.scale, form := fFinite }
    else
      { z with unscaled := |x.unscaled|, scale := x.scale, form := fFinite }, x)
  else
    let p := z.checkNaNs x x "abs"
    match p.2.2 with
    | some e =>
      match p.1.signal p.2.1 (some e) with
      | none => none
      | some z2 => some (z2, x)
    | none => some (z, { x with form := x.form &&& 254 })

/-- `Big.addCompact` of decimal.go.  Note that the mixed-scale fast path
stores the sum without the zero-form check the other branches perform. -/
def Big.addCompact (z x y : Big) : Big :=
  if x.scale = y.scale then
    let z := { z with scale := x.scale }
    let p := checkedAdd x.compact y.compact
    if p.2 then
      { z with form := if p.1 = 0 then fZero else z.form, compact := p.1 }
    else
      let s := x.compact + y.compact
      { z with form := if s = 0 then fZero else z.form,
               unscaled := s, compact := Inflated }
  else
    let hi := if x.scale < y.scale then y else x
    let lo := if x.scale < y.scale then x else y
    let inc := hi.scale - lo.scale
    let z := { z with scale := hi.scale }
    let q := checkedMulPow10 lo.compact inc
    let r := checkedAdd hi.compact q.1
    if q.2 ∧ r.2 then { z with compact := r.1 }
    else
      let s := mulBigPow10 lo.compact inc + hi.compact
      { z with form := if s = 0 then fZero else z.form,
               unscaled := s, compact := Inflated }

/-- `Big.addBig` of decimal.go. -/
def Big.addBig (z x y : Big) : Big :=
  let xb := x.mant
  let yb := y.mant
  let z := { z with compact := Inflated }
  if x.scale = y.scale then
    let s := xb + yb
    { z with scale := x.scale, unscaled := s,
             form := if s = 0 then fZero else z.form }
  else
    let hi := if x.scale < y.scale then yb else xb
    let lo := if x.scale < y.scale then xb else yb
    let his := if x.scale < y.scale then y.scale else x.scale
    let los := if x.scale < y.scale then x.scale else y.scale
    let s := hi + mulBigPow10 lo (his - los)
    { z with unscaled := s, form := if s = 0 then fZero else z.form,
             scale := his }

/-- `Big.Add` of decimal.go. -/
def Big.add (z x y : Big) : Option Big :=
  if x.form = fFinite ∧ y.form = fFinite then
    let z := { z with form := fFinite }
    if x.isCompact ∧ y.isCompact then some (z.addCompact x y).round
    else some (z.addBig x y).round
  else
    let p := z.checkNaNs x y "addition"
    match p.2.2 with
    | some e => p.1.signal p.2.1 (some e)
    | none =>
      if x.form &&& y.form = fInf ∧ x.form ^^^ y.form = fSign then
        Big.signal { z with form := fQNaN } InvalidOperation
          (some (Err.nan "addition of infinities with opposing signs"))
      else if x.form ≤ fNZero ∧ y.form ≤ fNZero then
        some { z with form := x.form &&& y.form }
      else if x.form &&& fInf ≠ 0 ∨ y.form ≤ fNZero then
        some (z.set x)
      else
        some (z.set y)

/-- `Big.subBig` of decimal.go. -/
def Big.subBig (z x y : Big) : Big :=
  let xb := x.mant
  let yb := y.mant
  let xb2 := if x.scale < y.scale then mulBigPow10 xb (y.scale - x.scale) else xb
  let yb2 := if x.scale > y.scale then mulBigPow10 yb (x.scale - y.scale) else yb
  let sc := if x.scale < y.scale then y.scale else x.scale
  let s := xb2 - yb2
  { z with scale := sc, unscaled := s,
           form := if s = 0 then fZero else z.form, compact := Inflated }

/-- `Big.subCompact` of decimal.go: align scales with checked power-of-ten
multiplication, fall back to `subBig` on any overflow; a zero difference
takes the zero form. -/
def Big.subCompact (z x y : Big) : Big :=
  if x.scale = y.scale then
    let z := { z with scale := x.scale }
    let p := checkedSub x.compact y.compact
    if p.2 then { z with compact := p.1, form := if p.1 = 0 then fZero else z.form }
    else z.subBig x y
  else if x.scale < y.scale then
    let q := checkedMulPow10 x.compact (y.scale - x.scale)
    if ¬ q.2 then z.subBig x y
    else
      let z := { z with scale := y.scale }
      let p := checkedSub q.1 y.compact
      if p.2 then { z with compact := p.1, form := if p.1 = 0 then fZero else z.form }
      else z.subBig x y
  else
    let q := checkedMulPow10 y.compact (x.scale - y.scale)
    if ¬ q.2 then z.subBig x y
    else
      let z := { z with scale := x.scale }
      let p := checkedSub x.compact q.1
      if p.2 then { z with compact := p.1, form := if p.1 = 0 then fZero else z.form }
      else z.subBig x y

/-- `Big.Sub` of decimal.go. -/
def Big.sub (z x y : Big) : Option Big :=
  if x.form = fFinite ∧ y.form = fFinite then
    let z := { z with form := fFinite }
    if x.isCompact ∧ y.isCompact then some (z.subCompact x y).round
    else some (z.subBig x y).round
  else
    let p := z.checkNaNs x y "subtraction"
    match p.2.2 with
    | some e => p.1.signal p.2.1 (some e)
    | none =>
      if x.form &&& fInf ≠ 0 ∧ x.form = y.form then
        Big.signal { z with form := fQNaN } InvalidOperation
          (some (Err.nan "subtraction of infinities with equal signs"))
      else if x.form ≤ fNZero ∧ y.form ≤ fNZero then
        some { z with form := fZero }
      else if x.form &&& fInf ≠ 0 ∨ y.form ≤ fNZero then
        some (z.set x)
      else
        z.neg y

/-- `Big.mulCompact` of decimal.go.  On a scale-addition overflow it calls
`z.xflow(x.scale > 0, true)` - the `neg` argument is the literal `true`. -/
def Big.mulCompact (z x y : Big) : Big :=
  let p := checkedAdd32 x.scale y.scale
  if ¬ p.2 then z.xflow (decide (x.scale > 0)) true
  else
    let z := { z with scale := p.1 }
    let q := checkedMul x.compact y.compact
    let z :=
      if q.2 then { z with compact := q.1 }
      else { z with unscaled := x.compact * y.compact, compact := Inflated }
    { z with form := fFinite }

/-- `Big.mulBig` of decimal.go. -/
def Big.mulBig (z x y : Big) : Big :=
  let z := { z with unscaled := x.mant * y.mant, compact := Inflated }
  let p := checkedAdd32 x.scale y.scale
  if ¬ p.2 then z.xflow (decide (x.scale > 0)) true
  else { z with scale := p.1, form := fFinite }

/-- `Big.Mul` of decimal.go. -/
def Big.mul (z x y : Big) : Option Big :=
  if x.form = fFinite ∧ y.form = fFinite then
    let z := { z with form := fFinite }
    if x.isCompact ∧ y.isCompact then some (z.mulCompact x y).round
    else some (z.mulBig x y).round
  else
    let p := z.checkNaNs x y "multiplication"
    match p.2.2 with
    | some e => p.1.signal p.2.1 (some e)
    | none =>
      if (x.form ≤ fNZero ∧ y.form &&& fInf ≠ 0) ∨
         (x.form &&& fInf ≠ 0 ∧ y.form ≤ fNZero) then
        Big.signal { z with form := fQNaN } InvalidOperation
          (some (Err.nan "multiplication of zero with infinity"))
      else if x.form &&& fInf ≠ 0 ∨ y.form &&& fInf ≠ 0 then
        some { z with form := if x.signFn ≠ y.signFn then fNInf else fPInf }
      else
        some { z with form := fZero }

/-- Modelled from the spec: `arith.cmpNorm` — compare the two magnitudes
after normalizing each to the same digit position ("estimate the needed
left-shift of the dividend from the digit counts of both operands", spec
section 4.3): true iff the normalized `x` exceeds the normalized `y`. -/
def cmpNorm (x xp y yp : Int) : Bool :=
  decide (|x| * 10 ^ yp.toNat > |y| * 10 ^ xp.toNat)

/-- Modelled from the spec: `arith.cmpNormBig`, the arbitrary-precision
version of `cmpNorm`. -/
def cmpNormBig (x xp y yp : Int) : Bool := cmpNorm x xp y yp

/-- `Big.quoCompactCore` of decimal.go. -/
def Big.quoCompactCore (z : Big) (x xs xp y ys yp : Int) : Big :=
  let sd := checkedSub32 xs ys
  if ¬ sd.2 then z.xflow (decide (ys > 0)) true
  else
    let yp := if cmpNorm x xp y yp then yp - 1 else yp
    let zp := z.ctx.precisionFn
    let sc := checkedInt32 (sd.1 + yp - xp + zp)
    if ¬ sc.2 then z.xflow (decide (sc.1 < 0)) false
    else
      let z := { z with scale := sc.1 }
      let sh := checkedSumSub zp yp xp
      if ¬ sh.2 then z.xflow (decide (sc.1 < 0)) false
      else if sh.1 > 0 then
        let q := checkedMulPow10 x sh.1
        if q.2 then z.quoAndRound q.1 y
        else z.quoBigAndRound (mulBigPow10 x sh.1) y
      else
        let ns := checkedSub32 xp zp
        if ¬ ns.2 then z.xflow (decide (zp > 0)) true
        else if ns.1 = yp then z.quoAndRound x y
        else
          let sh2 := checkedSub32 ns.1 yp
          if ¬ sh2.2 then z.xflow (decide (yp > 0)) true
          else
            let q := checkedMulPow10 y sh2.1
            if q.2 then z.quoAndRound x q.1
            else z.quoBigAndRound x (mulBigPow10 y sh2.1)

/-- `Big.quoBigCore` of decimal.go (`xb`/`yb` are the magnitudes, already
selected between the compact and inflated fields by the caller). -/
def Big.quoBigCore (z : Big) (xb xs xp yb ys yp : Int) : Big :=
  let sd := checkedSub32 xs ys
  if ¬ sd.2 then z.xflow (decide (ys > 0)) true
  else
    let yp := if cmpNormBig xb xp yb yp then yp - 1 else yp
    let zp := z.ctx.precisionFn
    let sc := checkedInt32 (sd.1 + yp - xp + zp)
    if ¬ sc.2 then z.xflow (decide (sc.1 < 0)) true
    else
      let z := { z with scale := sc.1 }
      let sh := checkedSumSub zp yp xp
      if ¬ sh.2 then z.xflow (decide (sh.1 < 0)) true
      else if sh.1 > 0 then
        z.quoBigAndRound (mulBigPow10 xb sh.1) yb
      else
        let ns := checkedSub32 xp zp
        if ¬ ns.2 then z.xflow (decide (zp > 0)) true
        else
          let sh2 := checkedSub32 ns.1 yp
          if ¬ sh2.2 then z.xflow (decide (yp > 0)) true
          else z.quoBigAndRound xb (mulBigPow10 yb sh2.1)

/-- `Big.quoCompact` of decimal.go. -/
def Big.quoCompact (z x y : Big) : Big :=
  z.quoCompactCore x.compact x.scale x.precision y.compact y.scale y.precision

/-- `Big.quoBig` of decimal.go. -/
def Big.quoBig (z x y : Big) : Big :=
  z.quoBigCore x.mant x.scale x.precision y.mant y.scale y.precision

/-- `Big.Quo` of decimal.go. -/
def Big.quo (z x y : Big) : Option Big :=
  if x.form = fFinite ∧ y.form = fFinite then
    if x.isCompact ∧ y.isCompact then some (z.quoCompact x y)
    else some (z.quoBig x y)
  else
    let p := z.checkNaNs x y "division"
    match p.2.2 with
    | some e => p.1.signal p.2.1 (some e)
    | none =>
      if (x.form ≤ fNZero ∧ y.form ≤ fNZero) ∨
         (x.form &&& fInf ≠ 0 ∧ y.form &&& fInf ≠ 0) then
        Big.signal { z with form := fQNaN } InvalidOperation
          (some (Err.nan "division of zero by zero or infinity by infinity"))
      else if x.form ≤ fNZero ∨ y.form &&& fInf ≠ 0 then
        some { z with form := fZero }
      else
        let xs := x.signbit
        let ys := y.signbit
        let z := { z with form := if (xs ≠ ys) ∧ (xs ∨ ys) then fNInf else fPInf }
        if x.form &&& fInf ≠ 0 then some z
        else z.signal DivisionByZero (some (Err.other "division by zero"))

/-- Three-way integer comparison. -/
def intCmp (a b : Int) : Int := if a > b then 1 else if a < b then -1 else 0

/-- `Big.Cmp` of decimal.go for operands that are distinct objects unless
`ptrEq` is set (the source's initial `z == x` pointer-equality shortcut).
Returns the comparison result together with the receiver (which `signal`
may have mutated on the NaN path). -/
def Big.cmp (z x : Big) (ptrEq : Bool) : Option (Int × Big) :=
  if ptrEq then some (0, z)
  else
    let p := z.checkNaNs z x "comparison"
    match p.2.2 with
    | some e =>
      match p.1.signal p.2.1 (some e) with
      | none => none
      | some z2 => some (0, z2)
    | none =>
      let zs := z.signFn
      let xs := x.signFn
      if zs > xs then some (1, z)
      else if zs < xs then some (-1, z)
      else if zs = 0 ∧ xs = 0 then some (0, z)
      else if z.scale = x.scale then
        -- each of the four compact/inflated cases compares the
        -- authoritative magnitudes
        some (intCmp z.mant x.mant, z)
      else
        let zl := z.precision - z.scale
        let xl := x.precision - x.scale
        if zl < xl then some (-zs, z)
        else if zl > xl then some (zs, z)
        else
          -- inflate the lower-scale side by the scale difference
          let swap := z.scale < x.scale
          let hi := if swap then x.scale else z.scale
          let lo := if swap then z.scale else x.scale
          let hiv := if swap then x.mant else z.mant
          let lov := if swap then z.mant else x.mant
          let diff := hi - lo
          let lov2 := lov * 10 ^ diff.toNat
          let zv := if swap then lov2 else hiv
          let xv := if swap then hiv else lov2
          some (intCmp zv xv, z)

/-! ## Digit strings (format.go works on ASCII byte slices, modelled as
`List Char`; rounding works on digit values 0..9, modelled as `List Nat`). -/

/-- The decimal digits of a natural number, most significant first
(empty for zero). -/
def digitsOf (n : Nat) : List Nat := (Nat.digits 10 n).reverse

/-- The numeric value of a most-significant-first digit list. -/
def valDigits (l : List Nat) : Nat := l.foldl (fun a d => 10 * a + d) 0

/-- Digit value to ASCII digit character. -/
def digitChar (d : Nat) : Char := Char.ofNat (48 + d)

/-- ASCII digit character to digit value. -/
def charDigit (c : Char) : Nat := c.toNat - 48

/-- ASCII digit test. -/
def isDigitCh (c : Char) : Bool := decide ('0' ≤ c ∧ c ≤ '9')

/-- Render a natural number in decimal (`strconv.AppendUint`). -/
def natChars (n : Nat) : List Char :=
  if n = 0 then ['0'] else (digitsOf n).map digitChar

/-- Render an integer in decimal (`strconv.Itoa`). -/
def intChars (n : Int) : List Char :=
  (if n < 0 then ['-'] else []) ++ natChars n.natAbs

/-- `allZeros` of format.go, on digit values. -/
def allZeros (b : List Nat) : Bool := b.all (· = 0)

/-- One step of the carry loop of `roundString` (format.go lines 63-72),
processing the retained digits least-significant first: increment the first
digit that is not a nine, zeroing the nines passed over; the flag reports a
carry out of the most significant digit. -/
def carryInc : List Nat → List Nat × Bool
  | [] => ([], true)
  | d :: rest =>
    if d ≠ 9 then ((d + 1) :: rest, false)
    else
      let p := carryInc rest
      (0 :: p.1, p.2)

/-- `roundString` of format.go on digit values 0..9 (the source works on the
ASCII bytes; `'9'+1` becomes the value 10).  `prec = 0` is outside the
source's domain (it would index out of bounds) and every caller passes a
positive precision. -/
def roundString (b : List Nat) (mode : Nat) (pos : Bool) (prec : Nat) : List Nat :=
  if prec ≥ b.length then b
  else if allZeros (b.drop prec) then b.take prec
  else
    -- b = b[:prec+1]; i = prec-1; decide the blind increment of b[i]
    let dn := b.getD prec 0
    let di := b.getD (prec - 1) 0
    let inc : Bool :=
      if mode = AwayFromZero then true
      else if mode = ToZero then false
      else if mode = ToPositiveInf then pos
      else if mode = ToNegativeInf then !pos
      else if mode = ToNearestEven then decide (dn > 5) || (decide (dn = 5) && decide (di % 2 ≠ 0))
      else if mode = ToNearestAway then decide (dn ≥ 5)
      else false
    if ¬ inc then b.take prec
    else
      -- the in-place increment-and-carry over b[:prec], then the slide
      -- when the carry reached the first column (b[0] == '0')
      let kept := ((carryInc (b.take prec).reverse).1).reverse
      if kept.headD 1 = 0 then 1 :: kept else kept

/-- `trimIndex` of format.go: the index after the last non-zero character,
or -1 when every character is `'0'`. -/
def trimIndex (b : List Char) : Int :=
  let r := b.reverse.dropWhile (· = '0')
  if r = [] then -1 else (r.length : Int)

/-- `formatCompact` of format.go: the unsigned decimal digits of a compact
magnitude. -/
def formatCompactChars (x : Int) : List Char := natChars x.natAbs

/-- `formatUnscaled` of format.go: the unsigned decimal digits of an
arbitrary-precision magnitude. -/
def formatUnscaledChars (u : Int) : List Char := natChars u.natAbs

/-- the `normal` format constant. -/
def fmtNormal : Nat := 0
/-- the `plain` format constant. -/
def fmtPlain : Nat := 1
/-- the `sci` format constant. -/
def fmtSci : Nat := 2
/-- the `noPrec` sentinel. -/
def noPrec : Int := -1
/-- the `noWidth` sentinel. -/
def noWidth : Int := -1

/-- `formatter.formatSci` of format.go.  (The source's dead narrowing of
`f.prec` inside this function has no observable effect and is omitted.) -/
def formatSci (b : List Char) (adj : Int) (e : Char) : List Char :=
  let frac :=
    if b.length > 1 then
      let t := b.drop 1
      let i := trimIndex t
      '.' :: (if 0 ≤ i ∧ i < (t.length : Int) then t.take i.toNat else t)
    else []
  let ex :=
    if adj ≠ 0 then
      e :: ((if adj > 0 then ['+'] else []) ++ intChars adj)
    else []
  b.take 1 ++ frac ++ ex

/-- `formatter.formatPlain` of format.go. -/
def formatPlain (b : List Char) (scale : Int) (fprec : Int) : List Char :=
  let radix : Int := (b.length : Int) - scale
  if radix = 0 then
    let i := trimIndex b
    '0' :: '.' :: (if i > 0 then b.take i.toNat else b)
  else if radix > 0 then
    let t := b.drop radix.toNat
    let i := trimIndex t
    b.take radix.toNat ++ (if i > 0 then '.' :: t.take i.toNat else [])
  else
    let e := if fprec > noPrec ∧ fprec < (b.length : Int) then fprec.toNat else b.length
    '0' :: '.' :: (List.replicate (-radix).toNat '0' ++ b.take e)

/-- The non-finite literals of `formatter.format` (the `stringForms` table
and the zero-form branch of format.go). -/
def specialChars (x : Big) (fwidth : Int) : List Char :=
  if x.form = fZero ∨ x.form = fNZero then
    (if x.form = fNZero then ['-'] else []) ++
    (if fwidth = noWidth then ['0']
     else '0' :: '.' :: List.replicate fwidth.toNat '0')
  else if x.form = fSNaN then
    (if x.ctx.operatingMode = GoMode then "NaN" else "sNaN").data
  else if x.form = fQNaN then "NaN".data
  else if x.form = fPInf then
    (if x.ctx.operatingMode = GoMode then "+Inf" else "Infinity").data
  else if x.form = fNInf then
    (if x.ctx.operatingMode = GoMode then "-Inf" else "-Infinity").data
  else []

/-- `formatter.format` of format.go (the characters written; the invalid
operating-mode branch writes nothing and merely signals `InvalidContext` on
`x`, which has no bearing on the emitted string and is elided here). -/
def format (x : Big) (fmtKind : Nat) (e : Char)
    (fprec fwidth : Int) (fsign : Option Char) : List Char :=
  if x.form ≠ fFinite then
    if x.ctx.operatingMode = GoMode ∨ x.ctx.operatingMode = GDA then
      specialChars x fwidth
    else []
  else
    let neg := x.signbit
    let sgn : List Char :=
      if neg then ['-']
      else match fsign with | some c => [c] | none => []
    let b0 := if x.isInflated then formatUnscaledChars x.unscaled
              else formatCompactChars x.compact
    let pr : List Char × Int :=
      if fprec > 0 then
        let r := (roundString (b0.map charDigit) x.ctx.roundingMode (!neg)
          fprec.toNat).map digitChar
        (r, x.scale - ((b0.length : Int) - (r.length : Int)))
      else (b0, x.scale)
    let b := pr.1
    let scale := pr.2
    let adj : Int := -scale + ((b.length : Int) - 1)
    if fmtKind ≠ fmtSci ∧ scale ≥ 0 ∧ (fmtKind = fmtPlain ∨ adj ≥ -6) then
      sgn ++ formatPlain b scale fprec
    else if fmtKind ≠ fmtSci ∧ fmtKind = fmtPlain ∧ scale < 0 then
      sgn ++ b ++ List.replicate (-scale).toNat '0'
    else
      sgn ++ formatSci b adj e

/-- `Big.String` of decimal.go: format with the `normal` style, lowercase
exponent marker and no precision, width or sign flags. -/
def Big.stringOf (x : Big) : List Char :=
  format x fmtNormal 'e' noPrec noWidth none

/-! ## The parser (`Big.SetString` of decimal.go). -/

/-- Lowercase an ASCII letter. -/
def toLowerCh (c : Char) : Char :=
  if 'A' ≤ c ∧ c ≤ 'Z' then Char.ofNat (c.toNat + 32) else c

/-- The special values recognized by the parser. -/
inductive Special where
  | qnan | snan | pinf | ninf
deriving DecidableEq, Repr

/-- Strip an optional leading sign; the flag reports a minus sign. -/
def stripSign (s : List Char) : Bool × List Char :=
  match s with
  | [] => (false, [])
  | c :: t => if c = '+' then (false, t)
              else if c = '-' then (true, t)
              else (false, c :: t)

/-- Modelled from the spec: `parse.ParseSpecial` — the case-insensitive
special literals of spec section 4.5: optional sign, then `inf`/`infinity`,
or `nan`/`qnan`/`snan` with optional trailing diagnostic digits. -/
def parseSpecial (s : List Char) : Option Special :=
  let p := stripSign s
  let l := p.2.map toLowerCh
  if l = "inf".data ∨ l = "infinity".data then
    some (if p.1 then .ninf else .pinf)
  else if l.take 4 = "snan".data ∧ (l.drop 4).all isDigitCh then some .snan
  else if l.take 4 = "qnan".data ∧ (l.drop 4).all isDigitCh then some .qnan
  else if l.take 3 = "nan".data ∧ (l.drop 3).all isDigitCh then some .qnan
  else none

/-- `strings.LastIndexAny(s, "Ee")`: the last index holding `e` or `E`,
or -1. -/
def lastIndexEe (s : List Char) : Int :=
  match s.reverse.findIdx? (fun c => c = 'e' || c = 'E') with
  | none => -1
  | some k => (s.length : Int) - 1 - k

/-- Two's-complement wrap of an integer into int32 (Go's unchecked
`int32(v)` conversion). -/
def wrap32 (n : Int) : Int := (n + 2147483648) % 4294967296 - 2147483648

/-- The result of Go's `strconv.ParseInt`: a value, a range error carrying
the clamped value, or a syntax error. -/
inductive PIResult where
  | ok (v : Int)
  | rangeErr (v : Int)
  | syntaxErr
deriving DecidableEq, Repr

/-- Go `strconv.ParseInt(s, 10, ·)` with the inclusive range `[lo, hi]`:
an optional sign followed by at least one digit; out-of-range values are
clamped in the `rangeErr` result. -/
def parseIntRange (s : List Char) (lo hi : Int) : PIResult :=
  let p := stripSign s
  if p.2 = [] ∨ ¬ (p.2.all isDigitCh) then .syntaxErr
  else
    let n : Int := (valDigits (p.2.map charDigit) : Int)
    let v := if p.1 then -n else n
    if v > hi then .rangeErr hi
    else if v < lo then .rangeErr lo
    else .ok v

/-- Go `big.Int.SetString(s, 10)`: an optional sign followed by at least one
digit, with no size limit. -/
def parseIntBig (s : List Char) : Option Int :=
  let p := stripSign s
  if p.2 = [] ∨ ¬ (p.2.all isDigitCh) then none
  else
    let n : Int := (valDigits (p.2.map charDigit) : Int)
    some (if p.1 then -n else n)

/-- The mantissa step of `Big.SetString` (decimal.go lines 1733-1773): try
`strconv.ParseInt` for at most 19 characters, fall back to `big.Int` parsing
for 19-character range errors and longer strings. -/
def Big.setStringMant (z : Big) (s : List Char) (scale : Int) : Big × Bool :=
  let z := { z with form := fFinite }
  let viaBig (z : Big) : Big × Bool :=
    match parseIntBig s with
    | none =>
      (z.signalNN ConversionSyntax (some (Err.other "SetString: invalid syntax")), false)
    | some v =>
      let z := { z with unscaled := v, compact := Inflated }
      let z := if v = 0 then
          { z with form := if s.headD ' ' = '-' then fNZero else fZero }
        else z
      ({ z with scale := scale }, true)
  if h : (s.length : Int) ≤ 19 then
    match parseIntRange s minInt64 maxInt64 with
    | .syntaxErr =>
      ({ z with form := fQNaN }.signalNN ConversionSyntax
        (some (Err.other "SetString: invalid syntax")), false)
    | .rangeErr v =>
      if (s.length : Int) = 19 then viaBig { z with compact := v }
      else ({ z with compact := v, scale := scale }, true)
    | .ok v =>
      let z := { z with compact := v }
      let z := if v = 0 then
          { z with form := if s.headD ' ' = '-' then fNZero else fZero }
        else z
      let z := if z.compact = Inflated then { z with unscaled := z.compact } else z
      ({ z with scale := scale }, true)
  else viaBig z

/-- `Big.SetString` of decimal.go. -/
def Big.setString (z : Big) (s : List Char) : Big × Bool :=
  if s = [] then
    (z.signalNN ConversionSyntax (some (Err.other "SetString of empty string")), false)
  else
    match parseSpecial s with
    | some .qnan => ({ z with form := fQNaN }, true)
    | some .snan => ({ z with form := fSNaN }, true)
    | some .pinf => ({ z with form := fPInf }, true)
    | some .ninf => ({ z with form := fNInf }, true)
    | none =>
      let i := lastIndexEe s
      let expStep : Big × Bool ⊕ (List Char × Int) :=
        if i > 0 then
          match parseIntRange (s.drop (i.toNat + 1)) MinScale MaxScale with
          | .syntaxErr =>
            Sum.inl ({ z with form := fQNaN }.signalNN ConversionSyntax
              (some (Err.other "SetString: bad exponent")), false)
          | .rangeErr v =>
            Sum.inl (z.xflow (decide (v < 0)) (decide (s.headD ' ' = '-')), false)
          | .ok v => Sum.inr (s.take i.toNat, wrap32 (-v))
        else Sum.inr (s, 0)
      match expStep with
      | Sum.inl r => r
      | Sum.inr (s, scale) =>
        match s.count '.' with
        | 0 => z.setStringMant s scale
        | 1 =>
          let j := (s.findIdx? (· = '.')).getD 0
          let s2 := s.take j ++ s.drop (j + 1)
          let p := checkedAdd32 scale (wrap32 ((s2.length : Int) - (j : Int)))
          if ¬ p.2 then (z.xflow true (decide (s.headD ' ' = '-')), false)
          else z.setStringMant s2 p.1
        | _ =>
          (z.signalNN ConversionSyntax
            (some (Err.other "SetString: too many radix points in input")), false)

/-! ## Numeric semantics of the representation. -/

/-- Rational value of a decimal magnitude and scale: `m * 10^(-s)`. -/
def qval (m s : Int) : ℚ := (m : ℚ) * (10:ℚ) ^ (-s)

/-- The rational value of a decimal's magnitude and scale fields. -/
def Big.val (x : Big) : ℚ := qval x.mant x.scale

/-- The extended numeric reading of a decimal: NaN, a signed infinity, or a
rational number (both zero forms denote the rational zero). -/
inductive NumVal where
  | nnan | negInf | posInf | fin (q : ℚ)
deriving DecidableEq, Repr

/-- Numeric reading of a decimal value. -/
def Big.numVal (x : Big) : NumVal :=
  if x.form = fFinite then .fin x.val
  else if x.form ≤ fNZero then .fin 0
  else if x.form = fPInf then .posInf
  else if x.form = fNInf then .negInf
  else .nnan

/-- A decimal in GDA mode whose condition accumulator already holds the
`Inexact` bit (a previously raised condition). -/
def zPreInexact : Big := { ctx := { operatingMode := GDA, conditions := Inexact } }

/-- A fresh GDA-mode receiver. -/
def zGDA : Big := { ctx := { operatingMode := GDA } }

/-- A positive-zero operand. -/
def zeroOperand : Big := { form := fZero }

/-! ## Specification predicates and concrete inputs for the claims. -/

/-- The well-formed values of the `form` tag. -/
def validForm (f : Nat) : Prop :=
  f = fZero ∨ f = fNZero ∨ f = fFinite ∨ f = fSNaN ∨ f = fQNaN ∨
  f = fPInf ∨ f = fNInf

/-- The receiver after the shared NaN path (`checkNaNs` followed by
`signal`) in GDA mode. -/
def nanOutcome (z : Big) (op : String) (c : Nat) : Big :=
  { z with form := fQNaN, ctx := { z.ctx with
      conditions := c,
      err := if c &&& z.ctx.traps ≠ 0
             then some (Err.nan (op ++ " with NaN as an operand"))
             else z.ctx.err } }

/-- The condition raised by the NaN path: `InvalidOperation` exactly when a
signaling NaN is among the operand forms. -/
def nanCond (xf yf : Nat) : Nat :=
  if (xf ||| yf) &&& fNaN &&& fSNaN ≠ 0 then InvalidOperation else 0

/-- The claim's signaling-NaN outcome for a receiver-returning operation:
quiet-NaN result, `InvalidOperation` raised, and (when trapped) a NaN-class
error naming the operation. -/
def snanSpec (traps : Nat) (op : String) (o : Option Big) : Prop :=
  ∃ r, o = some r ∧ r.form = fQNaN ∧
    r.ctx.conditions &&& InvalidOperation ≠ 0 ∧
    (InvalidOperation &&& traps ≠ 0 →
      r.ctx.err = some (Err.nan (op ++ " with NaN as an operand")))

/-- The claim's quiet-NaN-only outcome: quiet-NaN result without
`InvalidOperation`. -/
def qnanSpec (o : Option Big) : Prop :=
  ∃ r, o = some r ∧ r.form = fQNaN ∧
    r.ctx.conditions &&& InvalidOperation = 0

/-- `snanSpec` for `Abs`, whose embedding returns the (receiver, operand)
pair. -/
def snanSpecAbs (traps : Nat) (o : Option (Big × Big)) : Prop :=
  ∃ p, o = some p ∧ p.1.form = fQNaN ∧
    p.1.ctx.conditions &&& InvalidOperation ≠ 0 ∧
    (InvalidOperation &&& traps ≠ 0 →
      p.1.ctx.err = some (Err.nan ("abs with NaN as an operand")))

/-- `qnanSpec` for `Abs`. -/
def qnanSpecAbs (o : Option (Big × Big)) : Prop :=
  ∃ p, o = some p ∧ p.1.form = fQNaN ∧
    p.1.ctx.conditions &&& InvalidOperation = 0

/-- `snanSpec` for `Cmp`, which returns the comparison value and the
receiver. -/
def snanSpecCmp (traps : Nat) (o : Option (Int × Big)) : Prop :=
  ∃ p, o = some p ∧ p.1 = 0 ∧ p.2.form = fQNaN ∧
    p.2.ctx.conditions &&& InvalidOperation ≠ 0 ∧
    (InvalidOperation &&& traps ≠ 0 →
      p.2.ctx.err = some (Err.nan ("comparison with NaN as an operand")))

/-- `qnanSpec` for `Cmp`. -/
def qnanSpecCmp (o : Option (Int × Big)) : Prop :=
  ∃ p, o = some p ∧ p.1 = 0 ∧ p.2.form = fQNaN ∧
    p.2.ctx.conditions &&& InvalidOperation = 0

/-- A signaling NaN with a GDA context (every condition trapped). -/
def snanGDA : Big := { ctx := { operatingMode := GDA, traps := InvalidOperation },
                       form := fSNaN }


/-- Least-significant-first value of a digit list. -/
def valRev : List Nat → Nat
  | [] => 0
  | d :: r => d + 10 * valRev r

/-- The amended per-mode increment rule for `roundString`: the claim's
rules, with round-to-nearest ties-to-even decided from the *first*
discarded digit only (the code never looks past it), and ties-away kept in
the claim's discarded-suffix form (provably equal to "first discarded
digit at least five"). -/
def incRule (mode : Nat) (pos : Bool) (t suf : List Nat) : Bool :=
  if mode = AwayFromZero then true
  else if mode = ToZero then false
  else if mode = ToPositiveInf then pos
  else if mode = ToNegativeInf then !pos
  else if mode = ToNearestEven then
    decide (suf.headD 0 > 5) || (decide (suf.headD 0 = 5) && decide (t.getLastD 0 % 2 ≠ 0))
  else if mode = ToNearestAway then decide (2 * valDigits suf ≥ 10 ^ suf.length)
  else false

/-! ## Theorems. -/

/-- `signalNN` agrees with `signal` whenever the error is not an `ErrNaN`. -/
theorem signal_eq_signalNN (x : Big) (c : Nat) (e : Option Err)
    (h : ∀ m, e ≠ some (Err.nan m)) : x.signal c e = some (x.signalNN c e) := by
  unfold Big.signal Big.signalNN
  by_cases hg : x.ctx.operatingMode = GoMode
  · rw [if_pos hg, if_pos hg]
    cases e with
    | none => rfl
    | some v =>
      cases v with
      | nan m => exact absurd rfl (h m)
      | other m => rfl
  · rw [if_neg hg, if_neg hg]
    by_cases hd : x.ctx.operatingMode = GDA
    · rw [if_pos hd, if_pos hd]
    · rw [if_neg hd, if_neg hd]

/-! ## Claim C2: sticky conditions. -/

/-- C2 (amended): in GDA mode, `Big.signal` *assigns* the raised condition
set to `Context.Conditions` instead of OR-ing it in: after a signaling
operation the accumulator equals exactly the newly raised conditions,
regardless of which bits were set before the call. -/
theorem C2_signal_assigns_conditions (x : Big) (c : Nat) (e : Option Err)
    (hmode : x.ctx.operatingMode = GDA) :
    ∃ r, x.signal c e = some r ∧ r.ctx.conditions = c := by
  unfold Big.signal
  have hne : x.ctx.operatingMode ≠ GoMode := by rw [hmode]; decide
  rw [if_neg hne, if_pos hmode]
  exact ⟨_, rfl, rfl⟩

/-- Witness for `C2_signal_assigns_conditions` at a concrete receiver whose
accumulator holds `Inexact`. -/
theorem C2_witness :
    ∃ r, Big.signal zPreInexact DivisionByZero none = some r ∧
      r.ctx.conditions = DivisionByZero :=
  C2_signal_assigns_conditions zPreInexact DivisionByZero none rfl

/-- C2 counterexample to the claim as stated: the receiver enters `Quo`
with the `Inexact` condition already raised; the operation (0 / 0, which
raises `InvalidOperation`) leaves the accumulator equal to
`InvalidOperation` alone — the previously set `Inexact` bit is gone, so
conditions raised before the call are *not* still set after it. -/
theorem C2_counterexample :
    (Big.quo zPreInexact zeroOperand zeroOperand).map (fun r => r.ctx.conditions)
      = some InvalidOperation ∧ InvalidOperation &&& Inexact = 0 := by
  exact ⟨rfl, by decide⟩

/-! ## Claim C3: division edge cases. -/

/-- C3: in GDA mode, `Quo` of a finite nonzero dividend by a zero divisor
yields an infinity whose sign is the exclusive-or of the operand sign bits
and raises `DivisionByZero`; `Quo` of zero by zero yields quiet NaN and
raises `InvalidOperation`. -/
theorem C3_quo_division_edge_cases (z x y : Big)
    (hmode : z.ctx.operatingMode = GDA) :
    (x.form = fFinite → x.mant ≠ 0 → y.form ≤ fNZero →
      ∃ r, z.quo x y = some r ∧
        r.form = (if x.signbit ≠ y.signbit then fNInf else fPInf) ∧
        r.ctx.conditions &&& DivisionByZero ≠ 0) ∧
    (x.form ≤ fNZero → y.form ≤ fNZero →
      ∃ r, z.quo x y = some r ∧ r.form = fQNaN ∧
        r.ctx.conditions &&& InvalidOperation ≠ 0) := by
  constructor
  · intro hx _ hy
    have hy2 : y.form = 0 ∨ y.form = 1 := by simp only [fNZero] at hy; omega
    simp only [fFinite] at hx
    rcases hy2 with hy2 | hy2 <;>
      cases hxs : x.signbit <;> cases hys : y.signbit <;>
      · simp +decide [Big.quo, hx, hy2, hxs, hys, Big.checkNaNs, Big.signal, hmode,
          fFinite, fNZero, fInf, fNInf, fPInf, fQNaN, fNaN, fSNaN, GDA, GoMode,
          DivisionByZero, InvalidOperation]
  · intro hx hy
    have hx2 : x.form = 0 ∨ x.form = 1 := by simp only [fNZero] at hx; omega
    have hy2 : y.form = 0 ∨ y.form = 1 := by simp only [fNZero] at hy; omega
    rcases hx2 with hx2 | hx2 <;> rcases hy2 with hy2 | hy2 <;>
    · simp +decide [Big.quo, hx2, hy2, Big.checkNaNs, Big.signal, hmode,
        fFinite, fNZero, fInf, fNInf, fPInf, fQNaN, fNaN, fSNaN, GDA, GoMode,
        DivisionByZero, InvalidOperation]

/-- Witness for `C3_quo_division_edge_cases`: `5 / (-0)` yields negative
infinity with `DivisionByZero`; `0 / 0` yields quiet NaN with
`InvalidOperation`. -/
theorem C3_witness :
    (∃ r, Big.quo zGDA (bigNew 5 0) { form := fNZero } = some r ∧
      r.form = (if (bigNew 5 0).signbit ≠ (Big.signbit { form := fNZero }) then fNInf else fPInf) ∧
      r.ctx.conditions &&& DivisionByZero ≠ 0) ∧
    (∃ r, Big.quo zGDA zeroOperand { form := fNZero } = some r ∧
      r.form = fQNaN ∧ r.ctx.conditions &&& InvalidOperation ≠ 0) :=
  ⟨(C3_quo_division_edge_cases zGDA (bigNew 5 0) { form := fNZero } rfl).1
      rfl (by decide) (by decide),
   (C3_quo_division_edge_cases zGDA zeroOperand { form := fNZero } rfl).2
      (by decide) (by decide)⟩

/-! ## Claim C5: multiplication scale overflow. -/

/-- C5 (code bug evaluation): multiplying `1e-2147483647` by `1e-1` — two
*positive* operands whose scales overflow the checked 32-bit addition —
takes the `xflow` overflow path with the hard-coded `neg = true` argument
(contradicting `xflow`'s documented `neg == intermediate result < 0`) and
so yields *negative* infinity, although `Overflow`, `Inexact` and `Rounded`
are raised as the claim states. -/
theorem C5_mul_scale_overflow_eval :
    (Big.mul zGDA (bigNew 1 MaxScale) (bigNew 1 1)).map
        (fun r => (r.form, r.ctx.conditions))
      = some (fNInf, Overflow ||| Inexact ||| Rounded) ∧
    (bigNew 1 MaxScale).signbit = false ∧ (bigNew 1 1).signbit = false ∧
    fNInf ≠ fPInf :=
  ⟨rfl, rfl, rfl, by decide⟩

/-! ## Claim C6: Sub(x, x). -/

/-- C6 (amended): for every finite `x` and *every* rounding mode —
including `ToNegativeInf` — `Sub(z, x, x)` yields positive zero; the
exact-cancellation result is never negative zero. -/
theorem C6_sub_self_positive_zero (z x : Big) (hx : x.form = fFinite) :
    ∃ r, z.sub x x = some r ∧ r.form = fZero := by
  by_cases hc : x.isCompact
  · simp +decide [Big.sub, hx, hc, Big.subCompact, checkedSub, minInt64, maxInt64,
      Big.round, Big.roundN, fFinite, fZero]
  · simp +decide [Big.sub, hx, hc, Big.subBig, Big.round, Big.roundN,
      fFinite, fZero]

/-- Witness for `C6_sub_self_positive_zero` with the rounding mode set to
`ToNegativeInf`. -/
theorem C6_witness :
    ∃ r, Big.sub { ctx := { roundingMode := ToNegativeInf } } (bigNew 7 1) (bigNew 7 1)
        = some r ∧ r.form = fZero :=
  C6_sub_self_positive_zero { ctx := { roundingMode := ToNegativeInf } } (bigNew 7 1) rfl

/-- C6 counterexample to the claim as stated: with the active rounding mode
`ToNegativeInf`, `Sub(z, x, x)` still yields the positive zero form, not
negative zero as the claim requires. -/
theorem C6_counterexample :
    (Big.sub { ctx := { roundingMode := ToNegativeInf } } (bigNew 1 0) (bigNew 1 0)).map
      (fun r => r.form) = some fZero ∧ fZero ≠ fNZero :=
  ⟨rfl, by decide⟩

/-! ## Claim C10: the Abs frame effect on infinities. -/

/-- C10: when the operand of `Abs` is an infinity (and the receiver is a
distinct object), the *operand* is mutated — its sign bit is cleared, so it
becomes positive infinity — while the returned receiver keeps its own form,
magnitude and scale unchanged and does not hold the absolute value. -/
theorem C10_abs_infinity_frame (z x : Big)
    (hx : x.form = fPInf ∨ x.form = fNInf) :
    z.abs x = some (z, { x with form := fPInf }) := by
  rcases hx with hx | hx <;>
    simp +decide [Big.abs, hx, Big.checkNaNs, fPInf, fNInf, fFinite, fNaN]

/-- Witness for `C10_abs_infinity_frame`: the receiver holds 7 and the
operand is negative infinity; after the call the operand is positive
infinity and the receiver still holds 7. -/
theorem C10_witness :
    Big.abs (bigNew 7 0) { form := fNInf } =
      some (bigNew 7 0, { Big.mk {} 0 0 0 fNInf with form := fPInf }) :=
  C10_abs_infinity_frame (bigNew 7 0) { form := fNInf } (Or.inr rfl)

/-! ## Claim C4: NaN propagation. -/

lemma add_nan_case (z x y : Big) (hmode : z.ctx.operatingMode = GDA)
    (hnot : ¬(x.form = fFinite ∧ y.form = fFinite))
    (hf : (x.form ||| y.form) &&& fNaN ≠ 0) :
    z.add x y = some (nanOutcome z "addition" (nanCond x.form y.form)) := by
  unfold Big.add
  rw [if_neg hnot]
  unfold Big.checkNaNs
  rw [if_neg hf]
  unfold Big.signal
  have hne : z.ctx.operatingMode ≠ GoMode := by rw [hmode]; decide
  simp only []
  rw [if_neg hne, if_pos hmode]
  rfl

lemma sub_nan_case (z x y : Big) (hmode : z.ctx.operatingMode = GDA)
    (hnot : ¬(x.form = fFinite ∧ y.form = fFinite))
    (hf : (x.form ||| y.form) &&& fNaN ≠ 0) :
    z.sub x y = some (nanOutcome z "subtraction" (nanCond x.form y.form)) := by
  unfold Big.sub
  rw [if_neg hnot]
  unfold Big.checkNaNs
  rw [if_neg hf]
  unfold Big.signal
  have hne : z.ctx.operatingMode ≠ GoMode := by rw [hmode]; decide
  simp only []
  rw [if_neg hne, if_pos hmode]
  rfl

lemma mul_nan_case (z x y : Big) (hmode : z.ctx.operatingMode = GDA)
    (hnot : ¬(x.form = fFinite ∧ y.form = fFinite))
    (hf : (x.form ||| y.form) &&& fNaN ≠ 0) :
    z.mul x y = some (nanOutcome z "multiplication" (nanCond x.form y.form)) := by
  unfold Big.mul
  rw [if_neg hnot]
  unfold Big.checkNaNs
  rw [if_neg hf]
  unfold Big.signal
  have hne : z.ctx.operatingMode ≠ GoMode := by rw [hmode]; decide
  simp only []
  rw [if_neg hne, if_pos hmode]
  rfl

lemma quo_nan_case (z x y : Big) (hmode : z.ctx.operatingMode = GDA)
    (hnot : ¬(x.form = fFinite ∧ y.form = fFinite))
    (hf : (x.form ||| y.form) &&& fNaN ≠ 0) :
    z.quo x y = some (nanOutcome z "division" (nanCond x.form y.form)) := by
  unfold Big.quo
  rw [if_neg hnot]
  unfold Big.checkNaNs
  rw [if_neg hf]
  unfold Big.signal
  have hne : z.ctx.operatingMode ≠ GoMode := by rw [hmode]; decide
  simp only []
  rw [if_neg hne, if_pos hmode]
  rfl

lemma neg_nan_case (z x : Big) (hmode : z.ctx.operatingMode = GDA)
    (hnotf : x.form ≠ fFinite)
    (hf : (x.form ||| x.form) &&& fNaN ≠ 0) :
    z.neg x = some (nanOutcome z "negation" (nanCond x.form x.form)) := by
  unfold Big.neg
  rw [if_neg hnotf]
  unfold Big.checkNaNs
  rw [if_neg hf]
  unfold Big.signal
  have hne : z.ctx.operatingMode ≠ GoMode := by rw [hmode]; decide
  simp only []
  rw [if_neg hne, if_pos hmode]
  rfl

lemma abs_nan_case (z x : Big) (hmode : z.ctx.operatingMode = GDA)
    (hnotf : x.form ≠ fFinite)
    (hf : (x.form ||| x.form) &&& fNaN ≠ 0) :
    z.abs x = some (nanOutcome z "abs" (nanCond x.form x.form), x) := by
  unfold Big.abs
  rw [if_neg hnotf]
  unfold Big.checkNaNs
  rw [if_neg hf]
  unfold Big.signal
  have hne : z.ctx.operatingMode ≠ GoMode := by rw [hmode]; decide
  simp only []
  rw [if_neg hne, if_pos hmode]
  rfl

lemma cmp_nan_case (z x : Big) (hmode : z.ctx.operatingMode = GDA)
    (hf : (z.form ||| x.form) &&& fNaN ≠ 0) :
    z.cmp x false = some (0, nanOutcome z "comparison" (nanCond z.form x.form)) := by
  unfold Big.cmp
  rw [if_neg (by decide : ¬ (false = true))]
  unfold Big.checkNaNs
  rw [if_neg hf]
  unfold Big.signal
  have hne : z.ctx.operatingMode ≠ GoMode := by rw [hmode]; decide
  simp only []
  rw [if_neg hne, if_pos hmode]
  rfl

lemma bitfact_snan (a b : Nat) (ha : validForm a) (hb : validForm b)
    (h : a = fSNaN ∨ b = fSNaN) :
    ¬(a = fFinite ∧ b = fFinite) ∧ (a ||| b) &&& fNaN ≠ 0 ∧
      (a ||| b) &&& fNaN &&& fSNaN ≠ 0 := by
  rcases ha with rfl|rfl|rfl|rfl|rfl|rfl|rfl <;>
    rcases hb with rfl|rfl|rfl|rfl|rfl|rfl|rfl <;> revert h <;> decide

lemma bitfact_qnan (a b : Nat) (ha : validForm a) (hb : validForm b)
    (h : (a = fQNaN ∨ b = fQNaN) ∧ a ≠ fSNaN ∧ b ≠ fSNaN) :
    ¬(a = fFinite ∧ b = fFinite) ∧ (a ||| b) &&& fNaN ≠ 0 ∧
      (a ||| b) &&& fNaN &&& fSNaN = 0 := by
  rcases ha with rfl|rfl|rfl|rfl|rfl|rfl|rfl <;>
    rcases hb with rfl|rfl|rfl|rfl|rfl|rfl|rfl <;> revert h <;> decide

lemma nanCond_snan (xf yf : Nat) (h3 : (xf ||| yf) &&& fNaN &&& fSNaN ≠ 0) :
    nanCond xf yf = InvalidOperation := by
  unfold nanCond; rw [if_pos h3]

lemma nanCond_qnan (xf yf : Nat) (h3 : (xf ||| yf) &&& fNaN &&& fSNaN = 0) :
    nanCond xf yf = 0 := by
  unfold nanCond
  rw [if_neg (by simp [h3])]

lemma snanSpec_outcome (z : Big) (op : String) (o : Option Big) (xf yf : Nat)
    (h : o = some (nanOutcome z op (nanCond xf yf)))
    (h3 : (xf ||| yf) &&& fNaN &&& fSNaN ≠ 0) :
    snanSpec z.ctx.traps op o := by
  rw [nanCond_snan xf yf h3] at h
  refine ⟨_, h, rfl, by show InvalidOperation &&& InvalidOperation ≠ 0; decide, ?_⟩
  intro ht
  show (if InvalidOperation &&& z.ctx.traps ≠ 0
        then some (Err.nan (op ++ " with NaN as an operand"))
        else z.ctx.err) = _
  rw [if_pos ht]

lemma qnanSpec_outcome (z : Big) (op : String) (o : Option Big) (xf yf : Nat)
    (h : o = some (nanOutcome z op (nanCond xf yf)))
    (h3 : (xf ||| yf) &&& fNaN &&& fSNaN = 0) :
    qnanSpec o := by
  rw [nanCond_qnan xf yf h3] at h
  exact ⟨_, h, rfl, by show (0:Nat) &&& InvalidOperation = 0; decide⟩

lemma snanSpecAbs_outcome (z x : Big) (o : Option (Big × Big)) (xf : Nat)
    (h : o = some (nanOutcome z "abs" (nanCond xf xf), x))
    (h3 : (xf ||| xf) &&& fNaN &&& fSNaN ≠ 0) :
    snanSpecAbs z.ctx.traps o := by
  rw [nanCond_snan xf xf h3] at h
  refine ⟨_, h, rfl, by show InvalidOperation &&& InvalidOperation ≠ 0; decide, ?_⟩
  intro ht
  show (if InvalidOperation &&& z.ctx.traps ≠ 0
        then some (Err.nan ("abs" ++ " with NaN as an operand"))
        else z.ctx.err) = _
  rw [if_pos ht]
  rfl

lemma qnanSpecAbs_outcome (z x : Big) (o : Option (Big × Big)) (xf : Nat)
    (h : o = some (nanOutcome z "abs" (nanCond xf xf), x))
    (h3 : (xf ||| xf) &&& fNaN &&& fSNaN = 0) :
    qnanSpecAbs o := by
  rw [nanCond_qnan xf xf h3] at h
  exact ⟨_, h, rfl, by show (0:Nat) &&& InvalidOperation = 0; decide⟩

lemma snanSpecCmp_outcome (z : Big) (o : Option (Int × Big)) (xf yf : Nat)
    (h : o = some (0, nanOutcome z "comparison" (nanCond xf yf)))
    (h3 : (xf ||| yf) &&& fNaN &&& fSNaN ≠ 0) :
    snanSpecCmp z.ctx.traps o := by
  rw [nanCond_snan xf yf h3] at h
  refine ⟨_, h, rfl, rfl, by show InvalidOperation &&& InvalidOperation ≠ 0; decide, ?_⟩
  intro ht
  show (if InvalidOperation &&& z.ctx.traps ≠ 0
        then some (Err.nan ("comparison" ++ " with NaN as an operand"))
        else z.ctx.err) = _
  rw [if_pos ht]
  rfl

lemma qnanSpecCmp_outcome (z : Big) (o : Option (Int × Big)) (xf yf : Nat)
    (h : o = some (0, nanOutcome z "comparison" (nanCond xf yf)))
    (h3 : (xf ||| yf) &&& fNaN &&& fSNaN = 0) :
    qnanSpecCmp o := by
  rw [nanCond_qnan xf yf h3] at h
  exact ⟨_, h, rfl, rfl, by show (0:Nat) &&& InvalidOperation = 0; decide⟩

/-- C4 (amended): in GDA mode, for `Add`, `Sub`, `Mul`, `Quo`, `Neg`, `Abs`
and for `Cmp` *on distinct receiver and operand objects*: a signaling-NaN
operand yields a quiet-NaN result, raises `InvalidOperation`, and (when
trapped) records an `ErrNaN` naming the operation; quiet-NaN-only operands
yield quiet-NaN without raising `InvalidOperation`.  (When `Cmp`'s receiver
and operand are the same object the source returns 0 at once and performs
no NaN handling at all; see the counterexample.) -/
theorem C4_nan_propagation_amended (z x y : Big)
    (hmode : z.ctx.operatingMode = GDA)
    (hvx : validForm x.form) (hvy : validForm y.form) :
    ((x.form = fSNaN ∨ y.form = fSNaN) →
      snanSpec z.ctx.traps "addition" (z.add x y) ∧
      snanSpec z.ctx.traps "subtraction" (z.sub x y) ∧
      snanSpec z.ctx.traps "multiplication" (z.mul x y) ∧
      snanSpec z.ctx.traps "division" (z.quo x y)) ∧
    (((x.form = fQNaN ∨ y.form = fQNaN) ∧ x.form ≠ fSNaN ∧ y.form ≠ fSNaN) →
      qnanSpec (z.add x y) ∧ qnanSpec (z.sub x y) ∧
      qnanSpec (z.mul x y) ∧ qnanSpec (z.quo x y)) ∧
    (x.form = fSNaN →
      snanSpec z.ctx.traps "negation" (z.neg x) ∧
      snanSpecAbs z.ctx.traps (z.abs x)) ∧
    (x.form = fQNaN →
      qnanSpec (z.neg x) ∧ qnanSpecAbs (z.abs x)) ∧
    (x.ctx.operatingMode = GDA → (x.form = fSNaN ∨ y.form = fSNaN) →
      snanSpecCmp x.ctx.traps (x.cmp y false)) ∧
    (x.ctx.operatingMode = GDA →
      ((x.form = fQNaN ∨ y.form = fQNaN) ∧ x.form ≠ fSNaN ∧ y.form ≠ fSNaN) →
      qnanSpecCmp (x.cmp y false)) := by
  refine ⟨?_, ?_, ?_, ?_, ?_, ?_⟩
  · intro h
    obtain ⟨h1, h2, h3⟩ := bitfact_snan x.form y.form hvx hvy h
    exact ⟨snanSpec_outcome z _ _ x.form y.form (add_nan_case z x y hmode h1 h2) h3,
      snanSpec_outcome z _ _ x.form y.form (sub_nan_case z x y hmode h1 h2) h3,
      snanSpec_outcome z _ _ x.form y.form (mul_nan_case z x y hmode h1 h2) h3,
      snanSpec_outcome z _ _ x.form y.form (quo_nan_case z x y hmode h1 h2) h3⟩
  · intro h
    obtain ⟨h1, h2, h3⟩ := bitfact_qnan x.form y.form hvx hvy h
    exact ⟨qnanSpec_outcome z _ _ x.form y.form (add_nan_case z x y hmode h1 h2) h3,
      qnanSpec_outcome z _ _ x.form y.form (sub_nan_case z x y hmode h1 h2) h3,
      qnanSpec_outcome z _ _ x.form y.form (mul_nan_case z x y hmode h1 h2) h3,
      qnanSpec_outcome z _ _ x.form y.form (quo_nan_case z x y hmode h1 h2) h3⟩
  · intro h
    have h1 : x.form ≠ fFinite := by rw [h]; decide
    have h2 : (x.form ||| x.form) &&& fNaN ≠ 0 := by rw [h]; decide
    have h3 : (x.form ||| x.form) &&& fNaN &&& fSNaN ≠ 0 := by rw [h]; decide
    exact ⟨snanSpec_outcome z _ _ x.form x.form (neg_nan_case z x hmode h1 h2) h3,
      snanSpecAbs_outcome z x _ x.form (abs_nan_case z x hmode h1 h2) h3⟩
  · intro h
    have h1 : x.form ≠ fFinite := by rw [h]; decide
    have h2 : (x.form ||| x.form) &&& fNaN ≠ 0 := by rw [h]; decide
    have h3 : (x.form ||| x.form) &&& fNaN &&& fSNaN = 0 := by rw [h]; decide
    exact ⟨qnanSpec_outcome z _ _ x.form x.form (neg_nan_case z x hmode h1 h2) h3,
      qnanSpecAbs_outcome z x _ x.form (abs_nan_case z x hmode h1 h2) h3⟩
  · intro hmx h
    obtain ⟨_, h2, h3⟩ := bitfact_snan x.form y.form hvx hvy h
    exact snanSpecCmp_outcome x _ x.form y.form (cmp_nan_case x y hmx h2) h3
  · intro hmx h
    obtain ⟨_, h2, h3⟩ := bitfact_qnan x.form y.form hvx hvy h
    exact qnanSpecCmp_outcome x _ x.form y.form (cmp_nan_case x y hmx h2) h3

/-- Witness for `C4_nan_propagation_amended`: a signaling-NaN operand in
GDA mode, run through the first and third conjuncts. -/
theorem C4_witness :
    snanSpec InvalidOperation "addition" (Big.add snanGDA snanGDA (bigNew 1 0)) ∧
    snanSpec InvalidOperation "negation" (Big.neg snanGDA snanGDA) :=
  ⟨((C4_nan_propagation_amended snanGDA snanGDA (bigNew 1 0) rfl
      (by right; right; right; left; rfl) (by right; right; left; rfl)).1
      (Or.inl rfl)).1,
   ((C4_nan_propagation_amended snanGDA snanGDA (bigNew 1 0) rfl
      (by right; right; right; left; rfl) (by right; right; left; rfl)).2.2.1
      rfl).1⟩

/-- C4 counterexample to the claim as stated: `x.Cmp(x)` where `x` is a
signaling NaN and both operands are the *same object* (the source's
`z == x` pointer shortcut).  The call returns 0, the value stays a
signaling NaN (its form is not quiet-NaN), and `InvalidOperation` is not
raised. -/
theorem C4_counterexample :
    Big.cmp snanGDA snanGDA true = some (0, snanGDA) ∧
    snanGDA.form = fSNaN ∧ fSNaN ≠ fQNaN ∧
    snanGDA.ctx.conditions &&& InvalidOperation = 0 :=
  ⟨rfl, rfl, by decide, by decide⟩

/-! ## Character-level lemmas about rendered digit strings. -/

lemma digitChar_spec (d : Nat) (hd : d ≤ 9) :
    isDigitCh (digitChar d) = true ∧ charDigit (digitChar d) = d ∧
    toLowerCh (digitChar d) = digitChar d ∧
    digitChar d ≠ 'e' ∧ digitChar d ≠ 'E' ∧ digitChar d ≠ '.' ∧
    digitChar d ≠ '+' ∧ digitChar d ≠ '-' ∧
    toLowerCh (digitChar d) ≠ 'i' ∧ toLowerCh (digitChar d) ≠ 's' ∧
    toLowerCh (digitChar d) ≠ 'q' ∧ toLowerCh (digitChar d) ≠ 'n' := by
  interval_cases d <;> exact ⟨rfl, rfl, rfl, by decide, by decide, by decide,
    by decide, by decide, by decide, by decide, by decide, by decide⟩

lemma all_isDigitCh_map (l : List Nat) (h : ∀ d ∈ l, d ≤ 9) :
    (l.map digitChar).all isDigitCh = true := by
  induction l with
  | nil => rfl
  | cons d t ih =>
    simp only [List.map_cons, List.all_cons, Bool.and_eq_true]
    exact ⟨(digitChar_spec d (h d (by simp))).1, ih (fun c hc => h c (by simp [hc]))⟩

lemma eFree_map (l : List Nat) (h : ∀ d ∈ l, d ≤ 9) :
    ∀ c ∈ l.map digitChar, ¬(c = 'e' ∨ c = 'E') := by
  intro c hc
  obtain ⟨d, hd, rfl⟩ := List.mem_map.1 hc
  obtain ⟨-, -, -, h4, h5, -⟩ := digitChar_spec d (h d hd)
  intro hor
  rcases hor with he | he
  · exact h4 he
  · exact h5 he

lemma dotFree_map (l : List Nat) (h : ∀ d ∈ l, d ≤ 9) :
    ∀ c ∈ l.map digitChar, c ≠ '.' := by
  intro c hc
  obtain ⟨d, hd, rfl⟩ := List.mem_map.1 hc
  exact (digitChar_spec d (h d hd)).2.2.2.2.2.1

lemma map_charDigit_map (l : List Nat) (h : ∀ d ∈ l, d ≤ 9) :
    (l.map digitChar).map charDigit = l := by
  induction l with
  | nil => rfl
  | cons d t ih =>
    simp only [List.map_cons, List.cons.injEq]
    exact ⟨(digitChar_spec d (h d (by simp))).2.1, ih (fun c hc => h c (by simp [hc]))⟩

lemma lastIndexEe_none (s : List Char) (h : ∀ c ∈ s, ¬(c = 'e' ∨ c = 'E')) :
    lastIndexEe s = -1 := by
  unfold lastIndexEe
  have hn : s.reverse.findIdx? (fun c => c = 'e' || c = 'E') = none := by
    rw [List.findIdx?_eq_none_iff]
    intro c hc
    have := h c (List.mem_reverse.1 hc)
    simp_all
  rw [hn]

lemma stripSign_no_sign (c : Char) (t : List Char) (h1 : c ≠ '+') (h2 : c ≠ '-') :
    stripSign (c :: t) = (false, c :: t) := by
  show (if c = '+' then ((false : Bool), t)
        else if c = '-' then (true, t) else (false, c :: t)) = (false, c :: t)
  rw [if_neg h1, if_neg h2]

lemma parseSpecial_none (c : Char) (t : List Char)
    (h1 : c ≠ '+') (h2 : c ≠ '-') (h3 : toLowerCh c ≠ 'i')
    (h4 : toLowerCh c ≠ 's') (h5 : toLowerCh c ≠ 'q') (h6 : toLowerCh c ≠ 'n') :
    parseSpecial (c :: t) = none := by
  unfold parseSpecial
  rw [stripSign_no_sign c t h1 h2]
  simp only [List.map_cons]
  have e1 : ¬ (toLowerCh c :: t.map toLowerCh = "inf".data ∨
      toLowerCh c :: t.map toLowerCh = "infinity".data) := by
    rintro (he | he) <;> · rw [List.cons_eq_cons] at he; exact h3 he.1
  rw [if_neg e1]
  by_cases h24 : (toLowerCh c :: t.map toLowerCh).take 4 = "snan".data ∧
      ((toLowerCh c :: t.map toLowerCh).drop 4).all isDigitCh
  · exfalso
    have h' : toLowerCh c :: (t.map toLowerCh).take 3 = "snan".data := by
      rw [show (toLowerCh c :: t.map toLowerCh).take 4
            = toLowerCh c :: (t.map toLowerCh).take 3 from rfl] at h24
      exact h24.1
    rw [List.cons_eq_cons] at h'
    exact h4 h'.1
  · rw [if_neg h24]
    by_cases h25 : (toLowerCh c :: t.map toLowerCh).take 4 = "qnan".data ∧
        ((toLowerCh c :: t.map toLowerCh).drop 4).all isDigitCh
    · exfalso
      have h' : toLowerCh c :: (t.map toLowerCh).take 3 = "qnan".data := by
        rw [show (toLowerCh c :: t.map toLowerCh).take 4
              = toLowerCh c :: (t.map toLowerCh).take 3 from rfl] at h25
        exact h25.1
      rw [List.cons_eq_cons] at h'
      exact h5 h'.1
    · rw [if_neg h25]
      by_cases h26 : (toLowerCh c :: t.map toLowerCh).take 3 = "nan".data ∧
          ((toLowerCh c :: t.map toLowerCh).drop 3).all isDigitCh
      · exfalso
        have h' : toLowerCh c :: (t.map toLowerCh).take 2 = "nan".data := by
          rw [show (toLowerCh c :: t.map toLowerCh).take 3
                = toLowerCh c :: (t.map toLowerCh).take 2 from rfl] at h26
          exact h26.1
        rw [List.cons_eq_cons] at h'
        exact h6 h'.1
      · rw [if_neg h26]

/-- `parseSpecial` rejects any string whose sign-stripped head is an ASCII
digit or a radix point. -/
lemma parseSpecial_none_digits (u : List Nat) (rest : List Char)
    (hu : ∀ d ∈ u, d ≤ 9) :
    parseSpecial (u.map digitChar ++ '.' :: rest) = none ∧
    (u ≠ [] → parseSpecial (u.map digitChar ++ rest) = none) := by
  constructor
  · cases u with
    | nil =>
      show parseSpecial ('.' :: rest) = none
      exact parseSpecial_none '.' rest (by decide) (by decide) (by decide)
        (by decide) (by decide) (by decide)
    | cons d t =>
      obtain ⟨-, -, -, -, -, -, h7, h8, h9, h10, h11, h12⟩ :=
        digitChar_spec d (hu d (by simp))
      show parseSpecial (digitChar d :: (t.map digitChar ++ '.' :: rest)) = none
      exact parseSpecial_none (digitChar d) _ h7 h8 h9 h10 h11 h12
  · intro hne
    cases u with
    | nil => exact absurd rfl hne
    | cons d t =>
      obtain ⟨-, -, -, -, -, -, h7, h8, h9, h10, h11, h12⟩ :=
        digitChar_spec d (hu d (by simp))
      show parseSpecial (digitChar d :: (t.map digitChar ++ rest)) = none
      exact parseSpecial_none (digitChar d) _ h7 h8 h9 h10 h11 h12

lemma lastIndexEe_append_e (a w : List Char)
    (ha : ∀ c ∈ a, ¬(c = 'e' ∨ c = 'E')) (hw : ∀ c ∈ w, ¬(c = 'e' ∨ c = 'E')) :
    lastIndexEe (a ++ 'e' :: w) = (a.length : Int) := by
  unfold lastIndexEe
  have hrev : (a ++ 'e' :: w).reverse = w.reverse ++ 'e' :: a.reverse := by simp
  have h1 : w.reverse.findIdx? (fun c => c = 'e' || c = 'E') = none := by
    rw [List.findIdx?_eq_none_iff]
    intro c hc
    have := hw c (List.mem_reverse.1 hc)
    simp_all
  have h2 : (w.reverse ++ 'e' :: a.reverse).findIdx? (fun c => c = 'e' || c = 'E')
      = some w.reverse.length := by
    rw [List.findIdx?_append, h1]
    simp [List.findIdx?_cons]
  rw [hrev, h2]
  simp [List.length_append]
  omega

lemma eFree_dot_digits (u : List Nat) (rest : List Char)
    (hu : ∀ d ∈ u, d ≤ 9) (hrest : ∀ c ∈ rest, ¬(c = 'e' ∨ c = 'E')) :
    ∀ c ∈ u.map digitChar ++ '.' :: rest, ¬(c = 'e' ∨ c = 'E') := by
  intro c hc
  rcases List.mem_append.1 hc with hc | hc
  · exact eFree_map u hu c hc
  · rcases List.mem_cons.1 hc with rfl | hc
    · decide
    · exact hrest c hc

/-- C7 (amended): in GDA mode, malformed input to `SetString` yields
`ok = false` and raises `ConversionSyntax`, but the receiver's form depends
on the stage that fails: an unparsable exponent, or an unparsable mantissa
of at most 19 characters, leaves the form quiet NaN; an unparsable mantissa
longer than 19 characters leaves the form *finite*, because the code assigns
`z.form = finite` before the length split and the `big.Int` fallback's
error branch never changes it; the empty string and a string with more than
one radix point leave the receiver's form exactly as it was (never NaN for
a fresh receiver); in no case is the input silently accepted. -/
theorem C7_setstring_malformed_amended (z : Big) (hmode : z.ctx.operatingMode = GDA) :
    ((Big.setString z []).2 = false ∧
     (Big.setString z []).1.ctx.conditions = ConversionSyntax ∧
     (Big.setString z []).1.form = z.form) ∧
    (∀ u v w : List Nat, (∀ d ∈ u, d ≤ 9) → (∀ d ∈ v, d ≤ 9) → (∀ d ∈ w, d ≤ 9) →
      (Big.setString z (u.map digitChar ++ '.' :: (v.map digitChar ++ '.' :: w.map digitChar))).2 = false ∧
      (Big.setString z (u.map digitChar ++ '.' :: (v.map digitChar ++ '.' :: w.map digitChar))).1.ctx.conditions = ConversionSyntax ∧
      (Big.setString z (u.map digitChar ++ '.' :: (v.map digitChar ++ '.' :: w.map digitChar))).1.form = z.form) ∧
    (∀ (u : List Nat) (w : List Char), u ≠ [] → (∀ d ∈ u, d ≤ 9) →
      (∀ c ∈ w, ¬(c = 'e' ∨ c = 'E')) →
      parseIntRange w MinScale MaxScale = PIResult.syntaxErr →
      (Big.setString z (u.map digitChar ++ 'e' :: w)).2 = false ∧
      (Big.setString z (u.map digitChar ++ 'e' :: w)).1.ctx.conditions = ConversionSyntax ∧
      (Big.setString z (u.map digitChar ++ 'e' :: w)).1.form = fQNaN) ∧
    (∀ s : List Char, s ≠ [] → parseSpecial s = none →
      (∀ c ∈ s, ¬(c = 'e' ∨ c = 'E')) → s.count '.' = 0 →
      (s.length : Int) ≤ 19 →
      parseIntRange s minInt64 maxInt64 = PIResult.syntaxErr →
      (Big.setString z s).2 = false ∧
      (Big.setString z s).1.ctx.conditions = ConversionSyntax ∧
      (Big.setString z s).1.form = fQNaN) ∧
    (∀ s : List Char, parseSpecial s = none →
      (∀ c ∈ s, ¬(c = 'e' ∨ c = 'E')) → s.count '.' = 0 →
      ¬ ((s.length : Int) ≤ 19) →
      parseIntBig s = none →
      (Big.setString z s).2 = false ∧
      (Big.setString z s).1.ctx.conditions = ConversionSyntax ∧
      (Big.setString z s).1.form = fFinite) := by
  refine ⟨?_, ?_, ?_, ?_, ?_⟩
  · unfold Big.setString
    rw [if_pos rfl]
    unfold Big.signalNN
    have hne : z.ctx.operatingMode ≠ GoMode := by rw [hmode]; decide
    rw [if_neg hne, if_pos hmode]
    exact ⟨rfl, rfl, rfl⟩
  · intro u v w hu hv hw
    set sm : List Char := u.map digitChar ++ '.' :: (v.map digitChar ++ '.' :: w.map digitChar) with hsm
    have hnonempty : sm ≠ [] := by
      rw [hsm]
      intro h
      have := congrArg List.length h
      simp [List.length_append] at this
    have hspec : parseSpecial sm = none := (parseSpecial_none_digits u _ hu).1
    have hefree : ∀ c ∈ sm, ¬(c = 'e' ∨ c = 'E') := by
      rw [hsm]
      apply eFree_dot_digits u _ hu
      apply eFree_dot_digits v _ hv
      exact eFree_map w hw
    have hee : lastIndexEe sm = -1 := lastIndexEe_none sm hefree
    have hcount : sm.count '.' = 2 := by
      rw [hsm]
      have c1 : (u.map digitChar).count '.' = 0 :=
        List.count_eq_zero.2 (fun hmem => dotFree_map u hu '.' hmem rfl)
      have c2 : (v.map digitChar).count '.' = 0 :=
        List.count_eq_zero.2 (fun hmem => dotFree_map v hv '.' hmem rfl)
      have c3 : (w.map digitChar).count '.' = 0 :=
        List.count_eq_zero.2 (fun hmem => dotFree_map w hw '.' hmem rfl)
      simp [List.count_append, List.count_cons, c1, c2, c3]
    unfold Big.setString
    rw [if_neg hnonempty, hspec]
    simp only [hee]
    rw [if_neg (by decide : ¬ ((-1 : Int) > 0))]
    simp only [hcount]
    unfold Big.signalNN
    have hne : z.ctx.operatingMode ≠ GoMode := by rw [hmode]; decide
    rw [if_neg hne, if_pos hmode]
    exact ⟨trivial, rfl, rfl⟩
  · intro u w hune hu hwe hsyn
    set sm : List Char := u.map digitChar ++ 'e' :: w with hsm
    have hnonempty : sm ≠ [] := by
      rw [hsm]
      intro h
      have := congrArg List.length h
      simp [List.length_append] at this
    have hspec : parseSpecial sm = none := (parseSpecial_none_digits u _ hu).2 hune
    have hee : lastIndexEe sm = ((u.map digitChar).length : Int) :=
      lastIndexEe_append_e _ w (eFree_map u hu) hwe
    have hpos : lastIndexEe sm > 0 := by
      rw [hee]
      simp only [List.length_map]
      have : 0 < u.length := List.length_pos.2 hune
      exact_mod_cast this
    have hdrop : sm.drop ((lastIndexEe sm).toNat + 1) = w := by
      rw [hee]
      simp only [Int.toNat_natCast]
      rw [hsm]
      rw [show (u.map digitChar).length + 1
            = ((u.map digitChar) ++ ['e']).length by simp]
      rw [show u.map digitChar ++ 'e' :: w = ((u.map digitChar) ++ ['e']) ++ w by simp]
      exact List.drop_left _ w
    unfold Big.setString
    rw [if_neg hnonempty, hspec]
    simp only [if_pos hpos, hdrop, hsyn]
    unfold Big.signalNN
    have hne : z.ctx.operatingMode ≠ GoMode := by rw [hmode]; decide
    rw [if_neg hne, if_pos hmode]
    exact ⟨trivial, rfl, rfl⟩
  · intro s hne hspec hef hdot hlen hsyn
    have hee : lastIndexEe s = -1 := lastIndexEe_none s hef
    unfold Big.setString
    rw [if_neg hne, hspec]
    simp only [hee]
    rw [if_neg (by decide : ¬ ((-1 : Int) > 0))]
    simp only [hdot]
    unfold Big.setStringMant
    simp only []
    rw [dif_pos hlen, hsyn]
    refine ⟨?_, ?_, ?_⟩ <;> simp +decide [Big.signalNN, hmode]
  · intro s hspec hef hdot hlen hbig
    have hne : s ≠ [] := by
      intro h
      rw [h] at hlen
      simp at hlen
    have hee : lastIndexEe s = -1 := lastIndexEe_none s hef
    unfold Big.setString
    rw [if_neg hne, hspec]
    simp only [hee]
    rw [if_neg (by decide : ¬ ((-1 : Int) > 0))]
    simp only [hdot]
    unfold Big.setStringMant
    simp only []
    rw [dif_neg hlen, hbig]
    refine ⟨?_, ?_, ?_⟩ <;> simp +decide [Big.signalNN, hmode]

/-- Witness for `C7_setstring_malformed_amended`: the multi-radix-point
input "1.2.3", the bad-exponent input "1ex", the short bad mantissa "1x"
(quiet NaN) and a 20-character bad mantissa (form left finite), all against
a fresh GDA receiver. -/
theorem C7_witness :
    ((Big.setString zGDA ([1].map digitChar ++ '.' :: ([2].map digitChar ++ '.' :: [3].map digitChar))).2 = false ∧
     (Big.setString zGDA ([1].map digitChar ++ '.' :: ([2].map digitChar ++ '.' :: [3].map digitChar))).1.ctx.conditions = ConversionSyntax ∧
     (Big.setString zGDA ([1].map digitChar ++ '.' :: ([2].map digitChar ++ '.' :: [3].map digitChar))).1.form = zGDA.form) ∧
    ((Big.setString zGDA ([1].map digitChar ++ 'e' :: ['x'])).2 = false ∧
     (Big.setString zGDA ([1].map digitChar ++ 'e' :: ['x'])).1.ctx.conditions = ConversionSyntax ∧
     (Big.setString zGDA ([1].map digitChar ++ 'e' :: ['x'])).1.form = fQNaN) ∧
    ((Big.setString zGDA ['1', 'x']).2 = false ∧
     (Big.setString zGDA ['1', 'x']).1.ctx.conditions = ConversionSyntax ∧
     (Big.setString zGDA ['1', 'x']).1.form = fQNaN) ∧
    ((Big.setString zGDA ['a', 'a', 'a', 'a', 'a', 'a', 'a', 'a', 'a', 'a',
        'a', 'a', 'a', 'a', 'a', 'a', 'a', 'a', 'a', 'a']).2 = false ∧
     (Big.setString zGDA ['a', 'a', 'a', 'a', 'a', 'a', 'a', 'a', 'a', 'a',
        'a', 'a', 'a', 'a', 'a', 'a', 'a', 'a', 'a', 'a']).1.ctx.conditions = ConversionSyntax ∧
     (Big.setString zGDA ['a', 'a', 'a', 'a', 'a', 'a', 'a', 'a', 'a', 'a',
        'a', 'a', 'a', 'a', 'a', 'a', 'a', 'a', 'a', 'a']).1.form = fFinite) :=
  ⟨(C7_setstring_malformed_amended zGDA rfl).2.1 [1] [2] [3]
      (by decide) (by decide) (by decide),
   (C7_setstring_malformed_amended zGDA rfl).2.2.1 [1] ['x']
      (by decide) (by decide) (by decide) rfl,
   (C7_setstring_malformed_amended zGDA rfl).2.2.2.1 ['1', 'x']
      (by decide) rfl (by decide) rfl (by decide) rfl,
   (C7_setstring_malformed_amended zGDA rfl).2.2.2.2
      ['a', 'a', 'a', 'a', 'a', 'a', 'a', 'a', 'a', 'a',
       'a', 'a', 'a', 'a', 'a', 'a', 'a', 'a', 'a', 'a']
      rfl (by decide) rfl (by decide) rfl⟩

/-- C7 counterexample to the claim as stated: parsing the malformed string
"1.2.3" (more than one radix point) against a fresh GDA receiver returns
`ok = false` and raises `ConversionSyntax`, but the receiver is *not* left
in a not-a-number state: its form remains positive zero. -/
theorem C7_counterexample :
    (Big.setString zGDA ("1.2.3".data)).2 = false ∧
    (Big.setString zGDA ("1.2.3".data)).1.ctx.conditions = ConversionSyntax ∧
    (Big.setString zGDA ("1.2.3".data)).1.form = fZero ∧
    fZero ≠ fQNaN ∧ fZero ≠ fSNaN :=
  ⟨rfl, rfl, rfl, by decide, by decide⟩


lemma valDigits_foldl (l : List Nat) (a : Nat) :
    l.foldl (fun a d => 10 * a + d) a = a * 10 ^ l.length + valDigits l := by
  induction l generalizing a with
  | nil => simp [valDigits]
  | cons d r ih =>
    show r.foldl _ (10 * a + d) = _
    rw [ih (10 * a + d)]
    have hd : valDigits (d :: r) = (List.foldl (fun a d => 10 * a + d) (10 * 0 + d) r) := rfl
    rw [hd, ih (10 * 0 + d)]
    simp [List.length_cons]
    ring

lemma valDigits_cons (d : Nat) (r : List Nat) :
    valDigits (d :: r) = d * 10 ^ r.length + valDigits r := by
  have h : valDigits (d :: r) = r.foldl (fun a d => 10 * a + d) (10 * 0 + d) := rfl
  rw [h, valDigits_foldl]
  simp

lemma valDigits_append (a b : List Nat) :
    valDigits (a ++ b) = valDigits a * 10 ^ b.length + valDigits b := by
  have h : valDigits (a ++ b) = b.foldl (fun a d => 10 * a + d) (valDigits a) := by
    unfold valDigits
    rw [List.foldl_append]
  rw [h, valDigits_foldl]

lemma valDigits_lt (l : List Nat) (h : ∀ d ∈ l, d ≤ 9) :
    valDigits l < 10 ^ l.length := by
  induction l with
  | nil => simp [valDigits]
  | cons d r ih =>
    rw [valDigits_cons]
    have h1 : d ≤ 9 := h d (by simp)
    have h2 : valDigits r < 10 ^ r.length := ih (fun c hc => h c (by simp [hc]))
    have h3 : (0:Nat) < 10 ^ r.length := Nat.pos_pow_of_pos _ (by norm_num)
    simp only [List.length_cons, pow_succ]
    nlinarith

lemma valRev_append_singleton (xs : List Nat) (d : Nat) :
    valRev (xs ++ [d]) = valRev xs + d * 10 ^ xs.length := by
  induction xs with
  | nil => simp [valRev]
  | cons c r ih =>
    simp only [List.cons_append, valRev, List.append_eq, ih, List.length_cons]
    ring

lemma valDigits_eq_valRev (l : List Nat) : valDigits l = valRev l.reverse := by
  induction l with
  | nil => rfl
  | cons d r ih =>
    rw [valDigits_cons, List.reverse_cons, valRev_append_singleton, ih]
    simp [Nat.add_comm]

lemma valDigits_replicate_nine (n : Nat) :
    valDigits (List.replicate n 9) = 10 ^ n - 1 := by
  induction n with
  | zero => rfl
  | succ m ih =>
    rw [List.replicate_succ, valDigits_cons, List.length_replicate, ih, pow_succ]
    have h : (0:Nat) < 10 ^ m := Nat.pos_pow_of_pos _ (by norm_num)
    omega

lemma carryInc_all9 (l : List Nat) (h : l.all (· = 9) = true) :
    carryInc l = (List.replicate l.length 0, true) := by
  induction l with
  | nil => rfl
  | cons d r ih =>
    simp only [List.all_cons, Bool.and_eq_true, decide_eq_true_eq] at h
    unfold carryInc
    rw [if_neg (by omega : ¬ d ≠ 9), ih h.2]
    simp [List.replicate_succ]

lemma carryInc_spec (l : List Nat) (hd : ∀ d ∈ l, d ≤ 9)
    (hne : l.all (· = 9) = false) :
    (carryInc l).2 = false ∧ (carryInc l).1.length = l.length ∧
    valRev (carryInc l).1 = valRev l + 1 ∧
    (∀ d ∈ (carryInc l).1, d ≤ 9) := by
  induction l with
  | nil => simp at hne
  | cons d r ih =>
    by_cases h9 : d = 9
    · subst h9
      have hr : r.all (· = 9) = false := by simpa using hne
      obtain ⟨ih1, ih2, ih3, ih4⟩ := ih (fun c hc => hd c (by simp [hc])) hr
      unfold carryInc
      rw [if_neg (by omega : ¬ (9:Nat) ≠ 9)]
      refine ⟨by simpa using ih1, by simpa using ih2, ?_, ?_⟩
      · show valRev (0 :: (carryInc r).1) = valRev (9 :: r) + 1
        simp only [valRev, ih3]
        ring
      · intro c hc
        rcases List.mem_cons.1 hc with rfl | hc
        · omega
        · exact ih4 c hc
    · unfold carryInc
      rw [if_pos h9]
      have hd9 : d ≤ 9 := hd d (by simp)
      refine ⟨rfl, rfl, ?_, ?_⟩
      · show valRev ((d+1) :: r) = valRev (d :: r) + 1
        simp [valRev]
        ring
      · intro c hc
        rcases List.mem_cons.1 hc with rfl | hc
        · omega
        · exact hd c (by simp [hc])

lemma getD_eq_headD_drop (b : List Nat) (prec : Nat) :
    b.getD prec 0 = (b.drop prec).headD 0 := by
  rw [List.getD_eq_getElem?_getD, List.headD_eq_head?_getD, List.head?_drop]

lemma getD_eq_getLastD_take (b : List Nat) (prec : Nat) (h0 : 0 < prec)
    (hle : prec ≤ b.length) :
    b.getD (prec - 1) 0 = (b.take prec).getLastD 0 := by
  rw [List.getD_eq_getElem?_getD, List.getLastD_eq_getLast?, List.getLast?_eq_getElem?]
  rw [List.length_take]
  have hmin : min prec b.length = prec := Nat.min_eq_left hle
  rw [hmin, List.getElem?_take_of_lt (by omega)]

lemma suffix_ge_half_iff (suf : List Nat) (h9 : ∀ d ∈ suf, d ≤ 9)
    (hne : suf ≠ []) :
    (2 * valDigits suf ≥ 10 ^ suf.length) ↔ 5 ≤ suf.headD 0 := by
  cases suf with
  | nil => exact absurd rfl hne
  | cons d rest =>
    have h1 : d ≤ 9 := h9 d (by simp)
    have h2 : valDigits rest < 10 ^ rest.length :=
      valDigits_lt rest (fun c hc => h9 c (by simp [hc]))
    have h3 : (0:Nat) < 10 ^ rest.length := Nat.pos_pow_of_pos _ (by norm_num)
    rw [valDigits_cons]
    simp only [List.length_cons, pow_succ, List.headD_cons]
    constructor
    · intro h
      by_contra hlt
      push_neg at hlt
      nlinarith
    · intro h
      nlinarith

/-- C8 (amended): for `0 < prec < len b` over valid digit strings without a
leading zero, `roundString` truncates exactly when the discarded suffix is
all zeros; otherwise it truncates or increments the retained prefix
according to the per-mode rule `incRule` (which, for ties-to-even, consults
only the first discarded digit); an increment adds exactly one to the value
of the retained prefix, keeps its length unless the prefix was all nines,
and in that full-carry case produces `1` followed by `prec` zeros — one
digit longer, as the claim states. -/
theorem C8_roundstring_amended (b : List Nat) (mode : Nat) (pos : Bool)
    (prec : Nat) (h0 : 0 < prec) (hlt : prec < b.length)
    (hd : ∀ d ∈ b, d ≤ 9) (hh : b.headD 1 ≠ 0) :
    (allZeros (b.drop prec) = true → roundString b mode pos prec = b.take prec) ∧
    (allZeros (b.drop prec) = false →
      (incRule mode pos (b.take prec) (b.drop prec) = false →
        roundString b mode pos prec = b.take prec) ∧
      (incRule mode pos (b.take prec) (b.drop prec) = true →
        valDigits (roundString b mode pos prec) = valDigits (b.take prec) + 1 ∧
        ((b.take prec).all (· = 9) = false →
          (roundString b mode pos prec).length = prec) ∧
        ((b.take prec).all (· = 9) = true →
          roundString b mode pos prec = 1 :: List.replicate prec 0))) := by
  have hnge : ¬ prec ≥ b.length := by omega
  have hsufne : b.drop prec ≠ [] := by
    intro h
    have := congrArg List.length h
    simp [List.length_drop] at this
    omega
  have hsufd : ∀ d ∈ b.drop prec, d ≤ 9 := fun d hh2 => hd d (List.mem_of_mem_drop hh2)
  have htaked : ∀ d ∈ b.take prec, d ≤ 9 := fun d hh2 => hd d (List.mem_of_mem_take hh2)
  -- the code's internal decision agrees with incRule
  have hinc : ∀ hz : allZeros (b.drop prec) = false,
      (if mode = AwayFromZero then true
       else if mode = ToZero then false
       else if mode = ToPositiveInf then pos
       else if mode = ToNegativeInf then !pos
       else if mode = ToNearestEven then
         decide (b.getD prec 0 > 5) ||
           (decide (b.getD prec 0 = 5) && decide (b.getD (prec - 1) 0 % 2 ≠ 0))
       else if mode = ToNearestAway then decide (b.getD prec 0 ≥ 5)
       else false) = incRule mode pos (b.take prec) (b.drop prec) := by
    intro hz
    unfold incRule
    rw [getD_eq_headD_drop, getD_eq_getLastD_take b prec h0 (by omega)]
    by_cases m1 : mode = AwayFromZero
    · simp [m1]
    by_cases m2 : mode = ToZero
    · simp [m1, m2]
    by_cases m3 : mode = ToPositiveInf
    · simp [m1, m2, m3]
    by_cases m4 : mode = ToNegativeInf
    · simp [m1, m2, m3, m4]
    by_cases m5 : mode = ToNearestEven
    · simp [m1, m2, m3, m4, m5]
    by_cases m6 : mode = ToNearestAway
    · simp only [m1, m2, m3, m4, m5, m6, if_false, if_true]
      have := suffix_ge_half_iff (b.drop prec) hsufd hsufne
      by_cases hcase : 5 ≤ (b.drop prec).headD 0
      · rw [decide_eq_true hcase, decide_eq_true (this.2 hcase)]
      · rw [decide_eq_false hcase, decide_eq_false (fun hge => hcase (this.1 hge))]
    · simp [m1, m2, m3, m4, m5, m6]
  have hkeptlen : ((carryInc (b.take prec).reverse).1).length = prec := by
    by_cases hall : (b.take prec).all (· = 9) = true
    · rw [carryInc_all9 _ (by rw [List.all_reverse]; exact hall)]
      simp [List.length_take]
      omega
    · have h9 := carryInc_spec (b.take prec).reverse
        (fun d hd2 => htaked d (List.mem_reverse.1 hd2))
        (by rw [List.all_reverse]; exact Bool.eq_false_iff.2 (fun hc => hall hc))
      rw [h9.2.1]
      simp [List.length_take]
      omega
  constructor
  · intro hz
    unfold roundString
    rw [if_neg hnge, if_pos hz]
  · intro hz
    have hzfalse : ¬ allZeros (b.drop prec) = true := by simp [hz]
    constructor
    · intro hrule
      unfold roundString
      rw [if_neg hnge, if_neg hzfalse]
      simp only [hinc hz, hrule]
      rw [if_pos (by decide : ¬ false = true)]
    · intro hrule
      unfold roundString
      rw [if_neg hnge, if_neg hzfalse]
      simp only [hinc hz, hrule]
      rw [if_neg (not_not_intro trivial)]
      by_cases hall : (b.take prec).all (· = 9) = true
      · -- full carry: all nines
        have hc9 : carryInc ((b.take prec).reverse)
            = (List.replicate (b.take prec).reverse.length 0, true) :=
          carryInc_all9 _ (by rw [List.all_reverse]; exact hall)
        have hlen : (b.take prec).reverse.length = prec := by
          simp [List.length_take]
          omega
        rw [hc9]
        simp only [hlen, List.reverse_replicate]
        have hhead : (List.replicate prec (0:Nat)).headD 1 = 0 := by
          cases prec with
          | zero => omega
          | succ m => rw [List.replicate_succ]; rfl
        rw [if_pos hhead]
        have htake9 : b.take prec = List.replicate prec 9 := by
          have hlen2 : (b.take prec).length = prec := by
            simp [List.length_take]; omega
          have hmem : ∀ d ∈ b.take prec, d = 9 := by
            intro d hd2
            have := List.all_eq_true.1 hall d hd2
            simpa using this
          exact List.eq_replicate_iff.2 ⟨hlen2, hmem⟩
        have hz0 : ∀ n : Nat, valDigits (List.replicate n (0:Nat)) = 0 := by
          intro n
          induction n with
          | zero => rfl
          | succ m ihm =>
            rw [List.replicate_succ, valDigits_cons, ihm]
            simp
        refine ⟨?_, ?_, fun _ => rfl⟩
        · rw [htake9, valDigits_replicate_nine, valDigits_cons]
          rw [hz0 prec, List.length_replicate]
          have hp : (0:Nat) < 10 ^ prec := Nat.pos_pow_of_pos _ (by norm_num)
          omega
        · intro hcontra
          exact absurd hcontra (by rw [hall]; decide)
      · -- ordinary increment, no full carry
        have hallf : (b.take prec).all (· = 9) = false :=
          Bool.eq_false_iff.2 (fun hc => hall hc)
        obtain ⟨h1, h2, h3, h4⟩ := carryInc_spec (b.take prec).reverse
          (fun d hd2 => htaked d (List.mem_reverse.1 hd2))
          (by rw [List.all_reverse]; exact hallf)
        have hlenrev : (b.take prec).reverse.length = prec := by
          simp [List.length_take]; omega
        have hklen : ((carryInc (b.take prec).reverse).1).reverse.length = prec := by
          simp only [List.length_reverse]
          rw [h2]
          exact hlenrev
        have hvalkept : valDigits ((carryInc (b.take prec).reverse).1).reverse
            = valDigits (b.take prec) + 1 := by
          rw [valDigits_eq_valRev, List.reverse_reverse, h3, ← valDigits_eq_valRev]
        have hheadne : ¬ ((carryInc (b.take prec).reverse).1).reverse.headD 1 = 0 := by
          intro hhead0
          rcases hkept : ((carryInc (b.take prec).reverse).1).reverse with _ | ⟨k0, restk⟩
          · rw [hkept] at hklen
            simp at hklen
            omega
          · rw [hkept] at hhead0
            simp only [List.headD_cons] at hhead0
            subst hhead0
            have hkd : ∀ d ∈ (carryInc (b.take prec).reverse).1.reverse, d ≤ 9 := by
              intro d hd2
              exact h4 d (List.mem_reverse.1 hd2)
            have hrestd : ∀ d ∈ restk, d ≤ 9 := by
              intro d hd2
              exact hkd d (by rw [hkept]; simp [hd2])
            have hrestlt : valDigits restk < 10 ^ restk.length := valDigits_lt restk hrestd
            have hvk : valDigits ((carryInc (b.take prec).reverse).1).reverse
                = valDigits restk := by
              rw [hkept, valDigits_cons]
              simp
            have hrklen : restk.length = prec - 1 := by
              rw [hkept] at hklen
              simp at hklen
              omega
            -- lower bound on the retained prefix: its head is b's nonzero head
            rcases hb : b with _ | ⟨hb0, btail⟩
            · rw [hb] at hlt; simp at hlt
            · have hb0ne : hb0 ≠ 0 := by
                rw [hb] at hh
                simpa using hh
              rcases hp : prec with _ | m
              · omega
              · have htakec : b.take prec = hb0 :: btail.take m := by
                  rw [hb, hp]
                  rfl
                have hmlen : (btail.take m).length = m := by
                  rw [hb, hp] at hlt
                  simp at hlt
                  simp [List.length_take]
                  omega
                have hlow : 10 ^ m ≤ valDigits (b.take prec) := by
                  rw [htakec, valDigits_cons, hmlen]
                  have : 1 ≤ hb0 := by omega
                  nlinarith [Nat.pos_pow_of_pos m (show 0 < 10 by norm_num)]
                have hkey : valDigits restk = valDigits (b.take prec) + 1 := by
                  rw [← hvk, hvalkept]
                have hr2 : restk.length = m := by omega
                rw [hkey, hr2] at hrestlt
                omega
        rw [if_neg hheadne]
        exact ⟨hvalkept, fun _ => hklen,
          fun hcontra => absurd hcontra (by rw [hallf]; decide)⟩

/-- Witness for C8: the theorem applied at concrete inputs — a full carry
(`995` rounded to two digits becomes `100`, one digit longer) and a
truncation under ties-to-even (`2431` to two digits stays `24`). -/
theorem C8_witness :
    roundString [9, 9, 5] ToNearestEven true 2 = [1, 0, 0] ∧
    roundString [2, 4, 3, 1] ToNearestEven true 2 = [2, 4] := by
  constructor
  · have h := C8_roundstring_amended [9, 9, 5] ToNearestEven true 2 (by decide) (by decide)
      (by decide) (by decide)
    exact ((h.2 (by decide)).2 (by decide)).2.2 (by decide)
  · have h := C8_roundstring_amended [2, 4, 3, 1] ToNearestEven true 2 (by decide) (by decide)
      (by decide) (by decide)
    exact (h.2 (by decide)).1 (by decide)

/-- Counterexample for C8 as claimed: under ties-to-even the code reads only
the first discarded digit (format.go works on `b[:prec+1]`), so rounding the
digits `2451` to two places leaves `24` even though the discarded suffix `51`
strictly exceeds half a unit in the last retained place (`2·51 > 10^2`) — the
claim's "suffix exceeds half" rule requires the increment to `25`. -/
theorem C8_counterexample :
    roundString [2, 4, 5, 1] ToNearestEven true 2 = [2, 4] ∧
    2 * valDigits ([2, 4, 5, 1].drop 2) > 10 ^ ([2, 4, 5, 1].drop 2).length := by
  decide


lemma checkedAdd_comm (a b : Int) : checkedAdd a b = checkedAdd b a := by
  unfold checkedAdd
  rw [Int.add_comm]

lemma addCompact_comm (z x y : Big) : Big.addCompact z x y = Big.addCompact z y x := by
  unfold Big.addCompact
  by_cases h : x.scale = y.scale
  · simp only [h, checkedAdd_comm x.compact y.compact, Int.add_comm x.compact y.compact, ite_true, ite_false]
  · have h' : ¬ y.scale = x.scale := fun hh => h hh.symm
    by_cases hlt : x.scale < y.scale
    · have h2 : ¬ y.scale < x.scale := by omega
      simp only [h, h', hlt, h2, ite_true, ite_false]
    · have h2 : y.scale < x.scale := by omega
      simp only [h, h', hlt, h2, ite_true, ite_false]

lemma addBig_comm (z x y : Big) : Big.addBig z x y = Big.addBig z y x := by
  unfold Big.addBig
  by_cases h : x.scale = y.scale
  · simp only [h, Int.add_comm x.mant y.mant, ite_true, ite_false]
  · have h' : ¬ y.scale = x.scale := fun hh => h hh.symm
    by_cases hlt : x.scale < y.scale
    · have h2 : ¬ y.scale < x.scale := by omega
      simp only [h, h', hlt, h2, ite_true, ite_false]
    · have h2 : y.scale < x.scale := by omega
      simp only [h, h', hlt, h2, ite_true, ite_false]

lemma roundN_id (z : Big) (n : Int) (h : n ≤ 0 ∨ z.form ≠ fFinite ∨ n ≥ z.precision) :
    Big.roundN z n = z := by
  unfold Big.roundN
  rcases h with h | h | h
  · rw [if_pos (Or.inl h)]
  · rw [if_pos (Or.inr h)]
  · by_cases h0 : n ≤ 0 ∨ z.form ≠ fFinite
    · rw [if_pos h0]
    · rw [if_neg h0]
      simp only []
      rw [if_pos h]

lemma numVal_set_pinf (z x : Big) (h : x.form = fPInf) :
    (Big.set z x).numVal = NumVal.posInf := by
  unfold Big.set
  simp only []
  rw [roundN_id _ _ (Or.inr (Or.inl (by simp [h]; decide)))]
  unfold Big.numVal
  simp +decide [h]

lemma numVal_set_ninf (z x : Big) (h : x.form = fNInf) :
    (Big.set z x).numVal = NumVal.negInf := by
  unfold Big.set
  simp only []
  rw [roundN_id _ _ (Or.inr (Or.inl (by simp [h]; decide)))]
  unfold Big.numVal
  simp +decide [h]

lemma numVal_set_small (z x : Big) (hx : x.form = fFinite)
    (hp : z.ctx.precisionFn ≤ 0 ∨ x.precision ≤ z.ctx.precisionFn) :
    (Big.set z x).numVal = NumVal.fin x.val := by
  unfold Big.set
  simp only []
  have hcp : Big.precision { z with compact := x.compact, form := x.form,
                                    scale := x.scale,
                                    unscaled := if x.isInflated = true then x.unscaled
                                                else z.unscaled } = x.precision := by
    unfold Big.precision Big.isCompact Big.isInflated
    by_cases hc : x.compact = Inflated <;>
      simp [hc, Big.isCompact]
  have hcm : ∀ f : Nat, Big.mant { z with compact := x.compact, form := f,
                                           scale := x.scale,
                                           unscaled := if x.isInflated = true then x.unscaled
                                                       else z.unscaled } = x.mant := by
    intro f
    unfold Big.mant Big.isCompact Big.isInflated
    by_cases hc : x.compact = Inflated <;>
      simp [hc, Big.isCompact]
  rw [roundN_id _ _ (by
    rcases hp with hp | hp
    · exact Or.inl hp
    · exact Or.inr (Or.inr (by rw [hcp]; exact hp)))]
  unfold Big.numVal
  simp only [hx, ite_true]
  unfold Big.val
  rw [hcm fFinite]

lemma add_zero_set (z x : Big) (hx : x.form = fFinite) :
    Big.add z x zeroOperand = some (Big.set z x) := by
  unfold Big.add
  simp +decide [hx, zeroOperand, Big.checkNaNs]

/-- C9 (amended): addition commutes numerically for every receiver and all
well-formed operands — `Add(z, x, y)` and `Add(z, y, x)` have the same
numeric reading (and the same trap behaviour).  The `+0` identity, however,
holds only when the receiver's context precision is nonpositive or at least
`x`'s digit count: `Add` routes a finite `x` plus `+0` through `Set`, which
unconditionally rounds `x` to the receiver's context precision. -/
theorem C9_add_comm_identity_amended (z x y : Big)
    (hvx : validForm x.form) (hvy : validForm y.form) :
    (Big.add z x y).map Big.numVal = (Big.add z y x).map Big.numVal ∧
    (x.form = fFinite →
      z.ctx.precisionFn ≤ 0 ∨ x.precision ≤ z.ctx.precisionFn →
      (Big.add z x zeroOperand).map Big.numVal = some (NumVal.fin x.val)) := by
  constructor
  · by_cases hf : x.form = fFinite ∧ y.form = fFinite
    · unfold Big.add
      rw [if_pos (show y.form = fFinite ∧ x.form = fFinite from ⟨hf.2, hf.1⟩), if_pos hf]
      by_cases hcx : x.isCompact = true <;> by_cases hcy : y.isCompact = true <;>
        simp +decide [hcx, hcy] <;>
        first
          | rfl
          | rw [addCompact_comm]
          | rw [addBig_comm]
    · have hf' : ¬ (y.form = fFinite ∧ x.form = fFinite) := fun hh => hf ⟨hh.2, hh.1⟩
      unfold Big.add
      rw [if_neg hf, if_neg hf']
      rcases hvx with hx | hx | hx | hx | hx | hx | hx <;>
        rcases hvy with hy | hy | hy | hy | hy | hy | hy <;>
        first
          | exact absurd (And.intro hx hy) hf
          | (simp +decide [hx, hy, Big.checkNaNs] <;>
             first
               | rfl
               | (rw [numVal_set_pinf z x hx, numVal_set_pinf z y hy])
               | (rw [numVal_set_ninf z x hx, numVal_set_ninf z y hy]))
  · intro hx hp
    rw [add_zero_set z x hx]
    show some ((Big.set z x).numVal) = some (NumVal.fin x.val)
    rw [numVal_set_small z x hx hp]

/-- Witness for C9: the theorem applied at the concrete inputs 5 + 7
(commutativity) and 5 + (+0) (identity at precision 1 ≤ 16). -/
theorem C9_witness :
    (Big.add {} (bigNew 5 0) (bigNew 7 0)).map Big.numVal
      = (Big.add {} (bigNew 7 0) (bigNew 5 0)).map Big.numVal ∧
    (Big.add {} (bigNew 5 0) zeroOperand).map Big.numVal
      = some (NumVal.fin (bigNew 5 0).val) := by
  have h := C9_add_comm_identity_amended {} (bigNew 5 0) (bigNew 7 0)
    (by unfold validForm; decide) (by unfold validForm; decide)
  exact ⟨h.1, h.2 (by decide) (by decide)⟩

/-- Counterexample for C9 as claimed: with the default context (precision
16), adding `+0` to the 17-digit value `10^16 + 1` is not an identity — the
`Set` call inside `Add` rounds the copy to 16 digits, giving mantissa
`10^15` at scale `-1`, i.e. the value `10^16 ≠ 10^16 + 1`. -/
theorem C9_counterexample :
    ∃ r, Big.add {} (bigNew 10000000000000001 0) zeroOperand = some r ∧
      r.mant = 1000000000000000 ∧ r.scale = -1 ∧
      ¬ r.val = (bigNew 10000000000000001 0).val := by
  refine ⟨_, rfl, by decide, by decide, ?_⟩
  show ¬ qval 1000000000000000 (-1) = qval 10000000000000001 0
  norm_num [qval]


lemma valDigits_replicate_zero (n : Nat) : valDigits (List.replicate n 0) = 0 := by
  induction n with
  | zero => rfl
  | succ m ih =>
    rw [List.replicate_succ, valDigits_cons, ih]
    simp

lemma valDigits_reverse_ofDigits (l : List Nat) :
    valDigits l.reverse = Nat.ofDigits 10 l := by
  induction l with
  | nil => rfl
  | cons d t ih =>
    rw [List.reverse_cons, valDigits_append, ih, Nat.ofDigits_cons]
    have h1 : valDigits [d] = d := by
      rw [show ([d] : List Nat) = d :: [] from rfl, valDigits_cons]
      simp [valDigits]
    rw [h1]
    simp only [List.length_singleton, pow_one]
    push_cast
    ring

lemma valDigits_digitsOf (n : Nat) : valDigits (digitsOf n) = n := by
  unfold digitsOf
  rw [valDigits_reverse_ofDigits, Nat.ofDigits_digits]

lemma digitsOf_le9 (n : Nat) : ∀ d ∈ digitsOf n, d ≤ 9 := by
  intro d hd
  unfold digitsOf at hd
  have := Nat.digits_lt_base (by norm_num) (List.mem_reverse.1 hd)
  omega

lemma digitsOf_ne_nil (n : Nat) (h : n ≠ 0) : digitsOf n ≠ [] := by
  unfold digitsOf
  simp [Nat.digits_ne_nil_iff_ne_zero, h]

lemma valDigits_split_zeros (v : List Nat) (t : Nat) :
    valDigits (v ++ List.replicate t 0) = valDigits v * 10 ^ t := by
  rw [valDigits_append, valDigits_replicate_zero, List.length_replicate]
  omega

lemma split_trailing_zeros (u : List Nat) :
    ∃ v t, u = v ++ List.replicate t 0 ∧ (v = [] ∨ v.getLastD 1 ≠ 0) := by
  induction u using List.reverseRecOn with
  | nil => exact ⟨[], 0, rfl, Or.inl rfl⟩
  | append_singleton u' d ih =>
    by_cases hd : d = 0
    · obtain ⟨v, t, hu, hv⟩ := ih
      subst hd
      refine ⟨v, t + 1, ?_, hv⟩
      rw [hu, List.replicate_succ', ← List.append_assoc]
    · refine ⟨u' ++ [d], 0, by simp, Or.inr ?_⟩
      rw [List.getLastD_concat]
      exact hd

lemma digitChar_ne_zero_ch (d : Nat) (h9 : d ≤ 9) (h0 : d ≠ 0) :
    digitChar d ≠ '0' := by
  interval_cases d <;> first | (exact absurd rfl h0) | decide

lemma dropWhile_replicate_append (t : Nat) (X : List Char) :
    (List.replicate t '0' ++ X).dropWhile (· = '0') = X.dropWhile (· = '0') := by
  induction t with
  | zero => rfl
  | succ m ih =>
    rw [List.replicate_succ, List.cons_append, List.dropWhile_cons]
    simp [ih]

lemma trimIndex_map_split (v : List Nat) (t : Nat) (hv9 : ∀ d ∈ v, d ≤ 9)
    (hvlast : v = [] ∨ v.getLastD 1 ≠ 0) :
    trimIndex ((v ++ List.replicate t 0).map digitChar)
      = if v = [] then -1 else (v.length : Int) := by
  unfold trimIndex
  rw [List.map_append, List.map_replicate]
  rw [show digitChar 0 = '0' from rfl]
  rw [List.reverse_append, List.reverse_replicate, dropWhile_replicate_append]
  rcases hvlast with hv | hv
  · subst hv
    simp
  · rcases List.eq_nil_or_concat v with hv0 | ⟨v', d, hv0⟩
    · subst hv0
      simp
    · subst hv0
      simp only [List.concat_eq_append] at hv hv9 ⊢
      rw [List.getLastD_concat] at hv
      have hd9 : d ≤ 9 := hv9 d (by simp)
      have hne : digitChar d ≠ '0' := digitChar_ne_zero_ch d hd9 hv
      rw [List.map_append, List.reverse_append]
      rw [show ((List.map digitChar [d]).reverse = [digitChar d]) from rfl]
      rw [List.singleton_append, List.dropWhile_cons,
        if_neg (show ¬ (decide (digitChar d = '0') = true) by simp [hne])]
      simp

lemma stripSign_sgn (neg : Bool) (c : Char) (t : List Char)
    (h1 : c ≠ '+') (h2 : c ≠ '-') :
    stripSign ((if neg then ['-'] else []) ++ c :: t) = (neg, c :: t) := by
  cases neg
  · simpa using stripSign_no_sign c t h1 h2
  · rfl

lemma parseSpecial_stripped (s : List Char) (bfl : Bool) (c : Char) (t : List Char)
    (hs : stripSign s = (bfl, c :: t))
    (h3 : toLowerCh c ≠ 'i') (h4 : toLowerCh c ≠ 's') (h5 : toLowerCh c ≠ 'q')
    (h6 : toLowerCh c ≠ 'n') :
    parseSpecial s = none := by
  unfold parseSpecial
  rw [hs]
  simp only [List.map_cons]
  have e1 : ¬ (toLowerCh c :: t.map toLowerCh = "inf".data ∨
      toLowerCh c :: t.map toLowerCh = "infinity".data) := by
    rintro (he | he) <;> · rw [List.cons_eq_cons] at he; exact h3 he.1
  rw [if_neg e1]
  by_cases h24 : (toLowerCh c :: t.map toLowerCh).take 4 = "snan".data ∧
      ((toLowerCh c :: t.map toLowerCh).drop 4).all isDigitCh
  · exfalso
    have h' : toLowerCh c :: (t.map toLowerCh).take 3 = "snan".data := by
      rw [show (toLowerCh c :: t.map toLowerCh).take 4
            = toLowerCh c :: (t.map toLowerCh).take 3 from rfl] at h24
      exact h24.1
    rw [List.cons_eq_cons] at h'
    exact h4 h'.1
  · rw [if_neg h24]
    by_cases h25 : (toLowerCh c :: t.map toLowerCh).take 4 = "qnan".data ∧
        ((toLowerCh c :: t.map toLowerCh).drop 4).all isDigitCh
    · exfalso
      have h' : toLowerCh c :: (t.map toLowerCh).take 3 = "qnan".data := by
        rw [show (toLowerCh c :: t.map toLowerCh).take 4
              = toLowerCh c :: (t.map toLowerCh).take 3 from rfl] at h25
        exact h25.1
      rw [List.cons_eq_cons] at h'
      exact h5 h'.1
    · rw [if_neg h25]
      by_cases h26 : (toLowerCh c :: t.map toLowerCh).take 3 = "nan".data ∧
          ((toLowerCh c :: t.map toLowerCh).drop 3).all isDigitCh
      · exfalso
        have h' : toLowerCh c :: (t.map toLowerCh).take 2 = "nan".data := by
          rw [show (toLowerCh c :: t.map toLowerCh).take 3
                = toLowerCh c :: (t.map toLowerCh).take 2 from rfl] at h26
          exact h26.1
        rw [List.cons_eq_cons] at h'
        exact h6 h'.1
      · rw [if_neg h26]

lemma parseIntRange_digits (neg : Bool) (u : List Nat) (lo hi : Int)
    (hu : ∀ d ∈ u, d ≤ 9) (hne : u ≠ []) :
    parseIntRange ((if neg then ['-'] else []) ++ u.map digitChar) lo hi
      = (if (if neg then -(valDigits u : Int) else (valDigits u : Int)) > hi
         then PIResult.rangeErr hi
         else if (if neg then -(valDigits u : Int) else (valDigits u : Int)) < lo
         then PIResult.rangeErr lo
         else PIResult.ok (if neg then -(valDigits u : Int) else (valDigits u : Int))) := by
  obtain ⟨d, u', rfl⟩ : ∃ d u', u = d :: u' := by
    cases u with
    | nil => exact absurd rfl hne
    | cons a b => exact ⟨a, b, rfl⟩
  have hd := digitChar_spec d (hu d (by simp))
  unfold parseIntRange
  rw [List.map_cons, stripSign_sgn neg _ _ hd.2.2.2.2.2.2.1 hd.2.2.2.2.2.2.2.1]
  simp only []
  rw [if_neg (show ¬ ((digitChar d :: u'.map digitChar) = [] ∨
      ¬ ((digitChar d :: u'.map digitChar).all isDigitCh = true)) by
    push_neg
    refine ⟨by simp, ?_⟩
    have := all_isDigitCh_map (d :: u') hu
    simpa using this)]
  rw [show (digitChar d :: List.map digitChar u') = (d :: u').map digitChar from rfl]
  rw [map_charDigit_map (d :: u') hu]

lemma parseIntBig_digits (neg : Bool) (u : List Nat)
    (hu : ∀ d ∈ u, d ≤ 9) (hne : u ≠ []) :
    parseIntBig ((if neg then ['-'] else []) ++ u.map digitChar)
      = some (if neg then -(valDigits u : Int) else (valDigits u : Int)) := by
  obtain ⟨d, u', rfl⟩ : ∃ d u', u = d :: u' := by
    cases u with
    | nil => exact absurd rfl hne
    | cons a b => exact ⟨a, b, rfl⟩
  have hd := digitChar_spec d (hu d (by simp))
  unfold parseIntBig
  rw [List.map_cons, stripSign_sgn neg _ _ hd.2.2.2.2.2.2.1 hd.2.2.2.2.2.2.2.1]
  simp only []
  rw [if_neg (show ¬ ((digitChar d :: u'.map digitChar) = [] ∨
      ¬ ((digitChar d :: u'.map digitChar).all isDigitCh = true)) by
    push_neg
    refine ⟨by simp, ?_⟩
    have := all_isDigitCh_map (d :: u') hu
    simpa using this)]
  rw [show (digitChar d :: List.map digitChar u') = (d :: u').map digitChar from rfl]
  rw [map_charDigit_map (d :: u') hu]

lemma valDigits_int_lt (u : List Nat) (hu : ∀ d ∈ u, d ≤ 9) :
    (valDigits u : Int) < 10 ^ u.length := by
  have := valDigits_lt u hu
  exact_mod_cast this

lemma len_ge_19_of_big (u : List Nat) (hu : ∀ d ∈ u, d ≤ 9)
    (h : (2:Int) ^ 63 - 1 < (valDigits u : Int)) : 19 ≤ u.length := by
  by_contra hlt
  push_neg at hlt
  have h1 : (valDigits u : Int) < 10 ^ u.length := valDigits_int_lt u hu
  have h2 : (10:Int) ^ u.length ≤ 10 ^ 18 :=
    pow_le_pow_right (by norm_num) (by omega)
  have h3 : (10:Int) ^ 18 < 2 ^ 63 - 1 := by norm_num
  omega

lemma parseIntRange_digits_pos (u : List Nat) (lo hi : Int)
    (hu : ∀ d ∈ u, d ≤ 9) (hne : u ≠ []) :
    parseIntRange (u.map digitChar) lo hi
      = (if (valDigits u : Int) > hi then PIResult.rangeErr hi
         else if (valDigits u : Int) < lo then PIResult.rangeErr lo
         else PIResult.ok (valDigits u : Int)) := by
  have := parseIntRange_digits false u lo hi hu hne
  simpa using this

lemma parseIntRange_digits_neg (u : List Nat) (lo hi : Int)
    (hu : ∀ d ∈ u, d ≤ 9) (hne : u ≠ []) :
    parseIntRange ('-' :: u.map digitChar) lo hi
      = (if -(valDigits u : Int) > hi then PIResult.rangeErr hi
         else if -(valDigits u : Int) < lo then PIResult.rangeErr lo
         else PIResult.ok (-(valDigits u : Int))) := by
  have := parseIntRange_digits true u lo hi hu hne
  simpa using this

lemma parseIntBig_digits_pos (u : List Nat) (hu : ∀ d ∈ u, d ≤ 9) (hne : u ≠ []) :
    parseIntBig (u.map digitChar) = some (valDigits u : Int) := by
  have := parseIntBig_digits false u hu hne
  simpa using this

lemma parseIntBig_digits_neg (u : List Nat) (hu : ∀ d ∈ u, d ≤ 9) (hne : u ≠ []) :
    parseIntBig ('-' :: u.map digitChar) = some (-(valDigits u : Int)) := by
  have := parseIntBig_digits true u hu hne
  simpa using this

lemma setStringMant_digits_pos (z : Big) (u : List Nat) (scale : Int)
    (hu : ∀ d ∈ u, d ≤ 9) (hne : u ≠ []) (hnz : valDigits u ≠ 0) :
    ∃ r, Big.setStringMant z (u.map digitChar) scale = (r, true) ∧
      r.form = fFinite ∧ r.mant = (valDigits u : Int) ∧ r.scale = scale := by
  have hvne0 : (valDigits u : Int) ≠ 0 := by exact_mod_cast hnz
  have hInf : (valDigits u : Int) ≠ Inflated := by
    unfold Inflated
    have : (0:Int) ≤ (valDigits u : Int) := Int.ofNat_nonneg _
    omega
  unfold Big.setStringMant
  simp only []
  by_cases h19 : (((u.map digitChar).length : Nat) : Int) ≤ 19
  · rw [dif_pos h19]
    by_cases hbig : (valDigits u : Int) > maxInt64
    · have hok : parseIntRange (u.map digitChar) minInt64 maxInt64
          = PIResult.rangeErr maxInt64 := by
        rw [parseIntRange_digits_pos u _ _ hu hne, if_pos hbig]
      rw [hok]
      simp only []
      have hl19 : (((u.map digitChar).length : Nat) : Int) = 19 := by
        have hu19 : 19 ≤ u.length := by
          apply len_ge_19_of_big u hu
          unfold maxInt64 at hbig
          omega
        simp only [List.length_map] at h19 ⊢
        omega
      rw [if_pos hl19, parseIntBig_digits_pos u hu hne]
      simp only []
      rw [if_neg hvne0]
      refine ⟨_, rfl, rfl, ?_, rfl⟩
      unfold Big.mant Big.isCompact
      simp
    · have hsm : ¬ (valDigits u : Int) < minInt64 := by
        unfold minInt64
        have : (0:Int) ≤ (valDigits u : Int) := Int.ofNat_nonneg _
        omega
      have hok : parseIntRange (u.map digitChar) minInt64 maxInt64
          = PIResult.ok (valDigits u : Int) := by
        rw [parseIntRange_digits_pos u _ _ hu hne, if_neg hbig, if_neg hsm]
      rw [hok]
      simp only []
      rw [if_neg hvne0]
      rw [if_neg (show ¬ ({ z with form := fFinite, compact := ((valDigits u : Int)) }
                          : Big).compact = Inflated from hInf)]
      refine ⟨_, rfl, rfl, ?_, rfl⟩
      unfold Big.mant Big.isCompact
      simp [hInf]
  · rw [dif_neg h19]
    rw [parseIntBig_digits_pos u hu hne]
    simp only []
    rw [if_neg hvne0]
    refine ⟨_, rfl, rfl, ?_, rfl⟩
    unfold Big.mant Big.isCompact
    simp

lemma setStringMant_digits_neg (z : Big) (u : List Nat) (scale : Int)
    (hu : ∀ d ∈ u, d ≤ 9) (hne : u ≠ []) (hnz : valDigits u ≠ 0) :
    ∃ r, Big.setStringMant z ('-' :: u.map digitChar) scale = (r, true) ∧
      r.form = fFinite ∧ r.mant = -(valDigits u : Int) ∧ r.scale = scale := by
  have hvne0 : ¬ (-(valDigits u : Int)) = 0 := by
    have : (valDigits u : Int) ≠ 0 := by exact_mod_cast hnz
    omega
  have hbigP : parseIntBig ('-' :: u.map digitChar) = some (-(valDigits u : Int)) :=
    parseIntBig_digits_neg u hu hne
  unfold Big.setStringMant
  simp only []
  by_cases h19 : ((('-' :: u.map digitChar).length : Nat) : Int) ≤ 19
  · rw [dif_pos h19]
    by_cases hbig : -(valDigits u : Int) > maxInt64
    · exfalso
      unfold maxInt64 at hbig
      have : (0:Int) ≤ (valDigits u : Int) := Int.ofNat_nonneg _
      omega
    · by_cases hsm : -(valDigits u : Int) < minInt64
      · exfalso
        have hu19 : 19 ≤ u.length := by
          apply len_ge_19_of_big u hu
          unfold minInt64 at hsm
          omega
        simp only [List.length_cons, List.length_map] at h19
        push_cast at h19
        omega
      · have hok : parseIntRange ('-' :: u.map digitChar) minInt64 maxInt64
            = PIResult.ok (-(valDigits u : Int)) := by
          rw [parseIntRange_digits_neg u _ _ hu hne, if_neg hbig, if_neg hsm]
        rw [hok]
        simp only []
        rw [if_neg hvne0]
        by_cases hinf : -(valDigits u : Int) = Inflated
        · rw [if_pos (show ({ z with form := fFinite, compact := (-(valDigits u : Int)) }
                            : Big).compact = Inflated from hinf)]
          refine ⟨_, rfl, rfl, ?_, rfl⟩
          unfold Big.mant Big.isCompact
          simp [hinf]
        · rw [if_neg (show ¬ ({ z with form := fFinite, compact := (-(valDigits u : Int)) }
                              : Big).compact = Inflated from hinf)]
          refine ⟨_, rfl, rfl, ?_, rfl⟩
          unfold Big.mant Big.isCompact
          simp [hinf]
  · rw [dif_neg h19]
    rw [hbigP]
    simp only []
    rw [if_neg hvne0]
    refine ⟨_, rfl, rfl, ?_, rfl⟩
    unfold Big.mant Big.isCompact
    simp

lemma wrap32_id (n : Int) (h1 : -(2 ^ 31) ≤ n) (h2 : n < 2 ^ 31) : wrap32 n = n := by
  unfold wrap32
  omega

lemma parseIntRange_plus_digits (u : List Nat) (lo hi : Int)
    (hu : ∀ d ∈ u, d ≤ 9) (hne : u ≠ []) :
    parseIntRange ('+' :: u.map digitChar) lo hi
      = parseIntRange (u.map digitChar) lo hi := by
  obtain ⟨d, u', rfl⟩ : ∃ d u', u = d :: u' := by
    cases u with
    | nil => exact absurd rfl hne
    | cons a b => exact ⟨a, b, rfl⟩
  have hd := digitChar_spec d (hu d (by simp))
  unfold parseIntRange
  rw [show stripSign ('+' :: (d :: u').map digitChar)
        = (false, (d :: u').map digitChar) from rfl]
  rw [List.map_cons, stripSign_no_sign _ _ hd.2.2.2.2.2.2.1 hd.2.2.2.2.2.2.2.1]

lemma dotFree_sgn_digits (neg : Bool) (a : List Nat) (ha : ∀ d ∈ a, d ≤ 9) :
    ∀ c ∈ (if neg then ['-'] else []) ++ a.map digitChar, ¬ c = '.' := by
  intro c hc
  rcases List.mem_append.1 hc with hc | hc
  · rcases neg with _ | _
    · simp at hc
    · simp at hc
      subst hc
      decide
  · exact dotFree_map a ha c hc

lemma eFree_sgn (neg : Bool) (a : List Nat) (ha : ∀ d ∈ a, d ≤ 9) :
    ∀ c ∈ (if neg then ['-'] else []) ++ a.map digitChar, ¬ (c = 'e' ∨ c = 'E') := by
  intro c hc
  rcases List.mem_append.1 hc with hc | hc
  · rcases neg with _ | _
    · simp at hc
    · simp at hc
      subst hc
      decide
  · exact eFree_map a ha c hc

lemma eFree_dotpart (f : List Nat) (hf : ∀ d ∈ f, d ≤ 9) :
    ∀ c ∈ '.' :: f.map digitChar, ¬ (c = 'e' ∨ c = 'E') := by
  intro c hc
  rcases List.mem_cons.1 hc with rfl | hc
  · decide
  · exact eFree_map f hf c hc

lemma eFree_expchars (av : Int) (hav : av ≠ 0) :
    ∀ c ∈ (if av > 0 then ['+'] else []) ++ intChars av, ¬ (c = 'e' ∨ c = 'E') := by
  intro c hc
  rcases List.mem_append.1 hc with hc | hc
  · rcases h : decide (av > 0) with _ | _
    · rw [decide_eq_false_iff_not] at h
      rw [if_neg h] at hc
      simp at hc
    · rw [decide_eq_true_eq] at h
      rw [if_pos h] at hc
      simp at hc
      subst hc
      decide
  · unfold intChars at hc
    rcases List.mem_append.1 hc with hc | hc
    · by_cases hn : av < 0
      · rw [if_pos hn] at hc
        simp at hc
        subst hc
        decide
      · rw [if_neg hn] at hc
        simp at hc
    · unfold natChars at hc
      rw [if_neg (by simpa using hav : ¬ av.natAbs = 0)] at hc
      exact eFree_map _ (digitsOf_le9 _) c hc

lemma count_dot_zero (l : List Char) (h : ∀ c ∈ l, ¬ c = '.') :
    l.count '.' = 0 := by
  rw [List.count_eq_zero]
  intro hc
  exact h '.' hc rfl

lemma setString_nodotArm (z : Big) (neg : Bool) (a : List Nat) (scale0 : Int)
    (ha9 : ∀ d ∈ a, d ≤ 9) (hane : a ≠ []) (hnz : valDigits a ≠ 0) :
    ∃ r, z.setStringMant ((if neg then ['-'] else []) ++ a.map digitChar) scale0
        = (r, true) ∧
      r.form = fFinite ∧
      r.mant = (if neg then -(valDigits a : Int) else (valDigits a : Int)) ∧
      r.scale = scale0 := by
  rcases neg with _ | _
  · simp only [if_neg (by decide : ¬ (false : Bool) = true), List.nil_append]
    obtain ⟨r, hr, h1, h2, h3⟩ := setStringMant_digits_pos z a scale0 ha9 hane hnz
    exact ⟨r, hr, h1, h2, h3⟩
  · simp only [if_pos (rfl : (true : Bool) = true), if_true, List.singleton_append]
    obtain ⟨r, hr, h1, h2, h3⟩ := setStringMant_digits_neg z a scale0 ha9 hane hnz
    exact ⟨r, hr, h1, h2, h3⟩

lemma setString_dotArm (z : Big) (neg : Bool) (a f : List Nat) (scale0 : Int)
    (ha9 : ∀ d ∈ a, d ≤ 9) (hane : a ≠ [])
    (hf9 : ∀ d ∈ f, d ≤ 9)
    (hflen : (f.length : Int) ≤ MaxScale)
    (hnz : valDigits (a ++ f) ≠ 0)
    (hsc1 : MinScale ≤ scale0 + (f.length : Int))
    (hsc2 : scale0 + (f.length : Int) ≤ MaxScale) :
    ∃ r,
      (let s := (if neg then ['-'] else []) ++ a.map digitChar ++ '.' :: f.map digitChar
       let j := (s.findIdx? (· = '.')).getD 0
       let s2 := s.take j ++ s.drop (j + 1)
       let p := checkedAdd32 scale0 (wrap32 ((s2.length : Int) - (j : Int)))
       if ¬ p.2 then (z.xflow true (decide (s.headD ' ' = '-')), false)
       else z.setStringMant s2 p.1) = (r, true) ∧
      r.form = fFinite ∧
      r.mant = (if neg then -(valDigits (a ++ f) : Int) else (valDigits (a ++ f) : Int)) ∧
      r.scale = scale0 + (f.length : Int) := by
  have haf9 : ∀ d ∈ a ++ f, d ≤ 9 := by
    intro d hd
    rcases List.mem_append.1 hd with hd | hd
    · exact ha9 d hd
    · exact hf9 d hd
  have hafne : a ++ f ≠ [] := by
    intro hc
    exact hane (List.append_eq_nil.1 hc).1
  have hwrap : wrap32 (f.length : Int) = (f.length : Int) := by
    apply wrap32_id
    · have : (0:Int) ≤ (f.length : Int) := Int.ofNat_nonneg _
      omega
    · unfold MaxScale at hflen
      omega
  have hdot0 : (f.map digitChar).count '.' = 0 :=
    count_dot_zero _ (dotFree_map f hf9)
  simp only []
  rcases neg with _ | _
  · simp only [if_neg (by decide : ¬ (false : Bool) = true), List.nil_append]
    have hj : ((a.map digitChar ++ '.' :: f.map digitChar).findIdx?
        (· = '.')).getD 0 = a.length := by
      rw [List.findIdx?_append]
      rw [(List.findIdx?_eq_none_iff).2 (by
        intro c hc
        simpa using dotFree_map a ha9 c hc)]
      simp [List.findIdx?_cons]
    rw [hj]
    have htake : (a.map digitChar ++ '.' :: f.map digitChar).take a.length
        = a.map digitChar := by
      rw [show a.length = (a.map digitChar).length by simp]
      exact List.take_left _ _
    have hdrop : (a.map digitChar ++ '.' :: f.map digitChar).drop (a.length + 1)
        = f.map digitChar := by
      rw [show a.map digitChar ++ '.' :: f.map digitChar
            = (a.map digitChar ++ ['.']) ++ f.map digitChar by simp]
      apply List.drop_left'
      simp
    rw [htake, hdrop, ← List.map_append]
    have hlen2 : ((((a ++ f).map digitChar).length : Nat) : Int) - (a.length : Int)
        = (f.length : Int) := by
      simp [List.length_map]
    rw [hlen2, hwrap]
    have hadd : checkedAdd32 scale0 (f.length : Int)
        = (scale0 + (f.length : Int), true) := by
      unfold checkedAdd32
      simp only []
      rw [decide_eq_true (show MinScale ≤ scale0 + (f.length : Int)
            ∧ scale0 + (f.length : Int) ≤ MaxScale from ⟨hsc1, hsc2⟩)]
    rw [hadd]
    simp only []
    rw [if_neg (by simp)]
    exact setStringMant_digits_pos z (a ++ f) _ haf9 hafne hnz
  · simp only [if_pos (rfl : (true : Bool) = true), if_true, List.singleton_append]
    have hj : ((('-' :: a.map digitChar) ++ '.' :: f.map digitChar).findIdx?
        (· = '.')).getD 0 = a.length + 1 := by
      rw [List.findIdx?_append]
      rw [(List.findIdx?_eq_none_iff).2 (by
        intro c hc
        rcases List.mem_cons.1 hc with rfl | hc
        · decide
        · simpa using dotFree_map a ha9 c hc)]
      simp [List.findIdx?_cons]
    rw [hj]
    have htake : (('-' :: a.map digitChar) ++ '.' :: f.map digitChar).take
        (a.length + 1) = '-' :: a.map digitChar := by
      rw [show a.length + 1 = ('-' :: a.map digitChar).length by simp]
      exact List.take_left _ _
    have hdrop : (('-' :: a.map digitChar) ++ '.' :: f.map digitChar).drop
        (a.length + 1 + 1) = f.map digitChar := by
      rw [show ('-' :: a.map digitChar) ++ '.' :: f.map digitChar
            = (('-' :: a.map digitChar) ++ ['.']) ++ f.map digitChar by simp]
      apply List.drop_left'
      simp
    rw [htake, hdrop]
    rw [show ('-' :: a.map digitChar) ++ f.map digitChar
          = '-' :: (a ++ f).map digitChar by simp]
    have hlen2 : ((('-' :: (a ++ f).map digitChar).length : Nat) : Int)
        - ((a.length + 1 : Nat) : Int) = (f.length : Int) := by
      simp [List.length_map]
    rw [hlen2, hwrap]
    have hadd : checkedAdd32 scale0 (f.length : Int)
        = (scale0 + (f.length : Int), true) := by
      unfold checkedAdd32
      simp only []
      rw [decide_eq_true (show MinScale ≤ scale0 + (f.length : Int)
            ∧ scale0 + (f.length : Int) ≤ MaxScale from ⟨hsc1, hsc2⟩)]
    rw [hadd]
    simp only []
    rw [if_neg (by simp)]
    exact setStringMant_digits_neg z (a ++ f) _ haf9 hafne hnz

lemma setString_encoded (z : Big) (neg : Bool) (a : List Nat)
    (dotf : Option (List Nat)) (expv : Option Int)
    (ha9 : ∀ d ∈ a, d ≤ 9) (hane : a ≠ [])
    (hf9 : ∀ f ∈ dotf, ∀ d ∈ f, d ≤ 9)
    (hflen : ∀ f ∈ dotf, (f.length : Int) ≤ MaxScale)
    (hexp : ∀ av ∈ expv, av ≠ 0 ∧ -MaxScale ≤ av ∧ av ≤ MaxScale)
    (hnz : valDigits (a ++ dotf.getD []) ≠ 0)
    (hsc1 : MinScale ≤ -(expv.getD 0) + ((dotf.getD []).length : Int))
    (hsc2 : -(expv.getD 0) + ((dotf.getD []).length : Int) ≤ MaxScale) :
    ∃ r, Big.setString z
        ((if neg then ['-'] else []) ++ a.map digitChar
          ++ (match dotf with
              | some f => '.' :: f.map digitChar
              | none => [])
          ++ (match expv with
              | some av => 'e' :: ((if av > 0 then ['+'] else []) ++ intChars av)
              | none => []))
      = (r, true) ∧
      r.form = fFinite ∧
      r.mant = (if neg then -(valDigits (a ++ dotf.getD []) : Int)
                else (valDigits (a ++ dotf.getD []) : Int)) ∧
      r.scale = -(expv.getD 0) + ((dotf.getD []).length : Int) := by
  obtain ⟨a0, a', rfl⟩ : ∃ a0 a', a = a0 :: a' := by
    cases a with
    | nil => exact absurd rfl hane
    | cons x y => exact ⟨x, y, rfl⟩
  have hd := digitChar_spec a0 (ha9 a0 (by simp))
  rcases expv with _ | av
  · rcases dotf with _ | f
    · -- plain digits, no exponent
      simp only [Option.getD_none, List.append_nil, List.length_nil, Nat.cast_zero,
        neg_zero, zero_add, add_zero] at hnz hsc1 hsc2 ⊢
      unfold Big.setString
      rw [if_neg (show ¬ ((if neg then ['-'] else []) ++ (a0 :: a').map digitChar) = [] by
        rcases neg <;> simp)]
      have hs : stripSign ((if neg then ['-'] else []) ++ (a0 :: a').map digitChar)
          = (neg, digitChar a0 :: a'.map digitChar) := by
        rw [List.map_cons]
        exact stripSign_sgn neg _ _ hd.2.2.2.2.2.2.1 hd.2.2.2.2.2.2.2.1
      rw [parseSpecial_stripped _ neg _ _ hs hd.2.2.2.2.2.2.2.2.1
        hd.2.2.2.2.2.2.2.2.2.1 hd.2.2.2.2.2.2.2.2.2.2.1 hd.2.2.2.2.2.2.2.2.2.2.2]
      simp only []
      rw [lastIndexEe_none _ (eFree_sgn neg (a0 :: a') ha9)]
      rw [if_neg (by decide : ¬ (-1 : Int) > 0)]
      simp only []
      rw [count_dot_zero _ (dotFree_sgn_digits neg (a0 :: a') ha9)]
      exact setString_nodotArm z neg (a0 :: a') 0 ha9 (by simp) hnz
    · -- digits with a radix point, no exponent
      have hf9' : ∀ d ∈ f, d ≤ 9 := hf9 f rfl
      simp only [Option.getD_none, Option.getD_some, List.append_nil, neg_zero,
        zero_add] at hnz hsc1 hsc2 ⊢
      unfold Big.setString
      rw [if_neg (show ¬ ((if neg then ['-'] else []) ++ (a0 :: a').map digitChar
          ++ '.' :: f.map digitChar) = [] by
        rcases neg <;> simp)]
      have hs : stripSign ((if neg then ['-'] else []) ++ (a0 :: a').map digitChar
          ++ '.' :: f.map digitChar)
          = (neg, digitChar a0 :: (a'.map digitChar ++ '.' :: f.map digitChar)) := by
        have h0 := stripSign_sgn neg (digitChar a0)
          (a'.map digitChar ++ '.' :: f.map digitChar)
          hd.2.2.2.2.2.2.1 hd.2.2.2.2.2.2.2.1
        rw [show (if neg then ['-'] else []) ++ (a0 :: a').map digitChar
              ++ '.' :: f.map digitChar
            = (if neg then ['-'] else [])
              ++ digitChar a0 :: (a'.map digitChar ++ '.' :: f.map digitChar) by
          rw [List.append_assoc, List.map_cons, List.cons_append]]
        exact h0
      rw [parseSpecial_stripped _ neg _ _ hs hd.2.2.2.2.2.2.2.2.1
        hd.2.2.2.2.2.2.2.2.2.1 hd.2.2.2.2.2.2.2.2.2.2.1 hd.2.2.2.2.2.2.2.2.2.2.2]
      simp only []
      have hef : ∀ c ∈ (if neg then ['-'] else []) ++ (a0 :: a').map digitChar
          ++ '.' :: f.map digitChar, ¬ (c = 'e' ∨ c = 'E') := by
        intro c hc
        rcases List.mem_append.1 hc with hc | hc
        · exact eFree_sgn neg (a0 :: a') ha9 c hc
        · exact eFree_dotpart f hf9' c hc
      rw [lastIndexEe_none _ hef]
      rw [if_neg (by decide : ¬ (-1 : Int) > 0)]
      simp only []
      have hcnt : ((if neg then ['-'] else []) ++ (a0 :: a').map digitChar
          ++ '.' :: f.map digitChar).count '.' = 1 := by
        rw [List.count_append]
        rw [count_dot_zero _ (dotFree_sgn_digits neg (a0 :: a') ha9),
          List.count_cons_self, count_dot_zero _ (dotFree_map f hf9')]
      rw [hcnt]
      obtain ⟨r, hr, h1, h2, h3⟩ := setString_dotArm z neg (a0 :: a') f 0 ha9
        (by simp) hf9' (hflen f rfl) hnz (by omega) (by omega)
      exact ⟨r, hr, h1, h2, by omega⟩
  · obtain ⟨hav0, havlo, havhi⟩ := hexp av rfl
    have hnaz : av.natAbs ≠ 0 := by
      intro hc
      exact hav0 (by omega)
    have hpe : parseIntRange ((if av > 0 then ['+'] else []) ++ intChars av)
        MinScale MaxScale = PIResult.ok av := by
      by_cases hneg : av < 0
      · have he : (if av > 0 then ['+'] else []) ++ intChars av
            = '-' :: (digitsOf av.natAbs).map digitChar := by
          unfold intChars natChars
          rw [if_neg (by omega : ¬ av > 0), if_pos hneg,
            if_neg (show ¬ av.natAbs = 0 from hnaz)]
          simp
        rw [he, parseIntRange_digits_neg _ _ _ (digitsOf_le9 _) (digitsOf_ne_nil _ hnaz)]
        rw [valDigits_digitsOf]
        have hval : -((av.natAbs : Nat) : Int) = av := by omega
        rw [hval]
        rw [if_neg (by unfold MaxScale at havhi; unfold MaxScale; omega),
          if_neg (by unfold MaxScale at havlo; unfold MinScale; omega)]
      · have hpos : av > 0 := by omega
        have he : (if av > 0 then ['+'] else []) ++ intChars av
            = '+' :: (digitsOf av.natAbs).map digitChar := by
          unfold intChars natChars
          rw [if_pos hpos, if_neg hneg,
            if_neg (show ¬ av.natAbs = 0 from hnaz)]
          simp
        rw [he, parseIntRange_plus_digits _ _ _ (digitsOf_le9 _) (digitsOf_ne_nil _ hnaz),
          parseIntRange_digits_pos _ _ _ (digitsOf_le9 _) (digitsOf_ne_nil _ hnaz)]
        rw [valDigits_digitsOf]
        have hval : ((av.natAbs : Nat) : Int) = av := by omega
        rw [hval]
        rw [if_neg (by unfold MaxScale at havhi; unfold MaxScale; omega),
          if_neg (by unfold MinScale; omega)]
    have hw : wrap32 (-av) = -av := by
      apply wrap32_id
      · unfold MaxScale at havhi
        omega
      · unfold MaxScale at havlo
        omega
    rcases dotf with _ | f
    · -- exponent, no radix point
      simp only [Option.getD_none, Option.getD_some, List.append_nil, List.length_nil,
        Nat.cast_zero, add_zero] at hnz hsc1 hsc2 ⊢
      unfold Big.setString
      rw [if_neg (by intro hc; simp at hc)]
      have hs : stripSign (((if neg then ['-'] else []) ++ (a0 :: a').map digitChar)
            ++ 'e' :: ((if av > 0 then ['+'] else []) ++ intChars av))
          = (neg, digitChar a0 :: (a'.map digitChar
            ++ 'e' :: ((if av > 0 then ['+'] else []) ++ intChars av))) := by
        have h0 := stripSign_sgn neg (digitChar a0)
          (a'.map digitChar ++ 'e' :: ((if av > 0 then ['+'] else []) ++ intChars av))
          hd.2.2.2.2.2.2.1 hd.2.2.2.2.2.2.2.1
        rw [show ((if neg then ['-'] else []) ++ (a0 :: a').map digitChar)
              ++ 'e' :: ((if av > 0 then ['+'] else []) ++ intChars av)
            = (if neg then ['-'] else []) ++ digitChar a0 :: (a'.map digitChar
              ++ 'e' :: ((if av > 0 then ['+'] else []) ++ intChars av)) by
          simp]
        exact h0
      rw [parseSpecial_stripped _ neg _ _ hs hd.2.2.2.2.2.2.2.2.1
        hd.2.2.2.2.2.2.2.2.2.1 hd.2.2.2.2.2.2.2.2.2.2.1 hd.2.2.2.2.2.2.2.2.2.2.2]
      try simp only []
      rw [lastIndexEe_append_e _ _ (eFree_sgn neg (a0 :: a') ha9)
        (eFree_expchars av hav0)]
      rw [if_pos (show ((((if neg then ['-'] else [])
          ++ (a0 :: a').map digitChar).length : Nat) : Int) > 0 by
        rcases neg <;> simp <;> try omega)]
      simp only [Int.toNat_natCast]
      have hdropE : (((if neg then ['-'] else []) ++ (a0 :: a').map digitChar)
          ++ 'e' :: ((if av > 0 then ['+'] else []) ++ intChars av)).drop
          (((if neg then ['-'] else []) ++ (a0 :: a').map digitChar).length + 1)
          = (if av > 0 then ['+'] else []) ++ intChars av := by
        rw [show ((if neg then ['-'] else []) ++ (a0 :: a').map digitChar)
              ++ 'e' :: ((if av > 0 then ['+'] else []) ++ intChars av)
            = (((if neg then ['-'] else []) ++ (a0 :: a').map digitChar) ++ ['e'])
              ++ ((if av > 0 then ['+'] else []) ++ intChars av) by simp]
        apply List.drop_left'
        simp
        try omega
      rw [hdropE, hpe]
      try simp only []
      rw [List.take_left, hw]
      try simp only []
      rw [count_dot_zero _ (dotFree_sgn_digits neg (a0 :: a') ha9)]
      obtain ⟨r, hr, h1, h2, h3⟩ := setString_nodotArm z neg (a0 :: a') (-av) ha9
        (by simp) hnz
      exact ⟨r, hr, h1, h2, by omega⟩
    · -- exponent and radix point
      have hf9' : ∀ d ∈ f, d ≤ 9 := hf9 f rfl
      simp only [Option.getD_none, Option.getD_some] at hnz hsc1 hsc2 ⊢
      unfold Big.setString
      rw [if_neg (by intro hc; simp at hc)]
      have hs : stripSign ((((if neg then ['-'] else []) ++ (a0 :: a').map digitChar)
            ++ '.' :: f.map digitChar)
            ++ 'e' :: ((if av > 0 then ['+'] else []) ++ intChars av))
          = (neg, digitChar a0 :: (a'.map digitChar ++ '.' :: f.map digitChar
            ++ 'e' :: ((if av > 0 then ['+'] else []) ++ intChars av))) := by
        have h0 := stripSign_sgn neg (digitChar a0)
          (a'.map digitChar ++ '.' :: f.map digitChar
            ++ 'e' :: ((if av > 0 then ['+'] else []) ++ intChars av))
          hd.2.2.2.2.2.2.1 hd.2.2.2.2.2.2.2.1
        rw [show (((if neg then ['-'] else []) ++ (a0 :: a').map digitChar)
              ++ '.' :: f.map digitChar)
              ++ 'e' :: ((if av > 0 then ['+'] else []) ++ intChars av)
            = (if neg then ['-'] else []) ++ digitChar a0 :: (a'.map digitChar
              ++ '.' :: f.map digitChar
              ++ 'e' :: ((if av > 0 then ['+'] else []) ++ intChars av)) by
          simp]
        exact h0
      rw [parseSpecial_stripped _ neg _ _ hs hd.2.2.2.2.2.2.2.2.1
        hd.2.2.2.2.2.2.2.2.2.1 hd.2.2.2.2.2.2.2.2.2.2.1 hd.2.2.2.2.2.2.2.2.2.2.2]
      try simp only []
      have hefA : ∀ c ∈ ((if neg then ['-'] else []) ++ (a0 :: a').map digitChar)
          ++ '.' :: f.map digitChar, ¬ (c = 'e' ∨ c = 'E') := by
        intro c hc
        rcases List.mem_append.1 hc with hc | hc
        · exact eFree_sgn neg (a0 :: a') ha9 c hc
        · exact eFree_dotpart f hf9' c hc
      rw [lastIndexEe_append_e _ _ hefA (eFree_expchars av hav0)]
      rw [if_pos (show (((((if neg then ['-'] else [])
          ++ (a0 :: a').map digitChar) ++ '.' :: f.map digitChar).length : Nat) : Int)
          > 0 by
        rcases neg <;> simp <;> try omega)]
      simp only [Int.toNat_natCast]
      have hdropE : ((((if neg then ['-'] else []) ++ (a0 :: a').map digitChar)
          ++ '.' :: f.map digitChar)
          ++ 'e' :: ((if av > 0 then ['+'] else []) ++ intChars av)).drop
          ((((if neg then ['-'] else []) ++ (a0 :: a').map digitChar)
            ++ '.' :: f.map digitChar).length + 1)
          = (if av > 0 then ['+'] else []) ++ intChars av := by
        rw [show (((if neg then ['-'] else []) ++ (a0 :: a').map digitChar)
              ++ '.' :: f.map digitChar)
              ++ 'e' :: ((if av > 0 then ['+'] else []) ++ intChars av)
            = ((((if neg then ['-'] else []) ++ (a0 :: a').map digitChar)
              ++ '.' :: f.map digitChar) ++ ['e'])
              ++ ((if av > 0 then ['+'] else []) ++ intChars av) by simp]
        apply List.drop_left'
        simp
        try omega
      rw [hdropE, hpe]
      try simp only []
      rw [List.take_left, hw]
      try simp only []
      have hcnt : (((if neg then ['-'] else []) ++ (a0 :: a').map digitChar
          ++ '.' :: f.map digitChar)).count '.' = 1 := by
        rw [List.count_append]
        rw [count_dot_zero _ (dotFree_sgn_digits neg (a0 :: a') ha9),
          List.count_cons_self, count_dot_zero _ (dotFree_map f hf9')]
      rw [hcnt]
      obtain ⟨r, hr, h1, h2, h3⟩ := setString_dotArm z neg (a0 :: a') f (-av) ha9
        (by simp) hf9' (hflen f rfl) hnz (by omega) (by omega)
      exact ⟨r, hr, h1, h2, by omega⟩

lemma natChars_ne_zero (n : Nat) (h : n ≠ 0) :
    natChars n = (digitsOf n).map digitChar := by
  unfold natChars
  rw [if_neg h]

lemma signbit_finite (x : Big) (hx : x.form = fFinite) :
    x.signbit = decide (x.mant < 0) := by
  unfold Big.signbit Big.mant
  rw [if_neg (by simp [hx])]
  by_cases hc : x.isCompact <;> simp [hc]

lemma stringOf_finite (x : Big) (hx : x.form = fFinite) (hm : x.mant ≠ 0) :
    Big.stringOf x
      = (if 0 ≤ x.scale ∧ -6 ≤ -x.scale + (((digitsOf x.mant.natAbs).length : Int) - 1)
         then (if decide (x.mant < 0) = true then ['-'] else [])
              ++ formatPlain ((digitsOf x.mant.natAbs).map digitChar) x.scale (-1)
         else (if decide (x.mant < 0) = true then ['-'] else [])
              ++ formatSci ((digitsOf x.mant.natAbs).map digitChar)
                   (-x.scale + (((digitsOf x.mant.natAbs).length : Int) - 1)) 'e') := by
  have hna : x.mant.natAbs ≠ 0 := by
    intro hc
    exact hm (by omega)
  have hb0 : (if x.isInflated = true then formatUnscaledChars x.unscaled
      else formatCompactChars x.compact) = (digitsOf x.mant.natAbs).map digitChar := by
    by_cases hcp : x.isCompact = true
    · have hmant : x.mant = x.compact := by
        unfold Big.mant
        rw [if_pos hcp]
      have hinf : x.isInflated = false := by
        unfold Big.isInflated
        rw [hcp]
        rfl
      rw [hinf]
      simp only [if_neg (by decide : ¬ (false : Bool) = true)]
      unfold formatCompactChars
      rw [← hmant]
      exact natChars_ne_zero _ hna
    · have hcf : x.isCompact = false := by
        cases hIC : x.isCompact
        · rfl
        · exact absurd hIC hcp
      have hmant : x.mant = x.unscaled := by
        unfold Big.mant
        rw [if_neg hcp]
      have hinf : x.isInflated = true := by
        unfold Big.isInflated
        rw [hcf]
        rfl
      rw [hinf]
      simp only [if_pos rfl]
      unfold formatUnscaledChars
      rw [← hmant]
      exact natChars_ne_zero _ hna
  unfold Big.stringOf format
  rw [if_neg (by simp [hx])]
  rw [signbit_finite x hx, hb0]
  simp only []
  rw [if_neg (show ¬ (noPrec > 0) by decide)]
  simp only [List.length_map]
  by_cases hc : 0 ≤ x.scale ∧ -6 ≤ -x.scale + (((digitsOf x.mant.natAbs).length : Int) - 1)
  · rw [if_pos (show fmtNormal ≠ fmtSci ∧ x.scale ≥ 0
        ∧ (fmtNormal = fmtPlain ∨ -x.scale + (((digitsOf x.mant.natAbs).length : Int) - 1) ≥ -6)
      from ⟨by decide, hc.1, Or.inr hc.2⟩)]
    rw [if_pos hc]
    rfl
  · rw [if_neg (show ¬ (fmtNormal ≠ fmtSci ∧ x.scale ≥ 0
        ∧ (fmtNormal = fmtPlain ∨ -x.scale + (((digitsOf x.mant.natAbs).length : Int) - 1) ≥ -6)) by
      intro hcon
      rcases hcon.2.2 with h | h
      · exact absurd h (by decide)
      · exact hc ⟨hcon.2.1, h⟩)]
    rw [if_neg (show ¬ (fmtNormal ≠ fmtSci ∧ fmtNormal = fmtPlain ∧ x.scale < 0) by
      intro hcon
      exact absurd hcon.2.1 (by decide))]
    rw [if_neg hc]

lemma formatPlain_radix0 (u v : List Nat) (t : Nat) (scale : Int)
    (hu : ∀ d ∈ u, d ≤ 9)
    (hsplit : u = v ++ List.replicate t 0) (hvne : v ≠ [])
    (hvlast : v.getLastD 1 ≠ 0)
    (hrad : ((u.length : Int)) - scale = 0) :
    formatPlain (u.map digitChar) scale (-1) = '0' :: '.' :: v.map digitChar := by
  have hv9 : ∀ d ∈ v, d ≤ 9 := by
    intro d hd
    exact hu d (by rw [hsplit]; exact List.mem_append_left _ hd)
  unfold formatPlain
  simp only [List.length_map]
  rw [if_pos hrad]
  rw [hsplit, trimIndex_map_split v t hv9 (Or.inr hvlast), if_neg hvne]
  rw [if_pos (show ((v.length : Nat) : Int) > 0 by
    cases v with
    | nil => exact absurd rfl hvne
    | cons c l => simp)]
  simp only [Int.toNat_natCast, List.map_append]
  rw [show v.length = (v.map digitChar).length by simp, List.take_left]

lemma formatPlain_radixpos (u p q : List Nat) (scale : Int)
    (hu : ∀ d ∈ u, d ≤ 9)
    (hp : p = u.take ((u.length : Int) - scale).toNat)
    (hq : q = u.drop ((u.length : Int) - scale).toNat)
    (hrad : 0 < (u.length : Int) - scale) :
    ∀ w t0, q = w ++ List.replicate t0 0 → (w = [] ∨ w.getLastD 1 ≠ 0) →
    formatPlain (u.map digitChar) scale (-1)
      = p.map digitChar ++ (if w = [] then [] else '.' :: w.map digitChar) := by
  intro w t0 hsplit hwlast
  have hq9 : ∀ d ∈ q, d ≤ 9 := by
    intro d hd
    exact hu d (by rw [hq] at hd; exact List.mem_of_mem_drop hd)
  have hw9 : ∀ d ∈ w, d ≤ 9 := by
    intro d hd
    exact hq9 d (by rw [hsplit]; exact List.mem_append_left _ hd)
  unfold formatPlain
  simp only [List.length_map]
  rw [if_neg (by omega), if_pos hrad]
  have hdropm : (u.map digitChar).drop ((u.length : Int) - scale).toNat
      = q.map digitChar := by
    rw [hq, List.map_drop]
  have htakem : (u.map digitChar).take ((u.length : Int) - scale).toNat
      = p.map digitChar := by
    rw [hp, List.map_take]
  rw [hdropm, htakem]
  rw [hsplit, trimIndex_map_split w t0 hw9 hwlast]
  by_cases hwe : w = []
  · rw [if_pos hwe]
    rw [if_neg (by decide : ¬ (-1 : Int) > 0), if_pos hwe]
  · rw [if_neg hwe]
    have hwpos : 0 < w.length := List.length_pos.2 hwe
    rw [if_pos (show ((w.length : Nat) : Int) > 0 by omega), if_neg hwe]
    simp only [Int.toNat_natCast, List.map_append]
    rw [show w.length = (w.map digitChar).length by simp, List.take_left]

lemma formatPlain_radixneg (u : List Nat) (scale : Int)
    (hrad : (u.length : Int) - scale < 0) :
    formatPlain (u.map digitChar) scale (-1)
      = '0' :: '.' :: (List.replicate (scale - (u.length : Int)).toNat '0'
          ++ u.map digitChar) := by
  unfold formatPlain
  simp only [List.length_map]
  rw [if_neg (by omega), if_neg (by omega)]
  rw [if_neg (show ¬ ((-1 : Int) > noPrec ∧ (-1 : Int) < (u.length : Int)) by
    intro hcon
    exact absurd hcon.1 (by decide))]
  have htl : (u.map digitChar).take u.length = u.map digitChar := by
    simp
  rw [htl]
  have hneg2 : (-((u.length : Int) - scale)).toNat = (scale - (u.length : Int)).toNat := by
    omega
  rw [hneg2]

lemma formatSci_digits (u0 : Nat) (urest w : List Nat) (t0 : Nat) (adj : Int)
    (hu9 : ∀ d ∈ u0 :: urest, d ≤ 9)
    (hsplit : urest = w ++ List.replicate t0 0)
    (hwlast : w = [] ∨ w.getLastD 1 ≠ 0)
    (hadj : adj ≠ 0) :
    formatSci ((u0 :: urest).map digitChar) adj 'e'
      = [digitChar u0]
          ++ (if urest = [] then [] else
              '.' :: ((if w = [] then urest else w).map digitChar))
          ++ ('e' :: ((if adj > 0 then ['+'] else []) ++ intChars adj)) := by
  have hr9 : ∀ d ∈ urest, d ≤ 9 := by
    intro d hd
    exact hu9 d (by simp [hd])
  have hw9 : ∀ d ∈ w, d ≤ 9 := by
    intro d hd
    exact hr9 d (by rw [hsplit]; exact List.mem_append_left _ hd)
  unfold formatSci
  simp only [List.map_cons]
  rw [show (digitChar u0 :: urest.map digitChar).take 1 = [digitChar u0] from rfl]
  rw [show (digitChar u0 :: urest.map digitChar).drop 1 = urest.map digitChar from rfl]
  rw [if_pos hadj]
  by_cases hre : urest = []
  · subst hre
    rw [if_neg (by simp), if_pos rfl]
  · rw [if_pos (by
      simp only [List.length_cons, List.length_map]
      cases urest with
      | nil => exact absurd rfl hre
      | cons c l => simp), if_neg hre]
    rw [hsplit, trimIndex_map_split w t0 hw9 hwlast]
    by_cases hwe : w = []
    · rw [if_pos hwe]
      simp only [show ((0:Int) ≤ -1) = False by norm_num, false_and, if_false,
        if_pos hwe]
    · rw [if_neg hwe]
      have hwpos : 0 < w.length := List.length_pos.2 hwe
      by_cases ht0 : t0 = 0
      · subst ht0
        rw [if_neg (by
          simp only [List.length_map, List.length_append, List.length_replicate]
          omega)]
        rw [if_neg hwe]
        simp
      · rw [if_pos (by
          constructor
          · omega
          · simp only [List.length_map, List.length_append, List.length_replicate]
            push_cast
            omega)]
        rw [if_neg hwe]
        simp only [Int.toNat_natCast, List.map_append]
        rw [show w.length = (w.map digitChar).length by simp, List.take_left]

lemma qval_digits_eq (V t : Nat) (m s sF : Int)
    (hm : m.natAbs = V * 10 ^ t) (hs : s = sF + t) :
    qval (if decide (m < 0) = true then -(V : Int) else (V : Int)) sF = qval m s := by
  have h10 : (10:ℚ) ≠ 0 := by norm_num
  have hp10 : (10:ℚ) ^ t ≠ 0 := pow_ne_zero _ h10
  have key : ((V * 10 ^ t : Nat) : ℚ) * (10:ℚ) ^ (-(sF + (t:ℤ)))
      = (V : ℚ) * (10:ℚ) ^ (-sF) := by
    push_cast
    rw [neg_add, zpow_add₀ h10, zpow_neg (10:ℚ) (t:ℤ), zpow_natCast]
    field_simp
    ring
  have hWa := hm
  set W := V * 10 ^ t with hWdef
  by_cases hneg : m < 0
  · have hmval : m = -((W : Nat) : Int) := by omega
    rw [if_pos (by simpa using hneg), hmval, hs]
    unfold qval
    push_cast [hWdef] at key ⊢
    rw [neg_mul, neg_mul, neg_inj]
    exact key.symm
  · have hmval : m = ((W : Nat) : Int) := by omega
    rw [if_neg (by simpa using hneg), hmval, hs]
    unfold qval
    push_cast [hWdef] at key ⊢
    exact key.symm

lemma numVal_of_finite (r : Big) (h : r.form = fFinite) :
    r.numVal = NumVal.fin (qval r.mant r.scale) := by
  unfold Big.numVal Big.val
  rw [h, if_pos rfl]

lemma roundtrip_finish (x r : Big) (hx : x.form = fFinite) (h1 : r.form = fFinite)
    (V t : Nat)
    (h2 : r.mant = (if decide (x.mant < 0) = true then -(V : Int) else (V : Int)))
    (h3 : r.scale = x.scale - t)
    (hmv : x.mant.natAbs = V * 10 ^ t) :
    r.numVal = x.numVal := by
  rw [numVal_of_finite r h1, numVal_of_finite x hx, h2, h3]
  exact congrArg NumVal.fin
    (qval_digits_eq V t x.mant x.scale (x.scale - (t : Int)) hmv (by ring))

/-- C1 (amended): the default-format round-trip is numerically exact for
finite nonzero values whose scale, digit count and adjusted exponent all
fit the 32-bit representable range. -/
theorem C1_roundtrip_amended (z x : Big)
    (hx : x.form = fFinite) (hm : x.mant ≠ 0)
    (hsc1 : MinScale ≤ x.scale) (hsc2 : x.scale ≤ MaxScale)
    (hLB : ((digitsOf x.mant.natAbs).length : Int) ≤ MaxScale)
    (hadj1 : -MaxScale ≤ -x.scale + (((digitsOf x.mant.natAbs).length : Int) - 1))
    (hadj2 : -x.scale + (((digitsOf x.mant.natAbs).length : Int) - 1) ≤ MaxScale) :
    ∃ r, Big.setString z (Big.stringOf x) = (r, true) ∧ r.numVal = x.numVal := by
  have hnz : x.mant.natAbs ≠ 0 := by
    intro hc
    exact hm (by omega)
  have hu9 : ∀ d ∈ digitsOf x.mant.natAbs, d ≤ 9 := digitsOf_le9 _
  have hune : digitsOf x.mant.natAbs ≠ [] := digitsOf_ne_nil _ hnz
  have huval : valDigits (digitsOf x.mant.natAbs) = x.mant.natAbs :=
    valDigits_digitsOf _
  have hL1 : 1 ≤ (digitsOf x.mant.natAbs).length := by
    cases hce : digitsOf x.mant.natAbs with
    | nil => exact absurd hce hune
    | cons c l => simp
  rw [stringOf_finite x hx hm]
  by_cases hplain : 0 ≤ x.scale
      ∧ -6 ≤ -x.scale + (((digitsOf x.mant.natAbs).length : Int) - 1)
  · rw [if_pos hplain]
    rcases lt_trichotomy (((digitsOf x.mant.natAbs).length : Int) - x.scale) 0
      with hrad | hrad | hrad
    · -- more scale than digits: 0.00…0ddd form
      rw [formatPlain_radixneg _ x.scale hrad]
      have hk : ((x.scale - ((digitsOf x.mant.natAbs).length : Int)).toNat : Int)
          = x.scale - ((digitsOf x.mant.natAbs).length : Int) := by
        omega
      obtain ⟨r, hr, h1, h2, h3⟩ := setString_encoded z (decide (x.mant < 0))
        [0] (some (List.replicate (x.scale - ((digitsOf x.mant.natAbs).length : Int)).toNat 0
          ++ digitsOf x.mant.natAbs)) none
        (by intro d hd; simp at hd; omega) (by simp)
        (by intro f hf d hd
            simp only [Option.mem_def, Option.some.injEq] at hf
            subst hf
            rcases List.mem_append.1 hd with hd | hd
            · simp at hd
              omega
            · exact hu9 d hd)
        (by intro f hf
            simp only [Option.mem_def, Option.some.injEq] at hf
            subst hf
            simp only [List.length_append, List.length_replicate]
            push_cast
            unfold MaxScale
            unfold MaxScale at hsc2
            omega)
        (by intro av hav; simp at hav)
        (by
          simp only [Option.getD_some]
          rw [valDigits_append, valDigits_append, valDigits_replicate_zero,
            show valDigits [0] = 0 from rfl, huval]
          intro hc
          exact hnz (by omega))
        (by
          simp only [Option.getD_none, Option.getD_some, neg_zero, zero_add,
            List.length_append, List.length_replicate]
          push_cast
          unfold MinScale
          unfold MinScale at hsc1
          omega)
        (by
          simp only [Option.getD_none, Option.getD_some, neg_zero, zero_add,
            List.length_append, List.length_replicate]
          push_cast
          unfold MaxScale
          unfold MaxScale at hsc2
          omega)
      refine ⟨r, ?_, ?_⟩
      · rw [show (if decide (x.mant < 0) = true then ['-'] else [])
              ++ '0' :: '.' :: (List.replicate
                  (x.scale - ((digitsOf x.mant.natAbs).length : Int)).toNat '0'
                ++ (digitsOf x.mant.natAbs).map digitChar)
            = (if decide (x.mant < 0) = true then ['-'] else [])
              ++ ([0] : List Nat).map digitChar
              ++ '.' :: (List.replicate
                  (x.scale - ((digitsOf x.mant.natAbs).length : Int)).toNat 0
                ++ digitsOf x.mant.natAbs).map digitChar
              ++ ([] : List Char) by
            simp [show digitChar 0 = '0' from rfl]]
        exact hr
      · apply roundtrip_finish x r hx h1
          (valDigits ([0] ++ (List.replicate
            (x.scale - ((digitsOf x.mant.natAbs).length : Int)).toNat 0
            ++ digitsOf x.mant.natAbs))) 0
        · rw [h2]
          simp only [Option.getD_some]
        · rw [h3]
          simp only [Option.getD_none, Option.getD_some, neg_zero, zero_add,
            List.length_append, List.length_replicate]
          push_cast
          omega
        · rw [valDigits_append, valDigits_append, valDigits_replicate_zero,
            show valDigits [0] = 0 from rfl, huval]
          ring
    · -- scale equals the digit count: 0.ddd form
      obtain ⟨v, t, hsp, hvl⟩ := split_trailing_zeros (digitsOf x.mant.natAbs)
      have hvne : v ≠ [] := by
        intro hc
        subst hc
        rw [hsp, List.nil_append, valDigits_replicate_zero] at huval
        exact hnz huval.symm
      have hvlast : v.getLastD 1 ≠ 0 := by
        rcases hvl with h | h
        · exact absurd h hvne
        · exact h
      rw [formatPlain_radix0 _ v t x.scale hu9 hsp hvne hvlast hrad]
      have hlensp : (digitsOf x.mant.natAbs).length = v.length + t := by
        rw [hsp]
        simp
      obtain ⟨r, hr, h1, h2, h3⟩ := setString_encoded z (decide (x.mant < 0))
        [0] (some v) none (by intro d hd; simp at hd; omega) (by simp)
        (by intro f hf d hd
            simp only [Option.mem_def, Option.some.injEq] at hf
            subst hf
            exact hu9 d (by rw [hsp]; exact List.mem_append_left _ hd))
        (by intro f hf
            simp only [Option.mem_def, Option.some.injEq] at hf
            subst hf
            unfold MaxScale
            unfold MaxScale at hLB
            omega)
        (by intro av hav; simp at hav)
        (by
          simp only [Option.getD_some]
          rw [show valDigits ([0] ++ v) = valDigits v by
            rw [valDigits_append, show valDigits [0] = 0 from rfl]
            omega]
          intro hc
          rw [hsp, valDigits_split_zeros, hc] at huval
          exact hnz (by omega))
        (by
          simp only [Option.getD_none, Option.getD_some, neg_zero, zero_add]
          unfold MinScale
          omega)
        (by
          simp only [Option.getD_none, Option.getD_some, neg_zero, zero_add]
          unfold MaxScale
          unfold MaxScale at hLB
          omega)
      refine ⟨r, ?_, ?_⟩
      · rw [show (if decide (x.mant < 0) = true then ['-'] else [])
              ++ '0' :: '.' :: v.map digitChar
            = (if decide (x.mant < 0) = true then ['-'] else [])
              ++ ([0] : List Nat).map digitChar ++ '.' :: v.map digitChar
              ++ ([] : List Char) by simp [show digitChar 0 = '0' from rfl]]
        exact hr
      · apply roundtrip_finish x r hx h1 (valDigits v) t
        · rw [h2]
          simp only [Option.getD_some]
          rw [show valDigits ([0] ++ v) = valDigits v by
            rw [valDigits_append, show valDigits [0] = 0 from rfl]
            omega]
        · rw [h3]
          simp only [Option.getD_none, Option.getD_some, neg_zero, zero_add]
          omega
        · rw [← huval, hsp, valDigits_split_zeros]
    · -- more digits than scale: ddd or ddd.fff integer/fraction form
      obtain ⟨w, t0, hsp, hwl⟩ := split_trailing_zeros
        ((digitsOf x.mant.natAbs).drop
          ((((digitsOf x.mant.natAbs).length : Int) - x.scale)).toNat)
      rw [formatPlain_radixpos (digitsOf x.mant.natAbs) _ _ x.scale hu9 rfl rfl hrad
        w t0 hsp hwl]
      have hK2 : (((((digitsOf x.mant.natAbs).length : Int) - x.scale)).toNat : Int)
          = ((digitsOf x.mant.natAbs).length : Int) - x.scale :=
        Int.toNat_of_nonneg (le_of_lt hrad)
      have hKle : ((((digitsOf x.mant.natAbs).length : Int) - x.scale)).toNat
          ≤ (digitsOf x.mant.natAbs).length := by omega
      have hplen : ((digitsOf x.mant.natAbs).take
          ((((digitsOf x.mant.natAbs).length : Int) - x.scale)).toNat).length
          = ((((digitsOf x.mant.natAbs).length : Int) - x.scale)).toNat := by
        rw [List.length_take]
        omega
      have hqlen : ((digitsOf x.mant.natAbs).drop
          ((((digitsOf x.mant.natAbs).length : Int) - x.scale)).toNat).length
          = (digitsOf x.mant.natAbs).length
            - ((((digitsOf x.mant.natAbs).length : Int) - x.scale)).toNat := by
        rw [List.length_drop]
      have hdecomp := valDigits_append
        ((digitsOf x.mant.natAbs).take
          ((((digitsOf x.mant.natAbs).length : Int) - x.scale)).toNat)
        ((digitsOf x.mant.natAbs).drop
          ((((digitsOf x.mant.natAbs).length : Int) - x.scale)).toNat)
      rw [List.take_append_drop] at hdecomp
      have hp9 : ∀ d ∈ (digitsOf x.mant.natAbs).take
          ((((digitsOf x.mant.natAbs).length : Int) - x.scale)).toNat, d ≤ 9 := by
        intro d hd
        exact hu9 d (List.mem_of_mem_take hd)
      have hpne : (digitsOf x.mant.natAbs).take
          ((((digitsOf x.mant.natAbs).length : Int) - x.scale)).toNat ≠ [] := by
        intro hc
        have := congrArg List.length hc
        rw [hplen] at this
        simp at this
        omega
      have hqsplitlen : ((digitsOf x.mant.natAbs).drop
          ((((digitsOf x.mant.natAbs).length : Int) - x.scale)).toNat).length
          = w.length + t0 := by
        rw [hsp]
        simp
      by_cases hwe : w = []
      · -- the whole fraction is zeros: pure integer output
        rw [if_pos hwe, List.append_nil]
        have hqzero : valDigits ((digitsOf x.mant.natAbs).drop
            ((((digitsOf x.mant.natAbs).length : Int) - x.scale)).toNat) = 0 := by
          rw [hsp, hwe, List.nil_append, valDigits_replicate_zero]
        have hpval : x.mant.natAbs
            = valDigits ((digitsOf x.mant.natAbs).take
                ((((digitsOf x.mant.natAbs).length : Int) - x.scale)).toNat)
              * 10 ^ ((digitsOf x.mant.natAbs).drop
                ((((digitsOf x.mant.natAbs).length : Int) - x.scale)).toNat).length := by
          have h' := hdecomp
          rw [hqzero] at h'
          calc x.mant.natAbs = valDigits (digitsOf x.mant.natAbs) := huval.symm
          _ = _ + 0 := h'
          _ = _ := by ring
        obtain ⟨r, hr, h1, h2, h3⟩ := setString_encoded z (decide (x.mant < 0))
          ((digitsOf x.mant.natAbs).take
            ((((digitsOf x.mant.natAbs).length : Int) - x.scale)).toNat) none none
          hp9 hpne
          (by intro f hf; simp at hf) (by intro f hf; simp at hf)
          (by intro av hav; simp at hav)
          (by
            simp only [Option.getD_none, List.append_nil]
            intro hc
            rw [hc] at hpval
            simp at hpval
            exact hm hpval)
          (by
            simp only [Option.getD_none, List.length_nil, Nat.cast_zero, neg_zero,
              add_zero]
            unfold MinScale
            omega)
          (by
            simp only [Option.getD_none, List.length_nil, Nat.cast_zero, neg_zero,
              add_zero]
            unfold MaxScale
            omega)
        refine ⟨r, ?_, ?_⟩
        · rw [show (if decide (x.mant < 0) = true then ['-'] else [])
                ++ ((digitsOf x.mant.natAbs).take
                  ((((digitsOf x.mant.natAbs).length : Int) - x.scale)).toNat).map
                    digitChar
              = (if decide (x.mant < 0) = true then ['-'] else [])
                ++ ((digitsOf x.mant.natAbs).take
                  ((((digitsOf x.mant.natAbs).length : Int) - x.scale)).toNat).map
                    digitChar
                ++ ([] : List Char) ++ ([] : List Char) by simp]
          exact hr
        · apply roundtrip_finish x r hx h1
            (valDigits ((digitsOf x.mant.natAbs).take
              ((((digitsOf x.mant.natAbs).length : Int) - x.scale)).toNat))
            (((digitsOf x.mant.natAbs).drop
              ((((digitsOf x.mant.natAbs).length : Int) - x.scale)).toNat).length)
          · rw [h2]
            simp
          · rw [h3]
            simp only [Option.getD_none, List.length_nil, Nat.cast_zero, neg_zero,
              add_zero]
            rw [hqlen]
            push_cast
            omega
          · exact hpval
      · -- integer digits, then a trimmed fraction
        rw [if_neg hwe]
        have hw9 : ∀ d ∈ w, d ≤ 9 := by
          intro d hd
          have hdq : d ∈ (digitsOf x.mant.natAbs).drop
              ((((digitsOf x.mant.natAbs).length : Int) - x.scale)).toNat := by
            rw [hsp]
            exact List.mem_append_left _ hd
          exact hu9 d (List.mem_of_mem_drop hdq)
        have hmval : x.mant.natAbs
            = valDigits ((digitsOf x.mant.natAbs).take
                ((((digitsOf x.mant.natAbs).length : Int) - x.scale)).toNat ++ w)
              * 10 ^ t0 := by
          rw [← valDigits_split_zeros, List.append_assoc, ← hsp,
            List.take_append_drop, huval]
        obtain ⟨r, hr, h1, h2, h3⟩ := setString_encoded z (decide (x.mant < 0))
          ((digitsOf x.mant.natAbs).take
            ((((digitsOf x.mant.natAbs).length : Int) - x.scale)).toNat)
          (some w) none
          hp9 hpne
          (by intro f hf d hd
              simp only [Option.mem_def, Option.some.injEq] at hf
              subst hf
              exact hw9 d hd)
          (by intro f hf
              simp only [Option.mem_def, Option.some.injEq] at hf
              subst hf
              unfold MaxScale
              unfold MaxScale at hsc2
              omega)
          (by intro av hav; simp at hav)
          (by
            simp only [Option.getD_some]
            intro hc
            rw [hc] at hmval
            simp at hmval
            exact hm hmval)
          (by
            simp only [Option.getD_none, Option.getD_some, neg_zero, zero_add]
            unfold MinScale
            omega)
          (by
            simp only [Option.getD_none, Option.getD_some, neg_zero, zero_add]
            unfold MaxScale
            unfold MaxScale at hsc2
            omega)
        refine ⟨r, ?_, ?_⟩
        · rw [show (if decide (x.mant < 0) = true then ['-'] else [])
                ++ (((digitsOf x.mant.natAbs).take
                    ((((digitsOf x.mant.natAbs).length : Int) - x.scale)).toNat).map
                      digitChar
                  ++ '.' :: w.map digitChar)
              = (if decide (x.mant < 0) = true then ['-'] else [])
                ++ ((digitsOf x.mant.natAbs).take
                  ((((digitsOf x.mant.natAbs).length : Int) - x.scale)).toNat).map
                    digitChar
                ++ '.' :: w.map digitChar ++ ([] : List Char) by simp]
          exact hr
        · apply roundtrip_finish x r hx h1
            (valDigits ((digitsOf x.mant.natAbs).take
              ((((digitsOf x.mant.natAbs).length : Int) - x.scale)).toNat ++ w)) t0
          · rw [h2]
            simp
          · rw [h3]
            simp only [Option.getD_none, Option.getD_some, neg_zero, zero_add]
            push_cast
            omega
          · exact hmval
  · -- scientific notation branch
    rw [if_neg hplain]
    have hL1' : (1:Int) ≤ ((digitsOf x.mant.natAbs).length : Int) := by
      exact_mod_cast hL1
    have hadj0 : -x.scale + (((digitsOf x.mant.natAbs).length : Int) - 1) ≠ 0 := by
      intro hc
      by_cases hsc0 : 0 ≤ x.scale
      · exact hplain ⟨hsc0, by omega⟩
      · push_neg at hsc0
        omega
    obtain ⟨u0, urest, hueq⟩ : ∃ u0 urest, digitsOf x.mant.natAbs = u0 :: urest := by
      cases hce : digitsOf x.mant.natAbs with
      | nil => exact absurd hce hune
      | cons c l => exact ⟨c, l, rfl⟩
    rw [hueq] at hu9 huval hLB hadj1 hadj2 hadj0 hL1'
    rw [hueq]
    obtain ⟨w, t0, hsp, hwl⟩ := split_trailing_zeros urest
    have hsplitlen : urest.length = w.length + t0 := by
      rw [hsp]
      simp
    rw [formatSci_digits u0 urest w t0 _ hu9 hsp hwl hadj0]
    by_cases hre : urest = []
    · -- single digit: d'e'±exp
      rw [if_pos hre]
      have hlen0 : urest.length = 0 := by rw [hre]; rfl
      obtain ⟨r, hr, h1, h2, h3⟩ := setString_encoded z (decide (x.mant < 0))
        [u0] none (some (-x.scale + (((u0 :: urest).length : Int) - 1)))
        (by intro d hd
            simp only [List.mem_singleton] at hd
            exact hu9 d (by simp [hd])) (by simp)
        (by intro f hf; simp at hf) (by intro f hf; simp at hf)
        (by intro av hav
            simp only [Option.mem_def, Option.some.injEq] at hav
            subst hav
            exact ⟨hadj0, hadj1, hadj2⟩)
        (by
          simp only [Option.getD_none, List.append_nil]
          intro hc
          rw [hre] at huval
          rw [huval] at hc
          exact hnz hc)
        (by
          simp only [Option.getD_none, Option.getD_some, List.length_nil,
            Nat.cast_zero, add_zero, List.length_cons]
          push_cast
          push_cast at hadj1 hadj2
          simp only [MinScale, MaxScale] at *
          omega)
        (by
          simp only [Option.getD_none, Option.getD_some, List.length_nil,
            Nat.cast_zero, add_zero, List.length_cons]
          push_cast
          push_cast at hadj1 hadj2
          simp only [MinScale, MaxScale] at *
          omega)
      refine ⟨r, ?_, ?_⟩
      · rw [show (if decide (x.mant < 0) = true then ['-'] else [])
              ++ ([digitChar u0] ++ []
                ++ 'e' :: ((if -x.scale + (((u0 :: urest).length : Int) - 1) > 0
                    then ['+'] else [])
                  ++ intChars (-x.scale + (((u0 :: urest).length : Int) - 1))))
            = (if decide (x.mant < 0) = true then ['-'] else [])
              ++ ([u0] : List Nat).map digitChar ++ ([] : List Char)
              ++ 'e' :: ((if -x.scale + (((u0 :: urest).length : Int) - 1) > 0
                  then ['+'] else [])
                ++ intChars (-x.scale + (((u0 :: urest).length : Int) - 1))) by simp]
        exact hr
      · apply roundtrip_finish x r hx h1 (valDigits [u0]) 0
        · rw [h2]
          simp
        · rw [h3]
          simp only [Option.getD_none, Option.getD_some, List.length_nil,
            Nat.cast_zero, add_zero, List.length_cons]
          push_cast
          omega
        · rw [hre] at huval
          rw [show valDigits [u0] = valDigits (u0 :: ([] : List Nat)) from rfl, huval]
          ring
    · rw [if_neg hre]
      by_cases hwe : w = []
      · -- fraction kept in full (all zeros)
        rw [if_pos hwe]
        have hr9 : ∀ d ∈ urest, d ≤ 9 := by
          intro d hd
          exact hu9 d (by simp [hd])
        obtain ⟨r, hr, h1, h2, h3⟩ := setString_encoded z (decide (x.mant < 0))
          [u0] (some urest) (some (-x.scale + (((u0 :: urest).length : Int) - 1)))
          (by intro d hd
              simp only [List.mem_singleton] at hd
              exact hu9 d (by simp [hd])) (by simp)
          (by intro f hf d hd
              simp only [Option.mem_def, Option.some.injEq] at hf
              subst hf
              exact hr9 d hd)
          (by intro f hf
              simp only [Option.mem_def, Option.some.injEq] at hf
              subst hf
              simp only [List.length_cons] at hLB
              push_cast at hLB ⊢
              unfold MaxScale
              unfold MaxScale at hLB
              omega)
          (by intro av hav
              simp only [Option.mem_def, Option.some.injEq] at hav
              subst hav
              exact ⟨hadj0, hadj1, hadj2⟩)
          (by
            simp only [Option.getD_some, List.singleton_append]
            rw [huval]
            exact hnz)
          (by
            simp only [Option.getD_some, List.length_cons]
            push_cast
            push_cast at hadj1 hadj2
            simp only [MinScale, MaxScale] at *
            omega)
          (by
            simp only [Option.getD_some, List.length_cons]
            push_cast
            push_cast at hadj1 hadj2
            simp only [MinScale, MaxScale] at *
            omega)
        refine ⟨r, ?_, ?_⟩
        · rw [show (if decide (x.mant < 0) = true then ['-'] else [])
                ++ ([digitChar u0] ++ '.' :: urest.map digitChar
                  ++ 'e' :: ((if -x.scale + (((u0 :: urest).length : Int) - 1) > 0
                      then ['+'] else [])
                    ++ intChars (-x.scale + (((u0 :: urest).length : Int) - 1))))
              = (if decide (x.mant < 0) = true then ['-'] else [])
                ++ ([u0] : List Nat).map digitChar ++ '.' :: urest.map digitChar
                ++ 'e' :: ((if -x.scale + (((u0 :: urest).length : Int) - 1) > 0
                    then ['+'] else [])
                  ++ intChars (-x.scale + (((u0 :: urest).length : Int) - 1))) by simp]
          exact hr
        · apply roundtrip_finish x r hx h1 (valDigits ([u0] ++ urest)) 0
          · rw [h2]
            simp
          · rw [h3]
            simp only [Option.getD_some, List.length_cons]
            push_cast
            omega
          · rw [List.singleton_append, huval]
            ring
      · -- trimmed fraction
        rw [if_neg hwe]
        have hw9 : ∀ d ∈ w, d ≤ 9 := by
          intro d hd
          have : d ∈ urest := by
            rw [hsp]
            exact List.mem_append_left _ hd
          exact hu9 d (by simp [this])
        have hmval : x.mant.natAbs = valDigits ([u0] ++ w) * 10 ^ t0 := by
          have hcv : valDigits (u0 :: urest)
              = valDigits ((u0 :: w) ++ List.replicate t0 0) := by
            rw [hsp, List.cons_append]
          rw [valDigits_split_zeros] at hcv
          rw [List.singleton_append]
          rw [huval] at hcv
          exact hcv
        obtain ⟨r, hr, h1, h2, h3⟩ := setString_encoded z (decide (x.mant < 0))
          [u0] (some w) (some (-x.scale + (((u0 :: urest).length : Int) - 1)))
          (by intro d hd
              simp only [List.mem_singleton] at hd
              exact hu9 d (by simp [hd])) (by simp)
          (by intro f hf d hd
              simp only [Option.mem_def, Option.some.injEq] at hf
              subst hf
              exact hw9 d hd)
          (by intro f hf
              simp only [Option.mem_def, Option.some.injEq] at hf
              subst hf
              simp only [List.length_cons] at hLB
              push_cast at hLB ⊢
              unfold MaxScale
              unfold MaxScale at hLB
              omega)
          (by intro av hav
              simp only [Option.mem_def, Option.some.injEq] at hav
              subst hav
              exact ⟨hadj0, hadj1, hadj2⟩)
          (by
            simp only [Option.getD_some]
            intro hc
            rw [hc] at hmval
            simp at hmval
            exact hm hmval)
          (by
            simp only [Option.getD_some, List.length_cons] at *
            push_cast
            push_cast at hadj1 hadj2
            unfold MinScale
            unfold MaxScale at hadj1 hadj2
            omega)
          (by
            simp only [Option.getD_some, List.length_cons]
            push_cast
            push_cast at hadj1 hadj2
            simp only [MinScale, MaxScale] at *
            omega)
        refine ⟨r, ?_, ?_⟩
        · rw [show (if decide (x.mant < 0) = true then ['-'] else [])
                ++ ([digitChar u0] ++ '.' :: w.map digitChar
                  ++ 'e' :: ((if -x.scale + (((u0 :: urest).length : Int) - 1) > 0
                      then ['+'] else [])
                    ++ intChars (-x.scale + (((u0 :: urest).length : Int) - 1))))
              = (if decide (x.mant < 0) = true then ['-'] else [])
                ++ ([u0] : List Nat).map digitChar ++ '.' :: w.map digitChar
                ++ 'e' :: ((if -x.scale + (((u0 :: urest).length : Int) - 1) > 0
                    then ['+'] else [])
                  ++ intChars (-x.scale + (((u0 :: urest).length : Int) - 1))) by simp]
          exact hr
        · apply roundtrip_finish x r hx h1 (valDigits ([u0] ++ w)) t0
          · rw [h2]
            simp
          · rw [h3]
            simp only [Option.getD_some, List.length_cons]
            push_cast
            omega
          · exact hmval

/-- Witness for C1: the round-trip theorem applied at the concrete value
`1234 × 10^-5` (printed `0.01234`) with a fresh receiver. -/
theorem C1_witness :
    ∃ r, Big.setString {} (Big.stringOf (bigNew 1234 5)) = (r, true) ∧
      r.numVal = (bigNew 1234 5).numVal := by
  refine C1_roundtrip_amended {} (bigNew 1234 5) (by decide) (by decide)
    (by decide) (by decide) ?_ ?_ ?_ <;>
    norm_num [bigNew, Big.setMantScale, Big.mant, Big.isCompact, digitsOf,
      MaxScale, Inflated]

/-- Counterexample to C1 as literally stated: for `x = 1 x 10^(2^31)`
(`New(1, MinScale)`, a perfectly representable finite nonzero value) the
printed form is `1e+2147483648`, whose exponent overflows the 32-bit
exponent parse of `SetString`; the parse underflows to zero and reports
`ok = false`, so the round trip is neither accepted nor numerically exact. -/
theorem C1_counterexample :
    (bigNew 1 MinScale).form = fFinite ∧
    (bigNew 1 MinScale).mant ≠ 0 ∧
    MinScale ≤ (bigNew 1 MinScale).scale ∧
    (bigNew 1 MinScale).scale ≤ MaxScale ∧
    Big.stringOf (bigNew 1 MinScale)
      = ['1', 'e', '+', '2', '1', '4', '7', '4', '8', '3', '6', '4', '8'] ∧
    (Big.setString {} (Big.stringOf (bigNew 1 MinScale))).2 = false ∧
    (Big.setString {} (Big.stringOf (bigNew 1 MinScale))).1.form = fZero ∧
    (bigNew 1 MinScale).numVal ≠ NumVal.fin 0 := by
  have hstr : Big.stringOf (bigNew 1 MinScale)
      = ['1', 'e', '+', '2', '1', '4', '7', '4', '8', '3', '6', '4', '8'] := by
    rw [stringOf_finite _ (by decide) (by decide)]
    norm_num [bigNew, Big.setMantScale, Big.mant, Big.isCompact, Inflated,
      MinScale, digitsOf, formatSci, trimIndex, intChars, natChars, digitChar]
  refine ⟨by decide, by decide, by decide, by decide, hstr, ?_, ?_, ?_⟩
  · rw [hstr]
    rfl
  · rw [hstr]
    rfl
  · rw [numVal_of_finite _ (by decide)]
    intro hc
    have hq : qval (bigNew 1 MinScale).mant (bigNew 1 MinScale).scale = 0 :=
      NumVal.fin.inj hc
    have hmv : (bigNew 1 MinScale).mant = 1 := by decide
    have hsv : (bigNew 1 MinScale).scale = MinScale := by decide
    rw [hmv, hsv] at hq
    unfold qval at hq
    rw [Int.cast_one, one_mul] at hq
    exact zpow_ne_zero _ (by norm_num : (10:ℚ) ≠ 0) hq

end DecimalSpec
